import Mathlib

/-!
The position ledger of opentrade: a shallow embedding of
`src/opentrade/position.cc`.

Conventions of the embedding.

* A finite C++ `double` is the rational number it stands for, so the fields of
  the program have type `ℚ`.  The program is embedded twice.  The definitions
  of the first part compute without rounding (exact arithmetic); the theorems
  on them say what the program does where no operation rounds, and what the
  accounting rules are.  The definitions of the namespace `fp`, and those of
  the PnL publisher, take the rounding of an arithmetic result as a parameter
  `rnd`: `round64` gives the arithmetic of the compiled program (IEEE-754
  binary64, round to nearest, ties to even), `id` gives the first embedding
  back.  Overflow, infinities and NaN are not modelled.  The only division of
  the program, in the opening branch of `HandlePnl`, has divisor `qty0 + qty`;
  whenever that divisor is zero the very next statement of the source
  overwrites the quotient with `0`, so the value Lean gives to `x / 0` is
  never observed.
* `assert(...)` is a no-op of the release build; the asserted condition is
  carried as a hypothesis by the theorems that need it.
* `Position` derives from `PositionValue`, which is declared in `position.h`.
  Its data and its three methods are taken as a parameter
  (`PositionValueOps V`): a base-class method acts on the base-class part only.
* `std::map` / `operator[]` is modelled by an association list with unique
  keys; a missing key reads as the value-initialised `Position{}`.  A loop
  over a map whose result depends on the order of the visits goes through
  `Ledger.inOrder`, the entries by ascending key.
* Owners (sub-account, broker account, user) and securities are given by
  their ids; the `position_value` slot of an owner object is a function of
  the id.
* The database table `position` is the list `journal` of the state, in
  insertion order.  The queued database task of `Handle` is run at once; its
  time stamp `GetNowStr()` is an argument (`now`) of `Handle`, a natural
  number.  The build is the production one (`BACKTEST` not defined).
-/

namespace opentrade

/-! ## PositionValue (declared in position.h) -/

/-- Data and methods of the base class `PositionValue`, taken as a parameter. -/
structure PositionValueOps (V : Type) where
  /-- Value-initialised `PositionValue{}`. -/
  init : V
  /-- Method `PositionValue::HandleNew(is_buy, qty, price, multiplier)`. -/
  HandleNew : Bool → ℚ → ℚ → ℚ → V → V
  /-- Method `PositionValue::HandleTrade(is_buy, qty, price, price0, multiplier, is_bust, is_otc)`. -/
  HandleTrade : Bool → ℚ → ℚ → ℚ → ℚ → Bool → Bool → V → V
  /-- Method `PositionValue::HandleFinish(is_buy, leaves_qty, price0, multiplier)`. -/
  HandleFinish : Bool → ℚ → ℚ → ℚ → V → V

/-- The trivial instance of the base class, used to evaluate concrete inputs. -/
def unitOps : PositionValueOps Unit where
  init := ()
  HandleNew := fun _ _ _ _ v => v
  HandleTrade := fun _ _ _ _ _ _ _ v => v
  HandleFinish := fun _ _ _ _ v => v

/-! ## Position -/

/-- One `Position` (a PositionEntry): the base-class part and the fields that
`position.cc` reads and writes. -/
structure Position (V : Type) where
  base : V
  qty : ℚ
  cx_qty : ℚ
  avg_px : ℚ
  unrealized_pnl : ℚ
  realized_pnl : ℚ
  total_bought_qty : ℚ
  total_sold_qty : ℚ
  total_outstanding_buy_qty : ℚ
  total_outstanding_sell_qty : ℚ

/-- Value-initialised `Position p{}`: every field zero. -/
def Position.init {V : Type} (pv : PositionValueOps V) : Position V where
  base := pv.init
  qty := 0
  cx_qty := 0
  avg_px := 0
  unrealized_pnl := 0
  realized_pnl := 0
  total_bought_qty := 0
  total_sold_qty := 0
  total_outstanding_buy_qty := 0
  total_outstanding_sell_qty := 0

/-- Function `HandlePnl(qty, price, multiplier, p)` of position.cc, lines 17-40. -/
def HandlePnl {V : Type} (qty price multiplier : ℚ) (p : Position V) : Position V :=
  let qty0 := p.qty
  let p1 : Position V :=
    if qty0 > 0 ∧ qty < 0 then
      if qty0 > -qty then
        { p with realized_pnl := p.realized_pnl + (price - p.avg_px) * -qty * multiplier }
      else
        { p with
          realized_pnl := p.realized_pnl + (price - p.avg_px) * qty0 * multiplier
          avg_px := price }
    else if qty0 < 0 ∧ qty > 0 then
      if -qty0 > qty then
        { p with realized_pnl := p.realized_pnl + (p.avg_px - price) * qty * multiplier }
      else
        { p with
          realized_pnl := p.realized_pnl + (p.avg_px - price) * -qty0 * multiplier
          avg_px := price }
    else
      { p with avg_px := (qty0 * p.avg_px + qty * price) / (qty0 + qty) }
  if qty0 + qty = 0 then { p1 with avg_px := 0 } else p1

/-- Method `Position::HandleTrade` of position.cc, lines 42-71. -/
def Position.HandleTrade {V : Type} (pv : PositionValueOps V) (is_buy : Bool)
    (qty price price0 multiplier : ℚ) (is_bust is_otc is_cx : Bool)
    (p : Position V) : Position V :=
  let p0 : Position V :=
    { p with base := pv.HandleTrade is_buy qty price price0 multiplier is_bust is_otc p.base }
  let qty1 : ℚ := if !is_buy then -qty else qty
  let p1 : Position V :=
    if is_otc then p0
    else if !is_bust then
      if qty1 > 0 then
        { p0 with
          total_outstanding_buy_qty := p0.total_outstanding_buy_qty - qty1
          total_bought_qty := p0.total_bought_qty + qty1 }
      else
        { p0 with
          total_outstanding_sell_qty := p0.total_outstanding_sell_qty - -qty1
          total_sold_qty := p0.total_sold_qty + -qty1 }
    else
      if qty1 > 0 then
        { p0 with total_bought_qty := p0.total_bought_qty - qty1 }
      else
        { p0 with total_sold_qty := p0.total_sold_qty - -qty1 }
  let qty2 : ℚ := if is_bust then -qty1 else qty1
  let p2 : Position V := HandlePnl qty2 price multiplier p1
  let p3 : Position V := { p2 with qty := p2.qty + qty2 }
  if is_cx then { p3 with cx_qty := p3.cx_qty + qty2 } else p3

/-- Method `Position::HandleFinish` of position.cc, lines 73-82. -/
def Position.HandleFinish {V : Type} (pv : PositionValueOps V) (is_buy : Bool)
    (leaves_qty price0 multiplier : ℚ) (p : Position V) : Position V :=
  let p1 : Position V :=
    if is_buy then
      { p with total_outstanding_buy_qty := p.total_outstanding_buy_qty - leaves_qty }
    else
      { p with total_outstanding_sell_qty := p.total_outstanding_sell_qty - leaves_qty }
  { p1 with base := pv.HandleFinish is_buy leaves_qty price0 multiplier p1.base }

/-- Method `Position::HandleNew` of position.cc, lines 84-93. -/
def Position.HandleNew {V : Type} (pv : PositionValueOps V) (is_buy : Bool)
    (qty price multiplier : ℚ) (p : Position V) : Position V :=
  let p1 : Position V :=
    if is_buy then
      { p with total_outstanding_buy_qty := p.total_outstanding_buy_qty + qty }
    else
      { p with total_outstanding_sell_qty := p.total_outstanding_sell_qty + qty }
  { p1 with base := pv.HandleNew is_buy qty price multiplier p1.base }

/-- The signed delta that `HandleTrade` hands to `HandlePnl` (the local `qty`
after lines 48 and 67). -/
def signedDelta (is_buy is_bust : Bool) (qty : ℚ) : ℚ :=
  let qty1 : ℚ := if !is_buy then -qty else qty
  if is_bust then -qty1 else qty1

/-! ## Call sequences on one entry -/

/-- One call of the three public methods of `Position`. -/
inductive Call where
  | new (is_buy : Bool) (qty price multiplier : ℚ)
  | trade (is_buy : Bool) (qty price price0 multiplier : ℚ) (is_bust is_otc is_cx : Bool)
  | finish (is_buy : Bool) (leaves_qty price0 multiplier : ℚ)

/-- The effect of one call on an entry. -/
def Call.apply {V : Type} (pv : PositionValueOps V) (c : Call) (p : Position V) : Position V :=
  match c with
  | .new is_buy qty price multiplier => Position.HandleNew pv is_buy qty price multiplier p
  | .trade is_buy qty price price0 multiplier is_bust is_otc is_cx =>
      Position.HandleTrade pv is_buy qty price price0 multiplier is_bust is_otc is_cx p
  | .finish is_buy leaves_qty price0 multiplier =>
      Position.HandleFinish pv is_buy leaves_qty price0 multiplier p

/-- The condition asserted on entry of each method: a positive quantity. -/
def Call.qtyPos (c : Call) : Prop :=
  match c with
  | .new _ qty _ _ => 0 < qty
  | .trade _ qty _ _ _ _ _ _ => 0 < qty
  | .finish _ leaves_qty _ _ => 0 < leaves_qty

/-- A sequence of calls applied from left to right. -/
def runCalls {V : Type} (pv : PositionValueOps V) (cs : List Call) (p : Position V) : Position V :=
  cs.foldl (fun acc c => c.apply pv acc) p

/-- One fill report of an on-book order: the arguments of a non-OTC `HandleTrade`. -/
structure Fill where
  qty : ℚ
  price : ℚ
  price0 : ℚ
  multiplier : ℚ
  is_bust : Bool
  is_cx : Bool

/-- The non-OTC `HandleTrade` call of a fill report on the given side. -/
def Fill.call (is_buy : Bool) (f : Fill) : Call :=
  .trade is_buy f.qty f.price f.price0 f.multiplier f.is_bust false f.is_cx

/-- Sum of the quantities of the fills that are not busts. -/
def filledQty : List Fill → ℚ
  | [] => 0
  | f :: fs => (if f.is_bust then 0 else f.qty) + filledQty fs

/-- The calls of one order on one side: `HandleNew(Q)`, its fills, and, when
`fin` is set, `HandleFinish` with what is left of `Q`. -/
def lifecycle (is_buy : Bool) (Q price multiplier : ℚ) (fills : List Fill) (fin : Bool) :
    List Call :=
  Call.new is_buy Q price multiplier ::
    (fills.map (Fill.call is_buy) ++
      (if fin then [Call.finish is_buy (Q - filledQty fills) price multiplier] else []))

/-- The outstanding quantity of one side of an entry. -/
def Position.outstanding {V : Type} (is_buy : Bool) (p : Position V) : ℚ :=
  if is_buy then p.total_outstanding_buy_qty else p.total_outstanding_sell_qty

/-! ## Ledgers -/

/-- Key of a ledger: (owner id, security id). -/
abbrev Key : Type := Nat × Nat

/-- One ledger (`sub_positions_`, `broker_positions_`, `user_positions_`):
a finite map from keys to entries, kept as a list with unique keys. -/
abbrev Ledger (V : Type) : Type := List (Key × Position V)

/-- Lookup `find(k)`: the entry stored under `k`, if any. -/
def Ledger.find {V : Type} (k : Key) : Ledger V → Option (Position V)
  | [] => none
  | (k', p) :: t => if k' = k then some p else Ledger.find k t

/-- What a reader of the ledger sees under `k`: the stored entry, or the
value-initialised entry that `operator[]` would create. -/
def Ledger.read {V : Type} (pv : PositionValueOps V) (l : Ledger V) (k : Key) : Position V :=
  (Ledger.find k l).getD (Position.init pv)

/-- Statement `l[k].method(...)`: `operator[]` creates the entry when it is
missing, then the method `f` mutates it in place. -/
def Ledger.modify {V : Type} (pv : PositionValueOps V) (k : Key)
    (f : Position V → Position V) : Ledger V → Ledger V
  | [] => [(k, f (Position.init pv))]
  | (k', p) :: t => if k' = k then (k', f p) :: t else (k', p) :: Ledger.modify pv k f t

/-- Statement `l.emplace(k, p)`: inserts only when the key is absent. -/
def Ledger.emplace {V : Type} (k : Key) (p : Position V) (l : Ledger V) : Ledger V :=
  match Ledger.find k l with
  | some _ => l
  | none => l ++ [(k, p)]

/-! ## Confirmations -/

/-- Security reference data read by position.cc. -/
structure Security where
  id : Nat
  rate : ℚ
  multiplier : ℚ

/-- Order types: the two that position.cc tests for, and all the others. -/
inductive OrderType where
  | kOTC
  | kCX
  | kOtherType
  deriving DecidableEq

/-- Execution types: the ones named in the switch of `Handle`, and all the
others (its `default` branch). -/
inductive ExecType where
  | kUnconfirmedNew
  | kPartiallyFilled
  | kFilled
  | kRiskRejected
  | kCanceled
  | kRejected
  | kExpired
  | kCalculated
  | kDoneForDay
  | kOtherExec
  deriving DecidableEq

/-- Execution transaction types: New, Cancel, and all the others. -/
inductive ExecTransType where
  | kTransNew
  | kTransCancel
  | kTransOther
  deriving DecidableEq

/-- The fields of an order that `Handle` reads; owners are given by their ids,
`is_buy` is the result of `ord->IsBuy()`. -/
structure Order where
  id : Nat
  is_buy : Bool
  type : OrderType
  price : ℚ
  qty : ℚ
  sub_account : Nat
  broker_account : Nat
  user : Nat
  sec : Security

/-- The fields of a confirmation that `Handle` reads. -/
structure Confirmation where
  order : Order
  exec_type : ExecType
  exec_trans_type : ExecTransType
  last_shares : ℚ
  last_px : ℚ
  leaves_qty : ℚ

/-- One row of the database table `position` (the journal); the `info`
blob of trade metadata is not read back by the program and is left out. -/
structure JournalRow where
  user_id : Nat
  sub_account_id : Nat
  security_id : Nat
  broker_account_id : Nat
  qty : ℚ
  cx_qty : ℚ
  avg_px : ℚ
  realized_pnl : ℚ
  tm : Nat

/-- Beginning-of-day snapshot `Bod`. -/
structure Bod where
  qty : ℚ
  cx_qty : ℚ
  avg_px : ℚ
  realized_pnl : ℚ
  broker_account_id : Nat
  tm : Nat

/-! ## PositionManager -/

/-- State that `PositionManager` works on: its three ledgers and BOD table,
the `position_value` slot of every owner object, and the journal table. -/
structure PositionManager (V : Type) where
  sub_positions_ : Ledger V
  broker_positions_ : Ledger V
  user_positions_ : Ledger V
  bods_ : List (Key × Bod)
  sub_account_value : Nat → V
  broker_account_value : Nat → V
  user_value : Nat → V
  journal : List JournalRow

/-- A freshly started manager: empty ledgers, owners at their initial value. -/
def PositionManager.empty {V : Type} (pv : PositionValueOps V) (journal : List JournalRow) :
    PositionManager V where
  sub_positions_ := []
  broker_positions_ := []
  user_positions_ := []
  bods_ := []
  sub_account_value := fun _ => pv.init
  broker_account_value := fun _ => pv.init
  user_value := fun _ => pv.init
  journal := journal

/-- Method `PositionManager::Handle(cm, offline)` of position.cc, lines 202-359.
`now` is the time stamp that the queued database task puts on its row. -/
def PositionManager.Handle {V : Type} (pv : PositionValueOps V) (cm : Confirmation)
    (offline : Bool) (now : Nat) (s : PositionManager V) : PositionManager V :=
  let ord := cm.order
  let sec := ord.sec
  let multiplier : ℚ := sec.rate * sec.multiplier
  let is_buy : Bool := ord.is_buy
  let is_otc : Bool := decide (ord.type = OrderType.kOTC) || decide (ord.type = OrderType.kCX)
  let is_cx : Bool := decide (ord.type = OrderType.kCX)
  let fill (is_bust : Bool) : PositionManager V :=
    let qty := cm.last_shares
    let px := cm.last_px
    let px0 := ord.price
    let trade : Position V → Position V :=
      Position.HandleTrade pv is_buy qty px px0 multiplier is_bust is_otc is_cx
    let s1 : PositionManager V :=
      { s with
        sub_positions_ := Ledger.modify pv (ord.sub_account, sec.id) trade s.sub_positions_
        broker_positions_ := Ledger.modify pv (ord.broker_account, sec.id) trade s.broker_positions_
        user_positions_ := Ledger.modify pv (ord.user, sec.id) trade s.user_positions_
        sub_account_value := Function.update s.sub_account_value ord.sub_account
          (pv.HandleTrade is_buy qty px px0 multiplier is_bust is_otc
            (s.sub_account_value ord.sub_account))
        broker_account_value := Function.update s.broker_account_value ord.broker_account
          (pv.HandleTrade is_buy qty px px0 multiplier is_bust is_otc
            (s.broker_account_value ord.broker_account))
        user_value := Function.update s.user_value ord.user
          (pv.HandleTrade is_buy qty px px0 multiplier is_bust is_otc
            (s.user_value ord.user)) }
    if offline then s1
    else
      let pos := Ledger.read pv s1.sub_positions_ (ord.sub_account, sec.id)
      { s1 with
        journal := s1.journal ++
          [{ user_id := ord.user
             sub_account_id := ord.sub_account
             security_id := sec.id
             broker_account_id := ord.broker_account
             qty := pos.qty
             cx_qty := pos.cx_qty
             avg_px := pos.avg_px
             realized_pnl := pos.realized_pnl
             tm := now }] }
  match cm.exec_type with
  | .kPartiallyFilled | .kFilled =>
    match cm.exec_trans_type with
    | .kTransNew => fill false
    | .kTransCancel => fill true
    | .kTransOther => s
  | .kUnconfirmedNew =>
    if !is_otc then
      let qty := ord.qty
      let px := ord.price
      { s with
        sub_positions_ := Ledger.modify pv (ord.sub_account, sec.id)
          (Position.HandleNew pv is_buy qty px multiplier) s.sub_positions_
        broker_positions_ := Ledger.modify pv (ord.broker_account, sec.id)
          (Position.HandleNew pv is_buy qty px multiplier) s.broker_positions_
        user_positions_ := Ledger.modify pv (ord.user, sec.id)
          (Position.HandleNew pv is_buy qty px multiplier) s.user_positions_
        sub_account_value := Function.update s.sub_account_value ord.sub_account
          (pv.HandleNew is_buy qty px multiplier (s.sub_account_value ord.sub_account))
        broker_account_value := Function.update s.broker_account_value ord.broker_account
          (pv.HandleNew is_buy qty px multiplier (s.broker_account_value ord.broker_account))
        user_value := Function.update s.user_value ord.user
          (pv.HandleNew is_buy qty px multiplier (s.user_value ord.user)) }
    else s
  | .kRiskRejected | .kCanceled | .kRejected | .kExpired | .kCalculated | .kDoneForDay =>
    if !is_otc then
      let qty := cm.leaves_qty
      let px := ord.price
      { s with
        sub_positions_ := Ledger.modify pv (ord.sub_account, sec.id)
          (Position.HandleFinish pv is_buy qty px multiplier) s.sub_positions_
        broker_positions_ := Ledger.modify pv (ord.broker_account, sec.id)
          (Position.HandleFinish pv is_buy qty px multiplier) s.broker_positions_
        user_positions_ := Ledger.modify pv (ord.user, sec.id)
          (Position.HandleFinish pv is_buy qty px multiplier) s.user_positions_
        sub_account_value := Function.update s.sub_account_value ord.sub_account
          (pv.HandleFinish is_buy qty px multiplier (s.sub_account_value ord.sub_account))
        broker_account_value := Function.update s.broker_account_value ord.broker_account
          (pv.HandleFinish is_buy qty px multiplier (s.broker_account_value ord.broker_account))
        user_value := Function.update s.user_value ord.user
          (pv.HandleFinish is_buy qty px multiplier (s.user_value ord.user)) }
    else s
  | .kOtherExec => s

/-- A run of live (non-offline) confirmations, each with the time stamp of its
journal row. -/
def PositionManager.run {V : Type} (pv : PositionValueOps V)
    (evs : List (Confirmation × Nat)) (s : PositionManager V) : PositionManager V :=
  evs.foldl (fun acc e => PositionManager.Handle pv e.1 false e.2 acc) s

/-! ## Recovery (`PositionManager::Initialize`) -/

/-- The key (sub_account_id, security_id) of a journal row. -/
def JournalRow.key (r : JournalRow) : Key := (r.sub_account_id, r.security_id)

/-- The key (broker_account_id, security_id) of a journal row. -/
def JournalRow.brokerKey (r : JournalRow) : Key := (r.broker_account_id, r.security_id)

/-- The query of `Initialize` (position.cc, lines 121-136): the rows stamped
before the session marker whose stamp is the greatest one of their
(sub_account_id, security_id) group.  This is the join on `max(tm)` of the
sqlite text; the `distinct on ... order by ... tm desc` text keeps one such
row per group, so the two return the same rows when stamps are distinct.
The order of the result is that of the journal; the theorems on recovery
take the rows in any order. -/
def latestBefore (session : Nat) (journal : List JournalRow) : List JournalRow :=
  journal.filter (fun r =>
    decide (r.tm < session) &&
      journal.all (fun r' =>
        !(decide (r'.tm < session) && decide (r'.key = r.key)) || decide (r'.tm ≤ r.tm)))

/-- The fold of one recovered `Position p` into an aggregate entry `p2`
(position.cc, lines 169-172 and again 175-178). -/
def foldRow {V : Type} (sec : Security) (row : JournalRow) (p2 : Position V) : Position V :=
  let p2a : Position V := { p2 with realized_pnl := p2.realized_pnl + row.realized_pnl }
  let p2b : Position V := HandlePnl row.qty row.avg_px (sec.multiplier * sec.rate) p2a
  let p2c : Position V := { p2b with qty := p2b.qty + row.qty }
  { p2c with cx_qty := p2c.cx_qty + row.cx_qty }

/-- Body of the row loop of `Initialize` (position.cc, lines 138-179);
`secs` is `SecurityManager::Instance().Get`. -/
def PositionManager.InitializeRow {V : Type} (pv : PositionValueOps V)
    (secs : Nat → Option Security) (s : PositionManager V) (row : JournalRow) :
    PositionManager V :=
  match secs row.security_id with
  | none => s
  | some sec =>
    let p : Position V :=
      { Position.init pv with
        qty := row.qty
        cx_qty := row.cx_qty
        avg_px := row.avg_px
        realized_pnl := row.realized_pnl }
    let bod : Bod :=
      { qty := p.qty
        cx_qty := p.cx_qty
        avg_px := p.avg_px
        realized_pnl := p.realized_pnl
        broker_account_id := row.broker_account_id
        tm := row.tm }
    { s with
      bods_ :=
        if s.bods_.any (fun b => decide (b.1 = (row.sub_account_id, row.security_id)))
        then s.bods_ else s.bods_ ++ [((row.sub_account_id, row.security_id), bod)]
      sub_positions_ := Ledger.emplace (row.sub_account_id, row.security_id) p s.sub_positions_
      broker_positions_ :=
        Ledger.modify pv (row.broker_account_id, row.security_id) (foldRow sec row)
          s.broker_positions_
      user_positions_ :=
        Ledger.modify pv (row.broker_account_id, row.security_id) (foldRow sec row)
          s.user_positions_ }

/-- The row loop of `Initialize` (position.cc, lines 138-179) over the rows
that the database hands back, in the order it hands them back. -/
def PositionManager.InitializeRows {V : Type} (pv : PositionValueOps V)
    (secs : Nat → Option Security) (rows : List JournalRow) (s : PositionManager V) :
    PositionManager V :=
  rows.foldl (PositionManager.InitializeRow pv secs) s

/-- The row loop of `Initialize` over the result of its query, taken in
journal order. -/
def PositionManager.Initialize {V : Type} (pv : PositionValueOps V)
    (secs : Nat → Option Security) (session : Nat) (s : PositionManager V) :
    PositionManager V :=
  PositionManager.InitializeRows pv secs (latestBefore session s.journal) s

/-- The four journaled fields of an entry. -/
def Position.journaled {V : Type} (p : Position V) : ℚ × ℚ × ℚ × ℚ :=
  (p.qty, p.cx_qty, p.avg_px, p.realized_pnl)

/-- The four journaled fields of a row. -/
def JournalRow.journaled (r : JournalRow) : ℚ × ℚ × ℚ × ℚ :=
  (r.qty, r.cx_qty, r.avg_px, r.realized_pnl)

/-- The entry that the row loop of `Initialize` builds from a row
(position.cc, lines 139-149). -/
def JournalRow.toPosition {V : Type} (pv : PositionValueOps V) (row : JournalRow) : Position V :=
  { Position.init pv with
    qty := row.qty
    cx_qty := row.cx_qty
    avg_px := row.avg_px
    realized_pnl := row.realized_pnl }

/-- Sum of `g` over the rows that belong to the broker-account key `bk`. -/
def brokerSum (g : JournalRow → ℚ) (bk : Key) (rows : List JournalRow) : ℚ :=
  (rows.map (fun r => if r.brokerKey = bk then g r else 0)).sum

/-! ## Views of a confirmation used to state what `Handle` does -/

/-- The local `is_otc` of `Handle` (position.cc, line 207). -/
def Confirmation.is_otc (cm : Confirmation) : Bool :=
  decide (cm.order.type = OrderType.kOTC) || decide (cm.order.type = OrderType.kCX)

/-- The local `is_cx` of `Handle` (position.cc, line 208). -/
def Confirmation.is_cx (cm : Confirmation) : Bool :=
  decide (cm.order.type = OrderType.kCX)

/-- The local `multiplier` of `Handle` (position.cc, line 205). -/
def Confirmation.multiplier (cm : Confirmation) : ℚ :=
  cm.order.sec.rate * cm.order.sec.multiplier

/-- Key of the order in the sub-account ledger. -/
def Order.subKey (o : Order) : Key := (o.sub_account, o.sec.id)

/-- Key of the order in the broker-account ledger. -/
def Order.brokerKey (o : Order) : Key := (o.broker_account, o.sec.id)

/-- Key of the order in the user ledger. -/
def Order.userKey (o : Order) : Key := (o.user, o.sec.id)

/-- The confirmations that reach `HandleTrade`: PartiallyFilled or Filled with
transaction type New or Cancel. -/
def Confirmation.isFill (cm : Confirmation) : Bool :=
  (decide (cm.exec_type = ExecType.kPartiallyFilled) || decide (cm.exec_type = ExecType.kFilled))
    && (decide (cm.exec_trans_type = ExecTransType.kTransNew)
      || decide (cm.exec_trans_type = ExecTransType.kTransCancel))

/-- The method call that `Handle` makes on each of its three entries, if any. -/
def Confirmation.effect (cm : Confirmation) : Option Call :=
  match cm.exec_type with
  | .kPartiallyFilled | .kFilled =>
    match cm.exec_trans_type with
    | .kTransNew =>
      some (Call.trade cm.order.is_buy cm.last_shares cm.last_px cm.order.price cm.multiplier
        false cm.is_otc cm.is_cx)
    | .kTransCancel =>
      some (Call.trade cm.order.is_buy cm.last_shares cm.last_px cm.order.price cm.multiplier
        true cm.is_otc cm.is_cx)
    | .kTransOther => none
  | .kUnconfirmedNew =>
    if cm.is_otc then none
    else some (Call.new cm.order.is_buy cm.order.qty cm.order.price cm.multiplier)
  | .kRiskRejected | .kCanceled | .kRejected | .kExpired | .kCalculated | .kDoneForDay =>
    if cm.is_otc then none
    else some (Call.finish cm.order.is_buy cm.leaves_qty cm.order.price cm.multiplier)
  | .kOtherExec => none

/-- The journal row that `Handle` queues for a fill: the owners of the order
and the journaled fields of the sub-account entry `pos`. -/
def Confirmation.row {V : Type} (cm : Confirmation) (pos : Position V) (now : Nat) :
    JournalRow where
  user_id := cm.order.user
  sub_account_id := cm.order.sub_account
  security_id := cm.order.sec.id
  broker_account_id := cm.order.broker_account
  qty := pos.qty
  cx_qty := pos.cx_qty
  avg_px := pos.avg_px
  realized_pnl := pos.realized_pnl
  tm := now

/-- The time stamps of the journal rows that a run writes: those of its
confirmations that reach `HandleTrade`. -/
def journalStamps (evs : List (Confirmation × Nat)) : List Nat :=
  (evs.filter (fun e => e.1.isFill)).map Prod.snd

/-- A Filled confirmation of order `o` with the given transaction type,
`last_shares`, `last_px` and `leaves_qty`. -/
def filledConfirmation (o : Order) (t : ExecTransType) (q px leaves : ℚ) : Confirmation where
  order := o
  exec_type := ExecType.kFilled
  exec_trans_type := t
  last_shares := q
  last_px := px
  leaves_qty := leaves

/-- The entries on which a fill at `price` followed by its bust restores the
average price: flat ones (`qty = 0`, `avg_px = 0`), and those that hold a
position (`qty ≠ 0`) whose average price is `price`. -/
def Position.bustRestorable {V : Type} (e : Position V) (price : ℚ) : Prop :=
  (e.qty = 0 ∧ e.avg_px = 0) ∨ (e.qty ≠ 0 ∧ price = e.avg_px)

/-- What a fill at `price` followed by its bust leaves of entry `e` in `r`:
`qty` is back; `avg_px` and `realized_pnl` are back when `e` is restorable,
and `avg_px` is back only then. -/
def Position.bustRestored {V : Type} (e r : Position V) (price : ℚ) : Prop :=
  r.qty = e.qty ∧
    (e.bustRestorable price → r.avg_px = e.avg_px ∧ r.realized_pnl = e.realized_pnl) ∧
    (r.avg_px = e.avg_px → e.bustRestorable price)

/-! ## Sample data for concrete evaluations -/

/-- A security with id 7, rate 1 and multiplier 1. -/
def sampleSecurity : Security where
  id := 7
  rate := 1
  multiplier := 1

/-- An on-book buy order of 100 at 10 for sub-account 1, broker account 1, user 1. -/
def sampleOrder : Order where
  id := 1
  is_buy := true
  type := OrderType.kOtherType
  price := 10
  qty := 100
  sub_account := 1
  broker_account := 1
  user := 1
  sec := sampleSecurity

/-- The same order reported off-book (type OTC). -/
def sampleOtcOrder : Order := { sampleOrder with type := OrderType.kOTC }

/-- State before the fill of the bust example: sub-account 1 is long 40 at 10. -/
def bustExampleBefore : PositionManager Unit :=
  PositionManager.Handle unitOps
    { filledConfirmation sampleOrder ExecTransType.kTransNew 40 10 60 with
      exec_type := ExecType.kPartiallyFilled }
    false 1 (PositionManager.empty unitOps [])

/-- State after a fill of 60 at 20 and its bust, applied to `bustExampleBefore`. -/
def bustExampleAfter : PositionManager Unit :=
  PositionManager.Handle unitOps
    (filledConfirmation sampleOrder ExecTransType.kTransCancel 60 20 0) false 3
    (PositionManager.Handle unitOps
      (filledConfirmation sampleOrder ExecTransType.kTransNew 60 20 0) false 2
      bustExampleBefore)

/-- A buy order of sub-account 2 through the broker account of `sampleOrder`. -/
def sampleOrderB : Order := { sampleOrder with id := 2, sub_account := 2 }

/-- A sell order of sub-account 1 through the same broker account. -/
def sampleSellOrder : Order := { sampleOrder with id := 3, is_buy := false }

/-- Sub-account 1 buys 100 at 10, sub-account 2 buys 100 at 20, sub-account 1
sells 100 at 10; all through broker account 1, stamped 1, 2, 3. -/
def brokerExampleEvents : List (Confirmation × Nat) :=
  [(filledConfirmation sampleOrder ExecTransType.kTransNew 100 10 0, 1),
    (filledConfirmation sampleOrderB ExecTransType.kTransNew 100 20 0, 2),
    (filledConfirmation sampleSellOrder ExecTransType.kTransNew 100 10 0, 3)]

/-- The live state after `brokerExampleEvents`. -/
def brokerExampleLive : PositionManager Unit :=
  PositionManager.run unitOps brokerExampleEvents (PositionManager.empty unitOps [])

/-- The state recovered from the journal of `brokerExampleLive`, session
marker 10, rows taken in journal order. -/
def brokerExampleRecovered : PositionManager Unit :=
  PositionManager.Initialize unitOps (fun _ => some sampleSecurity) 10
    (PositionManager.empty unitOps brokerExampleLive.journal)

/-- The same recovery with the rows taken in the order of `order by
sub_account_id, security_id`: sub-account 1 first. -/
def brokerExampleRecoveredByKey : PositionManager Unit :=
  PositionManager.InitializeRows unitOps (fun _ => some sampleSecurity)
    (latestBefore 10 brokerExampleLive.journal).reverse
    (PositionManager.empty unitOps brokerExampleLive.journal)

/-- The fields of `Position` proper (all but the base-class part) agree. -/
def Position.sameFields {V : Type} (p r : Position V) : Prop :=
  r.qty = p.qty ∧ r.cx_qty = p.cx_qty ∧ r.avg_px = p.avg_px ∧
    r.unrealized_pnl = p.unrealized_pnl ∧ r.realized_pnl = p.realized_pnl ∧
    r.total_bought_qty = p.total_bought_qty ∧ r.total_sold_qty = p.total_sold_qty ∧
    r.total_outstanding_buy_qty = p.total_outstanding_buy_qty ∧
    r.total_outstanding_sell_qty = p.total_outstanding_sell_qty

/-- One `HandleTrade` call of a sequence that shares its multiplier. -/
structure Trade where
  is_buy : Bool
  qty : ℚ
  price : ℚ
  price0 : ℚ
  is_bust : Bool
  is_otc : Bool
  is_cx : Bool

/-- The `HandleTrade` call of a trade under multiplier `m`. -/
def Trade.call (m : ℚ) (t : Trade) : Call :=
  Call.trade t.is_buy t.qty t.price t.price0 m t.is_bust t.is_otc t.is_cx

/-- The signed delta of a trade. -/
def Trade.delta (t : Trade) : ℚ := signedDelta t.is_buy t.is_bust t.qty

/-- Sum over the trades of signed delta times price. -/
def sumDeltaPrice : List Trade → ℚ
  | [] => 0
  | t :: ts => t.delta * t.price + sumDeltaPrice ts

/-- Sum over the trades of signed delta times the distance of the mark price
`P` from the trade price. -/
def sumDeltaMark (P : ℚ) : List Trade → ℚ
  | [] => 0
  | t :: ts => t.delta * (P - t.price) + sumDeltaMark P ts

/-- Sum of the quantity `g` over the entries of a ledger that belong to
security `sec`. -/
def Ledger.secSum {V : Type} (g : Position V → ℚ) (sec : Nat) (l : Ledger V) : ℚ :=
  (l.map (fun e => if e.1.2 = sec then g e.2 else 0)).sum

/-- The six quantities that every tier accumulates alike. -/
def conservedFields (V : Type) : List (Position V → ℚ) :=
  [Position.qty, Position.cx_qty, Position.total_outstanding_buy_qty,
    Position.total_outstanding_sell_qty, Position.total_bought_qty, Position.total_sold_qty]

/-- A run of confirmations, each with its `offline` flag and the time stamp
of its journal row. -/
def PositionManager.runAny {V : Type} (pv : PositionValueOps V)
    (evs : List (Confirmation × Bool × Nat)) (s : PositionManager V) : PositionManager V :=
  evs.foldl (fun acc e => PositionManager.Handle pv e.1 e.2.1 e.2.2 acc) s

/-- A recovered row: sub-account 1 is long 100 at 10 through broker account 1. -/
def foldRowA : JournalRow := ⟨1, 1, 7, 1, 100, 0, 10, 0, 1⟩

/-- A recovered row: sub-account 2 is short 50 at 20 through broker account 1. -/
def foldRowB : JournalRow := ⟨1, 2, 7, 1, -50, 0, 20, 0, 2⟩

/-- A recovered row: sub-account 3 is long 100 at 30 through broker account 1. -/
def foldRowC : JournalRow := ⟨1, 3, 7, 1, 100, 0, 30, 0, 3⟩

/-- An order of user 5 and sub-account 1 through broker account 2. -/
def userExampleOrder : Order := { sampleOrder with user := 5, broker_account := 2 }

/-- The live state after one fill of 100 at 10 of `userExampleOrder`. -/
def userExampleLive : PositionManager Unit :=
  PositionManager.run unitOps
    [(filledConfirmation userExampleOrder ExecTransType.kTransNew 100 10 0, 1)]
    (PositionManager.empty unitOps [])

/-- The state recovered from the journal of `userExampleLive`, session marker 10. -/
def userExampleRecovered : PositionManager Unit :=
  PositionManager.Initialize unitOps (fun _ => some sampleSecurity) 10
    (PositionManager.empty unitOps userExampleLive.journal)

/-! ## Binary64 arithmetic -/

/-- Floor of the binary logarithm of `n` (0 for `n < 2`); the first argument
bounds the recursion and is given as `n` itself. -/
def log2Fuel : Nat → Nat → Nat
  | 0, _ => 0
  | fuel + 1, n => if n < 2 then 0 else log2Fuel fuel (n / 2) + 1

/-- The quotient `N / D` rounded to the nearest natural number, ties to even. -/
def roundNat (N D : Nat) : Nat :=
  let q := N / D
  let r := N % D
  if 2 * r > D then q + 1 else if 2 * r = D then (if q % 2 = 0 then q else q + 1) else q

/-- Rounding of a real result to a C++ `double` (IEEE-754 binary64, round to
nearest, ties to even): a significand of 53 bits, gradual underflow at
`2^-1074`.  The exponent is not bounded above: overflow, infinities and NaN
are not modelled.  A finite `double` is the rational number it stands for,
and `round64` leaves it as it is. -/
def round64 (x : ℚ) : ℚ :=
  if x = 0 then 0
  else
    let n : Nat := x.num.natAbs
    let d : Nat := x.den
    let e0 : Int := (log2Fuel n n : Int) - (log2Fuel d d : Int)
    let e : Int :=
      if (if e0 ≥ 0 then decide (d * 2 ^ e0.toNat ≤ n) else decide (d ≤ n * 2 ^ (-e0).toNat))
      then e0 else e0 - 1
    let s : Int := max (e - 52) (-1074)
    let m : Nat :=
      if s ≥ 0 then roundNat n (d * 2 ^ s.toNat) else roundNat (n * 2 ^ (-s).toNat) d
    let v : ℚ := if s ≥ 0 then (m : ℚ) * 2 ^ s.toNat else (m : ℚ) / 2 ^ (-s).toNat
    if x < 0 then -v else v

/-- The `double` that the decimal literal `n / d` denotes. -/
def dbl (n : Int) (d : Nat) : ℚ := round64 ((n : ℚ) / (d : ℚ))

/-! ## The program with rounded arithmetic

The functions of position.cc once more, with the rounding `rnd` applied to
the result of every addition, subtraction, multiplication and division, in the
order in which C++ evaluates them (one rounding per operation: no fused
multiply-add, no extended precision).  Negation, `std::abs` and comparisons
are exact.  With `rnd = round64` this is the arithmetic of the compiled
program; with `rnd = id` these are the definitions above. -/

namespace fp

/-- Function `HandlePnl(qty, price, multiplier, p)` of position.cc, lines 17-40. -/
def HandlePnl {V : Type} (rnd : ℚ → ℚ) (qty price multiplier : ℚ) (p : Position V) :
    Position V :=
  let qty0 := p.qty
  let p1 : Position V :=
    if qty0 > 0 ∧ qty < 0 then
      if qty0 > -qty then
        { p with
          realized_pnl :=
            rnd (p.realized_pnl + rnd (rnd (rnd (price - p.avg_px) * -qty) * multiplier)) }
      else
        { p with
          realized_pnl :=
            rnd (p.realized_pnl + rnd (rnd (rnd (price - p.avg_px) * qty0) * multiplier))
          avg_px := price }
    else if qty0 < 0 ∧ qty > 0 then
      if -qty0 > qty then
        { p with
          realized_pnl :=
            rnd (p.realized_pnl + rnd (rnd (rnd (p.avg_px - price) * qty) * multiplier)) }
      else
        { p with
          realized_pnl :=
            rnd (p.realized_pnl + rnd (rnd (rnd (p.avg_px - price) * -qty0) * multiplier))
          avg_px := price }
    else
      { p with avg_px := rnd (rnd (rnd (qty0 * p.avg_px) + rnd (qty * price)) / rnd (qty0 + qty)) }
  if rnd (qty0 + qty) = 0 then { p1 with avg_px := 0 } else p1

/-- Method `Position::HandleTrade` of position.cc, lines 42-71. -/
def Position.HandleTrade {V : Type} (rnd : ℚ → ℚ) (pv : PositionValueOps V) (is_buy : Bool)
    (qty price price0 multiplier : ℚ) (is_bust is_otc is_cx : Bool)
    (p : Position V) : Position V :=
  let p0 : Position V :=
    { p with base := pv.HandleTrade is_buy qty price price0 multiplier is_bust is_otc p.base }
  let qty1 : ℚ := if !is_buy then -qty else qty
  let p1 : Position V :=
    if is_otc then p0
    else if !is_bust then
      if qty1 > 0 then
        { p0 with
          total_outstanding_buy_qty := rnd (p0.total_outstanding_buy_qty - qty1)
          total_bought_qty := rnd (p0.total_bought_qty + qty1) }
      else
        { p0 with
          total_outstanding_sell_qty := rnd (p0.total_outstanding_sell_qty - -qty1)
          total_sold_qty := rnd (p0.total_sold_qty + -qty1) }
    else
      if qty1 > 0 then
        { p0 with total_bought_qty := rnd (p0.total_bought_qty - qty1) }
      else
        { p0 with total_sold_qty := rnd (p0.total_sold_qty - -qty1) }
  let qty2 : ℚ := if is_bust then -qty1 else qty1
  let p2 : Position V := HandlePnl rnd qty2 price multiplier p1
  let p3 : Position V := { p2 with qty := rnd (p2.qty + qty2) }
  if is_cx then { p3 with cx_qty := rnd (p3.cx_qty + qty2) } else p3

/-- Method `Position::HandleFinish` of position.cc, lines 73-82. -/
def Position.HandleFinish {V : Type} (rnd : ℚ → ℚ) (pv : PositionValueOps V) (is_buy : Bool)
    (leaves_qty price0 multiplier : ℚ) (p : Position V) : Position V :=
  let p1 : Position V :=
    if is_buy then
      { p with total_outstanding_buy_qty := rnd (p.total_outstanding_buy_qty - leaves_qty) }
    else
      { p with total_outstanding_sell_qty := rnd (p.total_outstanding_sell_qty - leaves_qty) }
  { p1 with base := pv.HandleFinish is_buy leaves_qty price0 multiplier p1.base }

/-- Method `Position::HandleNew` of position.cc, lines 84-93. -/
def Position.HandleNew {V : Type} (rnd : ℚ → ℚ) (pv : PositionValueOps V) (is_buy : Bool)
    (qty price multiplier : ℚ) (p : Position V) : Position V :=
  let p1 : Position V :=
    if is_buy then
      { p with total_outstanding_buy_qty := rnd (p.total_outstanding_buy_qty + qty) }
    else
      { p with total_outstanding_sell_qty := rnd (p.total_outstanding_sell_qty + qty) }
  { p1 with base := pv.HandleNew is_buy qty price multiplier p1.base }

/-- The effect of one call on an entry. -/
def Call.apply {V : Type} (rnd : ℚ → ℚ) (pv : PositionValueOps V) (c : Call)
    (p : Position V) : Position V :=
  match c with
  | .new is_buy qty price multiplier => Position.HandleNew rnd pv is_buy qty price multiplier p
  | .trade is_buy qty price price0 multiplier is_bust is_otc is_cx =>
      Position.HandleTrade rnd pv is_buy qty price price0 multiplier is_bust is_otc is_cx p
  | .finish is_buy leaves_qty price0 multiplier =>
      Position.HandleFinish rnd pv is_buy leaves_qty price0 multiplier p

/-- A sequence of calls applied from left to right. -/
def runCalls {V : Type} (rnd : ℚ → ℚ) (pv : PositionValueOps V) (cs : List Call)
    (p : Position V) : Position V :=
  cs.foldl (fun acc c => Call.apply rnd pv c acc) p

/-- Method `PositionManager::Handle(cm, offline)` of position.cc, lines 202-359.
`now` is the time stamp that the queued database task puts on its row. -/
def PositionManager.Handle {V : Type} (rnd : ℚ → ℚ) (pv : PositionValueOps V)
    (cm : Confirmation) (offline : Bool) (now : Nat) (s : PositionManager V) :
    PositionManager V :=
  let ord := cm.order
  let sec := ord.sec
  let multiplier : ℚ := rnd (sec.rate * sec.multiplier)
  let is_buy : Bool := ord.is_buy
  let is_otc : Bool := decide (ord.type = OrderType.kOTC) || decide (ord.type = OrderType.kCX)
  let is_cx : Bool := decide (ord.type = OrderType.kCX)
  let fill (is_bust : Bool) : PositionManager V :=
    let qty := cm.last_shares
    let px := cm.last_px
    let px0 := ord.price
    let trade : Position V → Position V :=
      Position.HandleTrade rnd pv is_buy qty px px0 multiplier is_bust is_otc is_cx
    let s1 : PositionManager V :=
      { s with
        sub_positions_ := Ledger.modify pv (ord.sub_account, sec.id) trade s.sub_positions_
        broker_positions_ := Ledger.modify pv (ord.broker_account, sec.id) trade s.broker_positions_
        user_positions_ := Ledger.modify pv (ord.user, sec.id) trade s.user_positions_
        sub_account_value := Function.update s.sub_account_value ord.sub_account
          (pv.HandleTrade is_buy qty px px0 multiplier is_bust is_otc
            (s.sub_account_value ord.sub_account))
        broker_account_value := Function.update s.broker_account_value ord.broker_account
          (pv.HandleTrade is_buy qty px px0 multiplier is_bust is_otc
            (s.broker_account_value ord.broker_account))
        user_value := Function.update s.user_value ord.user
          (pv.HandleTrade is_buy qty px px0 multiplier is_bust is_otc
            (s.user_value ord.user)) }
    if offline then s1
    else
      let pos := Ledger.read pv s1.sub_positions_ (ord.sub_account, sec.id)
      { s1 with
        journal := s1.journal ++
          [{ user_id := ord.user
             sub_account_id := ord.sub_account
             security_id := sec.id
             broker_account_id := ord.broker_account
             qty := pos.qty
             cx_qty := pos.cx_qty
             avg_px := pos.avg_px
             realized_pnl := pos.realized_pnl
             tm := now }] }
  match cm.exec_type with
  | .kPartiallyFilled | .kFilled =>
    match cm.exec_trans_type with
    | .kTransNew => fill false
    | .kTransCancel => fill true
    | .kTransOther => s
  | .kUnconfirmedNew =>
    if !is_otc then
      let qty := ord.qty
      let px := ord.price
      { s with
        sub_positions_ := Ledger.modify pv (ord.sub_account, sec.id)
          (Position.HandleNew rnd pv is_buy qty px multiplier) s.sub_positions_
        broker_positions_ := Ledger.modify pv (ord.broker_account, sec.id)
          (Position.HandleNew rnd pv is_buy qty px multiplier) s.broker_positions_
        user_positions_ := Ledger.modify pv (ord.user, sec.id)
          (Position.HandleNew rnd pv is_buy qty px multiplier) s.user_positions_
        sub_account_value := Function.update s.sub_account_value ord.sub_account
          (pv.HandleNew is_buy qty px multiplier (s.sub_account_value ord.sub_account))
        broker_account_value := Function.update s.broker_account_value ord.broker_account
          (pv.HandleNew is_buy qty px multiplier (s.broker_account_value ord.broker_account))
        user_value := Function.update s.user_value ord.user
          (pv.HandleNew is_buy qty px multiplier (s.user_value ord.user)) }
    else s
  | .kRiskRejected | .kCanceled | .kRejected | .kExpired | .kCalculated | .kDoneForDay =>
    if !is_otc then
      let qty := cm.leaves_qty
      let px := ord.price
      { s with
        sub_positions_ := Ledger.modify pv (ord.sub_account, sec.id)
          (Position.HandleFinish rnd pv is_buy qty px multiplier) s.sub_positions_
        broker_positions_ := Ledger.modify pv (ord.broker_account, sec.id)
          (Position.HandleFinish rnd pv is_buy qty px multiplier) s.broker_positions_
        user_positions_ := Ledger.modify pv (ord.user, sec.id)
          (Position.HandleFinish rnd pv is_buy qty px multiplier) s.user_positions_
        sub_account_value := Function.update s.sub_account_value ord.sub_account
          (pv.HandleFinish is_buy qty px multiplier (s.sub_account_value ord.sub_account))
        broker_account_value := Function.update s.broker_account_value ord.broker_account
          (pv.HandleFinish is_buy qty px multiplier (s.broker_account_value ord.broker_account))
        user_value := Function.update s.user_value ord.user
          (pv.HandleFinish is_buy qty px multiplier (s.user_value ord.user)) }
    else s
  | .kOtherExec => s

/-- A run of live (non-offline) confirmations, each with the time stamp of its
journal row. -/
def PositionManager.run {V : Type} (rnd : ℚ → ℚ) (pv : PositionValueOps V)
    (evs : List (Confirmation × Nat)) (s : PositionManager V) : PositionManager V :=
  evs.foldl (fun acc e => PositionManager.Handle rnd pv e.1 false e.2 acc) s

/-- The fold of one recovered `Position p` into an aggregate entry `p2`
(position.cc, lines 169-172 and again 175-178). -/
def foldRow {V : Type} (rnd : ℚ → ℚ) (sec : Security) (row : JournalRow) (p2 : Position V) :
    Position V :=
  let p2a : Position V := { p2 with realized_pnl := rnd (p2.realized_pnl + row.realized_pnl) }
  let p2b : Position V := HandlePnl rnd row.qty row.avg_px (rnd (sec.multiplier * sec.rate)) p2a
  let p2c : Position V := { p2b with qty := rnd (p2b.qty + row.qty) }
  { p2c with cx_qty := rnd (p2c.cx_qty + row.cx_qty) }

/-- Body of the row loop of `Initialize` (position.cc, lines 138-179);
`secs` is `SecurityManager::Instance().Get`. -/
def PositionManager.InitializeRow {V : Type} (rnd : ℚ → ℚ) (pv : PositionValueOps V)
    (secs : Nat → Option Security) (s : PositionManager V) (row : JournalRow) :
    PositionManager V :=
  match secs row.security_id with
  | none => s
  | some sec =>
    let p : Position V :=
      { Position.init pv with
        qty := row.qty
        cx_qty := row.cx_qty
        avg_px := row.avg_px
        realized_pnl := row.realized_pnl }
    let bod : Bod :=
      { qty := p.qty
        cx_qty := p.cx_qty
        avg_px := p.avg_px
        realized_pnl := p.realized_pnl
        broker_account_id := row.broker_account_id
        tm := row.tm }
    { s with
      bods_ :=
        if s.bods_.any (fun b => decide (b.1 = (row.sub_account_id, row.security_id)))
        then s.bods_ else s.bods_ ++ [((row.sub_account_id, row.security_id), bod)]
      sub_positions_ := Ledger.emplace (row.sub_account_id, row.security_id) p s.sub_positions_
      broker_positions_ :=
        Ledger.modify pv (row.broker_account_id, row.security_id) (foldRow rnd sec row)
          s.broker_positions_
      user_positions_ :=
        Ledger.modify pv (row.broker_account_id, row.security_id) (foldRow rnd sec row)
          s.user_positions_ }

/-- The row loop of `Initialize` (position.cc, lines 138-179) over the rows
that the database hands back, in the order it hands them back. -/
def PositionManager.InitializeRows {V : Type} (rnd : ℚ → ℚ) (pv : PositionValueOps V)
    (secs : Nat → Option Security) (rows : List JournalRow) (s : PositionManager V) :
    PositionManager V :=
  rows.foldl (PositionManager.InitializeRow rnd pv secs) s

/-- The row loop of `Initialize` over the result of its query, taken in
journal order. -/
def PositionManager.Initialize {V : Type} (rnd : ℚ → ℚ) (pv : PositionValueOps V)
    (secs : Nat → Option Security) (session : Nat) (s : PositionManager V) :
    PositionManager V :=
  PositionManager.InitializeRows rnd pv secs (latestBefore session s.journal) s

end fp

/-- A run of confirmations, each with its `offline` flag and the time stamp
of its journal row, with rounded arithmetic. -/
def fp.PositionManager.runAny {V : Type} (rnd : ℚ → ℚ) (pv : PositionValueOps V)
    (evs : List (Confirmation × Bool × Nat)) (s : PositionManager V) : PositionManager V :=
  evs.foldl (fun acc e => fp.PositionManager.Handle rnd pv e.1 e.2.1 e.2.2 acc) s

/-! ## PnL publication

`UpdateBalance` and `UpdatePnl`, with the rounding `rnd` of every arithmetic
operation as a parameter (`round64` for the compiled program, `id` for exact
arithmetic). -/

/-- The members of the base class `PositionValue` that `UpdateBalance` reads on
an entry and writes on an owner object. -/
structure BalanceOps (V : Type) where
  /-- Member `total_outstanding_buy`. -/
  total_outstanding_buy : V → ℚ
  /-- Member `total_outstanding_sell`. -/
  total_outstanding_sell : V → ℚ
  /-- Statements `long_value += x; short_value += y`. -/
  addValue : ℚ → ℚ → V → V

/-- The trivial instance, matching `unitOps`. -/
def unitBalanceOps : BalanceOps Unit where
  total_outstanding_buy := fun _ => 0
  total_outstanding_sell := fun _ => 0
  addValue := fun _ _ _ => ()

/-- What `UpdateBalance` reads of `SecurityManager`: the lookup `Get(id)` and
`Security::CurrentPrice()`. -/
structure SecurityManager where
  Get : Nat → Option Security
  CurrentPrice : Security → ℚ

/-- The ids of the owner objects held by `AccountManager`. -/
structure AccountManager where
  sub_accounts_ : List Nat
  broker_accounts_ : List Nat
  users_ : List Nat

/-- The order of the keys of a ledger, `std::less` on `std::pair`:
lexicographic. -/
def Key.le (a b : Key) : Bool :=
  decide (a.1 < b.1) || (decide (a.1 = b.1) && decide (a.2 ≤ b.2))

/-- The entries of a ledger in the order in which a loop over the `std::map`
visits them: by ascending key. -/
def Ledger.inOrder {V : Type} (l : Ledger V) : Ledger V :=
  l.insertionSort (fun a b => Key.le a.1 b.1 = true)

/-- Body of the first loop of `UpdateBalance` (position.cc, lines 366-381) for
one entry: `none` when the body ends in `continue`, else the entry
afterwards, the local `qty` and the product `qty * price * m`. -/
def UpdateBalance.entry {V : Type} (rnd : ℚ → ℚ) (bo : BalanceOps V) (sm : SecurityManager)
    (sec_id : Nat) (pos : Position V) : Option (Position V × ℚ × ℚ) :=
  if pos.qty = 0 ∧ pos.unrealized_pnl = 0 then none
  else
    match sm.Get sec_id with
    | none => none
    | some sec =>
      let price := sm.CurrentPrice sec
      if price = 0 then none
      else
        let m := rnd (sec.rate * sec.multiplier)
        let pos1 : Position V :=
          { pos with unrealized_pnl := rnd (rnd (pos.qty * rnd (price - pos.avg_px)) * m) }
        let qty :=
          rnd (rnd (pos.qty + bo.total_outstanding_buy pos.base)
            - bo.total_outstanding_sell pos.base)
        some (pos1, qty, rnd (rnd (qty * price) * m))

/-- The map `balances` after the first loop of `UpdateBalance`, read at `acc`
(a missing key reads as the value-initialised pair). -/
def UpdateBalance.balances {V : Type} (rnd : ℚ → ℚ) (bo : BalanceOps V) (sm : SecurityManager)
    (positions : Ledger V) (acc : Nat) : ℚ × ℚ :=
  (Ledger.inOrder positions).foldl
    (fun b e =>
      if e.1.1 = acc then
        match UpdateBalance.entry rnd bo sm e.1.2 e.2 with
        | none => b
        | some (_, qty, v) => if qty > 0 then (rnd (b.1 + v), b.2) else (b.1, rnd (b.2 - v))
      else b)
    (0, 0)

/-- Function template `UpdateBalance(positions, accs)` of position.cc, lines
361-387: the ledger with every priced entry re-marked, and the owner objects
with their long and short values raised by the balances. -/
def UpdateBalance {V : Type} (rnd : ℚ → ℚ) (bo : BalanceOps V) (sm : SecurityManager)
    (accs : List Nat) (positions : Ledger V) (value : Nat → V) : Ledger V × (Nat → V) :=
  (positions.map
      (fun e =>
        match UpdateBalance.entry rnd bo sm e.1.2 e.2 with
        | none => e
        | some (pos1, _, _) => (e.1, pos1)),
    fun a =>
      if a ∈ accs then
        bo.addValue (UpdateBalance.balances rnd bo sm positions a).1
          (UpdateBalance.balances rnd bo sm positions a).2 (value a)
      else value a)

/-- One element of the member `pnls_`: the pair last published for a
sub-account and the lines written to its file `pnl-<id>` by this process
(time stamp and the two values handed to the stream).
Modelled from the spec: the struct is declared in position.h, which is not
part of the sources at hand; its value-initialised pair is (0, 0). -/
structure Pnl where
  realized : ℚ
  unrealized : ℚ
  of : List (Nat × ℚ × ℚ)
  deriving DecidableEq

/-- Value-initialised `Pnl`, what `pnls_[id]` creates for a new id. -/
def Pnl.init : Pnl where
  realized := 0
  unrealized := 0
  of := []

/-- Statements `auto& pnl = pnls[acc]; pnl.first += r; pnl.second += u;` on the
local map `pnls`.  The list is in order of first insertion, which is the
ascending order of the map because the ledger is visited by ascending key. -/
def addPnl (rnd : ℚ → ℚ) (acc : Nat) (r u : ℚ) : List (Nat × ℚ × ℚ) → List (Nat × ℚ × ℚ)
  | [] => [(acc, rnd (0 + r), rnd (0 + u))]
  | (a, v) :: t =>
    if a = acc then (a, rnd (v.1 + r), rnd (v.2 + u)) :: t else (a, v) :: addPnl rnd acc r u t

/-- The local map `pnls` of `UpdatePnl` after the loop over `sub_positions_`
(position.cc, lines 395-402). -/
def aggregatePnl {V : Type} (rnd : ℚ → ℚ) (l : Ledger V) : List (Nat × ℚ × ℚ) :=
  (Ledger.inOrder l).foldl
    (fun m e => addPnl rnd e.1.1 e.2.realized_pnl e.2.unrealized_pnl m) []

/-- Body of the second loop of `UpdatePnl` (position.cc, lines 409-422) for one
element of `pnls`; `tm` is the result of `GetTime()`. -/
def publishOne (rnd : ℚ → ℚ) (tm : Nat) (pnls_ : Nat → Pnl) (e : Nat × ℚ × ℚ) : Nat → Pnl :=
  if |rnd ((pnls_ e.1).realized - e.2.1)| < 1 ∧ |rnd ((pnls_ e.1).unrealized - e.2.2)| < 1 then
    pnls_
  else
    Function.update pnls_ e.1
      { realized := e.2.1
        unrealized := e.2.2
        of := (pnls_ e.1).of ++ [(tm, e.2.1, e.2.2)] }

/-- Method `PositionManager::UpdatePnl` of position.cc, lines 389-425, in the
build without `BACKTEST`; the member `pnls_` is carried beside the state.
The task that runs the method again one second later is not part of the
model. -/
def PositionManager.UpdatePnl {V : Type} (rnd : ℚ → ℚ) (bo : BalanceOps V)
    (sm : SecurityManager) (am : AccountManager) (tm : Nat) (s : PositionManager V)
    (pnls_ : Nat → Pnl) : PositionManager V × (Nat → Pnl) :=
  let sub := UpdateBalance rnd bo sm am.sub_accounts_ s.sub_positions_ s.sub_account_value
  let broker :=
    UpdateBalance rnd bo sm am.broker_accounts_ s.broker_positions_ s.broker_account_value
  let user := UpdateBalance rnd bo sm am.users_ s.user_positions_ s.user_value
  let s1 : PositionManager V :=
    { s with
      sub_positions_ := sub.1
      broker_positions_ := broker.1
      user_positions_ := user.1
      sub_account_value := sub.2
      broker_account_value := broker.2
      user_value := user.2 }
  (s1, (aggregatePnl rnd s1.sub_positions_).foldl (publishOne rnd tm) pnls_)

/-- Lookup in the local map `pnls`. -/
def pnlFind (a : Nat) : List (Nat × ℚ × ℚ) → Option (ℚ × ℚ)
  | [] => none
  | (k, v) :: t => if k = a then some v else pnlFind a t

/-- Whether the ledger holds an entry of account `a`. -/
def Ledger.hasAccount {V : Type} (a : Nat) (l : Ledger V) : Bool :=
  l.any (fun e => decide (e.1.1 = a))

/-- The running sum `x += g(entry)` over the entries of account `a` in the
list `l`, from left to right, starting from `x`. -/
def accFoldFrom {V : Type} (rnd : ℚ → ℚ) (g : Position V → ℚ) (a : Nat) (x : ℚ)
    (l : Ledger V) : ℚ :=
  (l.filter (fun e => decide (e.1.1 = a))).foldl (fun y e => rnd (y + g e.2)) x

/-- The sum of the field `g` over the entries of account `a` as a loop over
the ledger accumulates it: from 0, by ascending key, each addition rounded. -/
def Ledger.accFold {V : Type} (rnd : ℚ → ℚ) (g : Position V → ℚ) (a : Nat) (l : Ledger V) : ℚ :=
  accFoldFrom rnd g a 0 (Ledger.inOrder l)

/-! ## Sample data in double precision -/

/-- Three fills of a buy order, 0.2, 0.2 and 0.5 at 10 (as doubles). -/
def roundingFills : List Fill :=
  [⟨dbl 2 10, 10, 10, 1, false, false⟩, ⟨dbl 2 10, 10, 10, 1, false, false⟩,
    ⟨dbl 5 10, 10, 10, 1, false, false⟩]

/-- An entry whose outstanding buy quantity is the double 0.1. -/
def roundingEntry : Position Unit :=
  { Position.init unitOps with total_outstanding_buy_qty := dbl 1 10 }

/-- A buy order of 3 at 0.1 for sub-account 1, broker account 1, user 1. -/
def roundingOrder : Order := { sampleOrder with price := dbl 1 10, qty := 3 }

/-- The compiled program on the empty state: the order `roundingOrder` is
filled, 3 at 0.1, and the fill is busted. -/
def roundingBustExample : PositionManager Unit :=
  fp.PositionManager.Handle round64 unitOps
    (filledConfirmation roundingOrder ExecTransType.kTransCancel 3 (dbl 1 10) 0) false 2
    (fp.PositionManager.Handle round64 unitOps
      (filledConfirmation roundingOrder ExecTransType.kTransNew 3 (dbl 1 10) 0) false 1
      (PositionManager.empty unitOps []))

/-- Sub-account 2 buys 0.1, sub-account 1 buys 0.2 and then 0.3, all at 10
through broker account 1, stamped 1, 2, 3. -/
def roundingEvents : List (Confirmation × Nat) :=
  [(filledConfirmation sampleOrderB ExecTransType.kTransNew (dbl 1 10) 10 0, 1),
    (filledConfirmation sampleOrder ExecTransType.kTransNew (dbl 2 10) 10 0, 2),
    (filledConfirmation sampleOrder ExecTransType.kTransNew (dbl 3 10) 10 0, 3)]

/-- The live state of the compiled program after `roundingEvents`. -/
def roundingLive : PositionManager Unit :=
  fp.PositionManager.run round64 unitOps roundingEvents (PositionManager.empty unitOps [])

/-- The state that the compiled program recovers from the journal of
`roundingLive`, session marker 10, rows taken in journal order. -/
def roundingRecovered : PositionManager Unit :=
  fp.PositionManager.Initialize round64 unitOps (fun _ => some sampleSecurity) 10
    (PositionManager.empty unitOps roundingLive.journal)

/-- The same recovery with the rows taken in the opposite order. -/
def roundingRecoveredByKey : PositionManager Unit :=
  fp.PositionManager.InitializeRows round64 unitOps (fun _ => some sampleSecurity)
    (latestBefore 10 roundingLive.journal).reverse
    (PositionManager.empty unitOps roundingLive.journal)

/-- Recovered rows of three sub-accounts of broker account 1, long 0.1, 0.2
and 0.3 at 10. -/
def roundingRows : List JournalRow :=
  [⟨1, 1, 7, 1, dbl 1 10, 0, 10, 0, 1⟩, ⟨1, 2, 7, 1, dbl 2 10, 0, 10, 0, 2⟩,
    ⟨1, 3, 7, 1, dbl 3 10, 0, 10, 0, 3⟩]

/-! ## Entry-level facts -/

section EntryLemmas

variable {V : Type}

theorem HandlePnl_qty (d price m : ℚ) (p : Position V) :
    (HandlePnl d price m p).qty = p.qty := by
  unfold HandlePnl
  dsimp only
  split_ifs <;> rfl

theorem HandlePnl_avg_px_of_sum_zero (d price m : ℚ) (p : Position V) (h : p.qty + d = 0) :
    (HandlePnl d price m p).avg_px = 0 := by
  unfold HandlePnl
  dsimp only
  rw [if_pos h]

theorem HandleTrade_qty (pv : PositionValueOps V) (is_buy : Bool) (qty price price0 m : ℚ)
    (is_bust is_otc is_cx : Bool) (p : Position V) :
    (Position.HandleTrade pv is_buy qty price price0 m is_bust is_otc is_cx p).qty
      = p.qty + signedDelta is_buy is_bust qty := by
  unfold Position.HandleTrade signedDelta
  dsimp only
  cases is_cx <;> simp only [HandlePnl_qty, Bool.false_eq_true, if_false, if_true]
    <;> split_ifs <;> rfl

theorem HandleTrade_avg_px_of_qty_zero (pv : PositionValueOps V) (is_buy : Bool)
    (qty price price0 m : ℚ) (is_bust is_otc is_cx : Bool) (p : Position V)
    (h : (Position.HandleTrade pv is_buy qty price price0 m is_bust is_otc is_cx p).qty = 0) :
    (Position.HandleTrade pv is_buy qty price price0 m is_bust is_otc is_cx p).avg_px = 0 := by
  rw [HandleTrade_qty] at h
  unfold Position.HandleTrade
  unfold signedDelta at h
  dsimp only at h ⊢
  have key : ∀ p1 : Position V, p1.qty = p.qty →
      (HandlePnl (if is_bust = true then -(if (!is_buy) = true then -qty else qty)
        else if (!is_buy) = true then -qty else qty) price m p1).avg_px = 0 := by
    intro p1 hp1
    apply HandlePnl_avg_px_of_sum_zero
    rw [hp1]
    exact h
  cases is_cx <;> simp only [Bool.false_eq_true, if_false, if_true] <;> apply key
    <;> split_ifs <;> rfl

theorem HandlePnl_avg_px_congr (d price m : ℚ) (p p' : Position V)
    (hq : p.qty = p'.qty) (ha : p.avg_px = p'.avg_px) :
    (HandlePnl d price m p).avg_px = (HandlePnl d price m p').avg_px := by
  unfold HandlePnl
  dsimp only
  rw [hq, ha]
  split_ifs <;> rfl

theorem HandlePnl_realized_pnl_congr (d price m : ℚ) (p p' : Position V)
    (hq : p.qty = p'.qty) (ha : p.avg_px = p'.avg_px) (hr : p.realized_pnl = p'.realized_pnl) :
    (HandlePnl d price m p).realized_pnl = (HandlePnl d price m p').realized_pnl := by
  unfold HandlePnl
  dsimp only
  rw [hq, ha, hr]
  split_ifs <;> rfl

theorem HandleTrade_avg_px (pv : PositionValueOps V) (is_buy : Bool) (qty price price0 m : ℚ)
    (is_bust is_otc is_cx : Bool) (p : Position V) :
    (Position.HandleTrade pv is_buy qty price price0 m is_bust is_otc is_cx p).avg_px
      = (HandlePnl (signedDelta is_buy is_bust qty) price m p).avg_px := by
  unfold Position.HandleTrade signedDelta
  dsimp only
  cases is_cx <;> simp only [Bool.false_eq_true, if_false, if_true]
    <;> apply HandlePnl_avg_px_congr <;> split_ifs <;> rfl

theorem HandleTrade_realized_pnl (pv : PositionValueOps V) (is_buy : Bool)
    (qty price price0 m : ℚ) (is_bust is_otc is_cx : Bool) (p : Position V) :
    (Position.HandleTrade pv is_buy qty price price0 m is_bust is_otc is_cx p).realized_pnl
      = (HandlePnl (signedDelta is_buy is_bust qty) price m p).realized_pnl := by
  unfold Position.HandleTrade signedDelta
  dsimp only
  cases is_cx <;> simp only [Bool.false_eq_true, if_false, if_true]
    <;> apply HandlePnl_realized_pnl_congr <;> split_ifs <;> rfl

theorem HandleTrade_cx_qty (pv : PositionValueOps V) (is_buy : Bool) (qty price price0 m : ℚ)
    (is_bust is_otc is_cx : Bool) (p : Position V) :
    (Position.HandleTrade pv is_buy qty price price0 m is_bust is_otc is_cx p).cx_qty
      = p.cx_qty + (if is_cx then signedDelta is_buy is_bust qty else 0) := by
  unfold Position.HandleTrade signedDelta
  dsimp only
  have hc : ∀ (d pr mm : ℚ) (q : Position V), (HandlePnl d pr mm q).cx_qty = q.cx_qty := by
    intro d pr mm q
    unfold HandlePnl
    dsimp only
    split_ifs <;> rfl
  cases is_cx <;> simp only [Bool.false_eq_true, if_false, if_true, hc, add_zero]
    <;> split_ifs <;> rfl

/-- The opening branch of `HandlePnl`. -/
theorem HandlePnl_open (d price m : ℚ) (p : Position V) (hd : d ≠ 0)
    (hs : p.qty = 0 ∨ (0 < p.qty ∧ 0 < d) ∨ (p.qty < 0 ∧ d < 0)) :
    (HandlePnl d price m p).avg_px = (p.qty * p.avg_px + d * price) / (p.qty + d) ∧
      (HandlePnl d price m p).realized_pnl = p.realized_pnl := by
  have h1 : ¬ (p.qty > 0 ∧ d < 0) := by
    rintro ⟨a, b⟩
    rcases hs with h | ⟨_, h⟩ | ⟨h, _⟩ <;> linarith
  have h2 : ¬ (p.qty < 0 ∧ d > 0) := by
    rintro ⟨a, b⟩
    rcases hs with h | ⟨h, _⟩ | ⟨_, h⟩ <;> linarith
  have h3 : ¬ (p.qty + d = 0) := by
    intro h
    rcases hs with h0 | ⟨a, b⟩ | ⟨a, b⟩
    · rw [h0, zero_add] at h
      exact hd h
    · linarith
    · linarith
  unfold HandlePnl
  dsimp only
  rw [if_neg h1, if_neg h2, if_neg h3]
  exact ⟨rfl, rfl⟩

/-- The partial-close branches of `HandlePnl`. -/
theorem HandlePnl_partial (d price m : ℚ) (p : Position V)
    (hs : (0 < p.qty ∧ d < 0 ∧ -d < p.qty) ∨ (p.qty < 0 ∧ 0 < d ∧ d < -p.qty)) :
    (HandlePnl d price m p).avg_px = p.avg_px ∧
      (HandlePnl d price m p).realized_pnl
        = p.realized_pnl + (price - p.avg_px) * (-d) * m := by
  unfold HandlePnl
  dsimp only
  rcases hs with ⟨a, b, c⟩ | ⟨a, b, c⟩
  · have h3 : ¬ (p.qty + d = 0) := by intro h; linarith
    have h0 : p.qty > 0 ∧ d < 0 := ⟨a, b⟩
    have h2 : p.qty > -d := c
    rw [if_pos h0, if_pos h2, if_neg h3]
    exact ⟨rfl, rfl⟩
  · have h1 : ¬ (p.qty > 0 ∧ d < 0) := by rintro ⟨x, _⟩; linarith
    have h3 : ¬ (p.qty + d = 0) := by intro h; linarith
    have h0 : p.qty < 0 ∧ d > 0 := ⟨a, b⟩
    have h2 : -p.qty > d := c
    rw [if_neg h1, if_pos h0, if_pos h2, if_neg h3]
    refine ⟨rfl, ?_⟩
    show p.realized_pnl + (p.avg_px - price) * d * m = _
    ring

/-- The full-close and flip branches of `HandlePnl`. -/
theorem HandlePnl_flip (d price m : ℚ) (p : Position V)
    (hs : (0 < p.qty ∧ d < 0 ∧ p.qty ≤ -d) ∨ (p.qty < 0 ∧ 0 < d ∧ -p.qty ≤ d)) :
    (HandlePnl d price m p).avg_px = (if p.qty + d = 0 then 0 else price) ∧
      (HandlePnl d price m p).realized_pnl
        = p.realized_pnl + (price - p.avg_px) * p.qty * m := by
  unfold HandlePnl
  dsimp only
  rcases hs with ⟨a, b, c⟩ | ⟨a, b, c⟩
  · have h2 : ¬ (p.qty > -d) := by intro h; linarith
    have h0 : p.qty > 0 ∧ d < 0 := ⟨a, b⟩
    rw [if_pos h0, if_neg h2]
    by_cases h3 : p.qty + d = 0
    · rw [if_pos h3, if_pos h3]
      exact ⟨rfl, rfl⟩
    · rw [if_neg h3, if_neg h3]
      exact ⟨rfl, rfl⟩
  · have h1 : ¬ (p.qty > 0 ∧ d < 0) := by rintro ⟨x, _⟩; linarith
    have h2 : ¬ (-p.qty > d) := by intro h; linarith
    have h0 : p.qty < 0 ∧ d > 0 := ⟨a, b⟩
    rw [if_neg h1, if_pos h0, if_neg h2]
    by_cases h3 : p.qty + d = 0
    · rw [if_pos h3, if_pos h3]
      refine ⟨rfl, ?_⟩
      show p.realized_pnl + (p.avg_px - price) * -p.qty * m = _
      ring
    · rw [if_neg h3, if_neg h3]
      refine ⟨rfl, ?_⟩
      show p.realized_pnl + (p.avg_px - price) * -p.qty * m = _
      ring

theorem HandleNew_journaled (pv : PositionValueOps V) (is_buy : Bool) (qty price m : ℚ)
    (p : Position V) :
    (Position.HandleNew pv is_buy qty price m p).journaled = p.journaled := by
  unfold Position.HandleNew Position.journaled
  cases is_buy <;> rfl

theorem HandleFinish_journaled (pv : PositionValueOps V) (is_buy : Bool) (qty price m : ℚ)
    (p : Position V) :
    (Position.HandleFinish pv is_buy qty price m p).journaled = p.journaled := by
  unfold Position.HandleFinish Position.journaled
  cases is_buy <;> rfl

theorem HandlePnl_frame (d price m : ℚ) (p : Position V) :
    (HandlePnl d price m p).base = p.base ∧
      (HandlePnl d price m p).cx_qty = p.cx_qty ∧
      (HandlePnl d price m p).unrealized_pnl = p.unrealized_pnl ∧
      (HandlePnl d price m p).total_bought_qty = p.total_bought_qty ∧
      (HandlePnl d price m p).total_sold_qty = p.total_sold_qty ∧
      (HandlePnl d price m p).total_outstanding_buy_qty = p.total_outstanding_buy_qty ∧
      (HandlePnl d price m p).total_outstanding_sell_qty = p.total_outstanding_sell_qty := by
  unfold HandlePnl
  dsimp only
  split_ifs <;> exact ⟨rfl, rfl, rfl, rfl, rfl, rfl, rfl⟩

/-- What a non-OTC `HandleTrade` with a positive quantity does to the two
outstanding quantities. -/
theorem HandleTrade_outstanding (pv : PositionValueOps V) (is_buy : Bool)
    (qty price price0 m : ℚ) (is_bust is_cx : Bool) (p : Position V) (hq : 0 < qty) :
    (Position.HandleTrade pv is_buy qty price price0 m is_bust false is_cx
        p).total_outstanding_buy_qty
        = p.total_outstanding_buy_qty - (if is_buy && !is_bust then qty else 0) ∧
      (Position.HandleTrade pv is_buy qty price price0 m is_bust false is_cx
        p).total_outstanding_sell_qty
        = p.total_outstanding_sell_qty - (if !is_buy && !is_bust then qty else 0) := by
  have hn : ¬ (-qty > 0) := by intro h; linarith
  have hp : qty > 0 := hq
  unfold Position.HandleTrade
  dsimp only
  cases is_cx <;> cases is_buy <;> cases is_bust <;>
    simp only [Bool.false_eq_true, if_false, if_true, Bool.not_true, Bool.not_false,
      (HandlePnl_frame _ _ _ _).2.2.2.2.2.1, (HandlePnl_frame _ _ _ _).2.2.2.2.2.2,
      if_neg hn, if_pos hp, Bool.and_true, Bool.and_false, Bool.true_and, Bool.false_and,
      sub_zero, neg_neg, and_self]

theorem runCalls_append (pv : PositionValueOps V) (a b : List Call) (p : Position V) :
    runCalls pv (a ++ b) p = runCalls pv b (runCalls pv a p) := by
  unfold runCalls
  rw [List.foldl_append]

theorem filledQty_nonneg (fills : List Fill) (hf : ∀ f ∈ fills, 0 < f.qty) :
    0 ≤ filledQty fills := by
  induction fills with
  | nil => exact le_refl 0
  | cons f fs ih =>
    have h1 : 0 < f.qty := hf f (List.mem_cons_self f fs)
    have h2 := ih (fun g hg => hf g (List.mem_cons_of_mem f hg))
    have e2 : filledQty (f :: fs) = (if f.is_bust then 0 else f.qty) + filledQty fs := rfl
    rw [e2]
    split_ifs <;> linarith

theorem filledQty_take_le (fills : List Fill) (hf : ∀ f ∈ fills, 0 < f.qty) (k : Nat) :
    filledQty (fills.take k) ≤ filledQty fills := by
  induction fills generalizing k with
  | nil => simp [filledQty]
  | cons f fs ih =>
    cases k with
    | zero =>
      rw [List.take_zero]
      exact filledQty_nonneg (f :: fs) hf
    | succ k =>
      rw [List.take_succ_cons]
      have h2 := ih (fun g hg => hf g (List.mem_cons_of_mem f hg)) k
      have e1 : filledQty (f :: fs.take k) = (if f.is_bust then 0 else f.qty)
          + filledQty (fs.take k) := rfl
      have e2 : filledQty (f :: fs) = (if f.is_bust then 0 else f.qty) + filledQty fs := rfl
      rw [e1, e2]
      linarith

/-- Outstanding quantities after the fills of one order. -/
theorem runCalls_fills_outstanding (pv : PositionValueOps V) (is_buy : Bool)
    (fills : List Fill) (hf : ∀ f ∈ fills, 0 < f.qty) (p : Position V) :
    (runCalls pv (fills.map (Fill.call is_buy)) p).total_outstanding_buy_qty
        = p.total_outstanding_buy_qty - (if is_buy then filledQty fills else 0) ∧
      (runCalls pv (fills.map (Fill.call is_buy)) p).total_outstanding_sell_qty
        = p.total_outstanding_sell_qty - (if is_buy then 0 else filledQty fills) := by
  induction fills generalizing p with
  | nil => cases is_buy <;> simp [runCalls, filledQty]
  | cons f fs ih =>
    have h1 : 0 < f.qty := hf f (List.mem_cons_self f fs)
    have h2 := ih (fun g hg => hf g (List.mem_cons_of_mem f hg))
      (Position.HandleTrade pv is_buy f.qty f.price f.price0 f.multiplier f.is_bust false
        f.is_cx p)
    have h3 := HandleTrade_outstanding pv is_buy f.qty f.price f.price0 f.multiplier
      f.is_bust f.is_cx p h1
    have e : runCalls pv ((f :: fs).map (Fill.call is_buy)) p
        = runCalls pv (fs.map (Fill.call is_buy))
            (Position.HandleTrade pv is_buy f.qty f.price f.price0 f.multiplier f.is_bust false
              f.is_cx p) := rfl
    have e2 : filledQty (f :: fs) = (if f.is_bust then 0 else f.qty) + filledQty fs := rfl
    rw [e, h2.1, h2.2, h3.1, h3.2, e2]
    cases is_buy <;> cases hb : f.is_bust <;>
      simp only [Bool.false_eq_true, if_false, if_true, Bool.not_true, Bool.not_false,
        Bool.and_true, Bool.and_false, Bool.true_and, Bool.false_and, sub_zero, zero_add,
        sub_sub, and_self]

theorem HandleNew_outstanding (pv : PositionValueOps V) (is_buy : Bool) (qty price m : ℚ)
    (p : Position V) :
    (Position.HandleNew pv is_buy qty price m p).total_outstanding_buy_qty
        = p.total_outstanding_buy_qty + (if is_buy then qty else 0) ∧
      (Position.HandleNew pv is_buy qty price m p).total_outstanding_sell_qty
        = p.total_outstanding_sell_qty + (if is_buy then 0 else qty) := by
  unfold Position.HandleNew
  cases is_buy <;> simp

theorem HandleFinish_outstanding (pv : PositionValueOps V) (is_buy : Bool) (qty price m : ℚ)
    (p : Position V) :
    (Position.HandleFinish pv is_buy qty price m p).total_outstanding_buy_qty
        = p.total_outstanding_buy_qty - (if is_buy then qty else 0) ∧
      (Position.HandleFinish pv is_buy qty price m p).total_outstanding_sell_qty
        = p.total_outstanding_sell_qty - (if is_buy then 0 else qty) := by
  unfold Position.HandleFinish
  cases is_buy <;> simp

/-- The state between a fill and its bust, as far as `HandlePnl` reads it. -/
theorem HandlePnl_bust_roundtrip (d price m : ℚ) (p p1 : Position V) (hd : d ≠ 0)
    (hq : p1.qty = p.qty + d)
    (ha : p1.avg_px = (HandlePnl d price m p).avg_px)
    (hr : p1.realized_pnl = (HandlePnl d price m p).realized_pnl) :
    ((HandlePnl (-d) price m p1).avg_px = p.avg_px ↔
        (p.qty = 0 ∧ p.avg_px = 0) ∨ (p.qty ≠ 0 ∧ price = p.avg_px)) ∧
      ((p.qty = 0 ∨ price = p.avg_px) →
        (HandlePnl (-d) price m p1).realized_pnl = p.realized_pnl) := by
  have hnd : -d ≠ 0 := neg_ne_zero.mpr hd
  -- with a position that is not flat, the condition is `price = avg_px`
  have cond_iff : p.qty ≠ 0 → ∀ x : ℚ, (x = p.avg_px ↔ price = p.avg_px) →
      (x = p.avg_px ↔ (p.qty = 0 ∧ p.avg_px = 0) ∨ (p.qty ≠ 0 ∧ price = p.avg_px)) := by
    intro hne x hx
    rw [hx]
    constructor
    · intro h
      exact Or.inr ⟨hne, h⟩
    · rintro (⟨h, _⟩ | ⟨_, h⟩)
      · exact absurd h hne
      · exact h
  -- the algebra of the weighted average
  have wavg : ∀ (a b c : ℚ), c ≠ 0 → b ≠ 0 → a * c = c * p.avg_px + b * (p.avg_px - price) →
      (a = p.avg_px ↔ price = p.avg_px) := by
    intro a b c hc hb h
    constructor
    · intro e
      rw [e] at h
      have h0 : b * (p.avg_px - price) = 0 := by linarith
      rcases mul_eq_zero.mp h0 with h' | h'
      · exact absurd h' hb
      · linarith
    · intro e
      rw [e] at h
      have h0 : (a - p.avg_px) * c = 0 := by
        have : a * c = c * p.avg_px := by rw [h]; ring
        linarith
      rcases mul_eq_zero.mp h0 with h' | h'
      · linarith
      · exact absurd h' hc
  rcases lt_trichotomy p.qty 0 with hneg | hzero | hpos
  · -- short position
    have hne : p.qty ≠ 0 := ne_of_lt hneg
    rcases lt_or_gt_of_ne hd with dneg | dpos
    · -- the fill adds to the short, the bust closes part of it
      have h1 := HandlePnl_open d price m p hd (Or.inr (Or.inr ⟨hneg, dneg⟩))
      rw [h1.1] at ha
      rw [h1.2] at hr
      have h2 := HandlePnl_partial (-d) price m p1
        (Or.inr ⟨by rw [hq]; linarith, by linarith, by rw [hq]; linarith⟩)
      rw [h2.1, h2.2, ha, hr]
      have hsum : p.qty + d ≠ 0 := by intro h; linarith
      constructor
      · apply cond_iff hne
        apply wavg _ (-d) (p.qty + d) hsum hnd
        rw [div_mul_cancel₀ _ hsum]
        ring
      · rintro (h | h)
        · exact absurd h hne
        · rw [h]
          field_simp
          ring
    · rcases lt_or_le d (-p.qty) with hlt | hge
      · -- the fill closes part of the short, the bust adds it back
        have h1 := HandlePnl_partial d price m p (Or.inr ⟨hneg, dpos, hlt⟩)
        rw [h1.1] at ha
        rw [h1.2] at hr
        have h2 := HandlePnl_open (-d) price m p1 hnd
          (Or.inr (Or.inr ⟨by rw [hq]; linarith, by linarith⟩))
        rw [h2.1, h2.2, ha, hr, hq]
        have hsum : p.qty + d + -d ≠ 0 := by
          intro h
          apply hne
          linarith
        constructor
        · apply cond_iff hne
          apply wavg _ d (p.qty + d + -d) hsum hd
          rw [div_mul_cancel₀ _ hsum]
          ring
        · rintro (h | h)
          · exact absurd h hne
          · rw [h]
            ring
      · -- the fill closes the short (and may open a long), the bust reverses it
        have h1 := HandlePnl_flip d price m p (Or.inr ⟨hneg, dpos, hge⟩)
        rw [h1.1] at ha
        rw [h1.2] at hr
        have hreal : (p.qty = 0 ∨ price = p.avg_px) →
            p.realized_pnl + (price - p.avg_px) * p.qty * m = p.realized_pnl := by
          rintro (h | h)
          · exact absurd h hne
          · rw [h]
            ring
        rcases eq_or_lt_of_le hge with heq | hgt
        · have hz : p.qty + d = 0 := by linarith
          have h2 := HandlePnl_open (-d) price m p1 hnd (Or.inl (by rw [hq]; exact hz))
          rw [h2.1, h2.2, hr, hq, hz]
          constructor
          · apply cond_iff hne
            have e : (0 * p1.avg_px + -d * price) / (0 + -d) = price := by
              field_simp
            rw [e]
          · exact hreal
        · have hnz : ¬ (p.qty + d = 0) := by intro h; linarith
          rw [if_neg hnz] at ha
          have h2 := HandlePnl_flip (-d) price m p1
            (Or.inl ⟨by rw [hq]; linarith, by linarith, by rw [hq]; linarith⟩)
          have hnz2 : ¬ (p1.qty + -d = 0) := by
            rw [hq]
            intro h
            apply hne
            linarith
          rw [h2.1, h2.2, if_neg hnz2, ha, hr]
          constructor
          · apply cond_iff hne
            exact Iff.rfl
          · intro h
            rw [sub_self, zero_mul, zero_mul, add_zero]
            exact hreal h
  · -- flat: the fill opens at `price`, the bust closes at `price`
    have h1 := HandlePnl_open d price m p hd (Or.inl hzero)
    rw [h1.1] at ha
    rw [h1.2] at hr
    have ha1 : p1.avg_px = price := by
      rw [ha, hzero]
      field_simp
    have hq1 : p1.qty = d := by rw [hq, hzero, zero_add]
    have h2 := HandlePnl_flip (-d) price m p1 (by
      rcases lt_or_gt_of_ne hd with dneg | dpos
      · right
        exact ⟨by rw [hq1]; exact dneg, by linarith, by rw [hq1]⟩
      · left
        exact ⟨by rw [hq1]; exact dpos, by linarith, by rw [hq1, neg_neg]⟩)
    have hz : p1.qty + -d = 0 := by rw [hq1]; ring
    rw [h2.1, h2.2, if_pos hz, ha1, hr]
    constructor
    · constructor
      · intro h
        exact Or.inl ⟨hzero, h.symm⟩
      · rintro (⟨_, h⟩ | ⟨h, _⟩)
        · exact h.symm
        · exact absurd hzero h
    · intro _
      ring
  · -- long position
    have hne : p.qty ≠ 0 := ne_of_gt hpos
    rcases lt_or_gt_of_ne hd with dneg | dpos
    · rcases lt_or_le (-d) p.qty with hlt | hge
      · -- the fill closes part of the long, the bust adds it back
        have h1 := HandlePnl_partial d price m p (Or.inl ⟨hpos, dneg, hlt⟩)
        rw [h1.1] at ha
        rw [h1.2] at hr
        have h2 := HandlePnl_open (-d) price m p1 hnd
          (Or.inr (Or.inl ⟨by rw [hq]; linarith, by linarith⟩))
        rw [h2.1, h2.2, ha, hr, hq]
        have hsum : p.qty + d + -d ≠ 0 := by
          intro h
          apply hne
          linarith
        constructor
        · apply cond_iff hne
          apply wavg _ d (p.qty + d + -d) hsum hd
          rw [div_mul_cancel₀ _ hsum]
          ring
        · rintro (h | h)
          · exact absurd h hne
          · rw [h]
            ring
      · -- the fill closes the long (and may open a short), the bust reverses it
        have h1 := HandlePnl_flip d price m p (Or.inl ⟨hpos, dneg, hge⟩)
        rw [h1.1] at ha
        rw [h1.2] at hr
        have hreal : (p.qty = 0 ∨ price = p.avg_px) →
            p.realized_pnl + (price - p.avg_px) * p.qty * m = p.realized_pnl := by
          rintro (h | h)
          · exact absurd h hne
          · rw [h]
            ring
        rcases eq_or_lt_of_le hge with heq | hgt
        · have hz : p.qty + d = 0 := by linarith
          have h2 := HandlePnl_open (-d) price m p1 hnd (Or.inl (by rw [hq]; exact hz))
          rw [h2.1, h2.2, hr, hq, hz]
          constructor
          · apply cond_iff hne
            have e : (0 * p1.avg_px + -d * price) / (0 + -d) = price := by
              field_simp
            rw [e]
          · exact hreal
        · have hnz : ¬ (p.qty + d = 0) := by intro h; linarith
          rw [if_neg hnz] at ha
          have h2 := HandlePnl_flip (-d) price m p1
            (Or.inr ⟨by rw [hq]; linarith, by linarith, by rw [hq]; linarith⟩)
          have hnz2 : ¬ (p1.qty + -d = 0) := by
            rw [hq]
            intro h
            apply hne
            linarith
          rw [h2.1, h2.2, if_neg hnz2, ha, hr]
          constructor
          · apply cond_iff hne
            exact Iff.rfl
          · intro h
            rw [sub_self, zero_mul, zero_mul, add_zero]
            exact hreal h
    · -- the fill adds to the long, the bust closes part of it
      have h1 := HandlePnl_open d price m p hd (Or.inr (Or.inl ⟨hpos, dpos⟩))
      rw [h1.1] at ha
      rw [h1.2] at hr
      have h2 := HandlePnl_partial (-d) price m p1
        (Or.inl ⟨by rw [hq]; linarith, by linarith, by rw [hq]; linarith⟩)
      rw [h2.1, h2.2, ha, hr]
      have hsum : p.qty + d ≠ 0 := by intro h; linarith
      constructor
      · apply cond_iff hne
        apply wavg _ (-d) (p.qty + d) hsum hnd
        rw [div_mul_cancel₀ _ hsum]
        ring
      · rintro (h | h)
        · exact absurd h hne
        · rw [h]
          field_simp
          ring
theorem signedDelta_bust (is_buy : Bool) (q : ℚ) :
    signedDelta is_buy true q = -signedDelta is_buy false q := by
  unfold signedDelta
  cases is_buy <;> simp

theorem signedDelta_ne_zero (is_buy is_bust : Bool) (q : ℚ) (hq : 0 < q) :
    signedDelta is_buy is_bust q ≠ 0 := by
  have h : q ≠ 0 := ne_of_gt hq
  unfold signedDelta
  cases is_buy <;> cases is_bust <;> simpa using h

/-- A fill followed by its bust, on one entry. -/
theorem HandleTrade_bust_roundtrip (pv : PositionValueOps V) (p : Position V) (is_buy : Bool)
    (q price price0 m : ℚ) (is_otc is_cx : Bool) (hq : 0 < q) :
    Position.bustRestored p
      (Position.HandleTrade pv is_buy q price price0 m true is_otc is_cx
        (Position.HandleTrade pv is_buy q price price0 m false is_otc is_cx p)) price := by
  have hd := signedDelta_ne_zero is_buy false q hq
  have h := HandlePnl_bust_roundtrip (signedDelta is_buy false q) price m p
    (Position.HandleTrade pv is_buy q price price0 m false is_otc is_cx p) hd
    (HandleTrade_qty pv is_buy q price price0 m false is_otc is_cx p)
    (HandleTrade_avg_px pv is_buy q price price0 m false is_otc is_cx p)
    (HandleTrade_realized_pnl pv is_buy q price price0 m false is_otc is_cx p)
  unfold Position.bustRestored Position.bustRestorable
  rw [HandleTrade_qty, HandleTrade_avg_px, HandleTrade_realized_pnl, HandleTrade_qty,
    signedDelta_bust]
  refine ⟨by ring, ?_, h.1.mp⟩
  intro hc
  refine ⟨h.1.mpr hc, h.2 ?_⟩
  rcases hc with ⟨h0, _⟩ | ⟨_, h1⟩
  · exact Or.inl h0
  · exact Or.inr h1

theorem runCalls_journaled_inv (pv : PositionValueOps V) (cs : List Call) (p : Position V)
    (hp : p.qty = 0 → p.avg_px = 0) :
    (runCalls pv cs p).qty = 0 → (runCalls pv cs p).avg_px = 0 := by
  induction cs generalizing p with
  | nil => exact hp
  | cons c cs ih =>
    show (runCalls pv cs (c.apply pv p)).qty = 0 → (runCalls pv cs (c.apply pv p)).avg_px = 0
    apply ih
    cases c with
    | new is_buy qty price m =>
      have h := HandleNew_journaled pv is_buy qty price m p
      simp only [Position.journaled, Prod.mk.injEq] at h
      show (Position.HandleNew pv is_buy qty price m p).qty = 0 →
        (Position.HandleNew pv is_buy qty price m p).avg_px = 0
      rw [h.1, h.2.2.1]
      exact hp
    | trade is_buy qty price price0 m is_bust is_otc is_cx =>
      exact HandleTrade_avg_px_of_qty_zero pv is_buy qty price price0 m is_bust is_otc is_cx p
    | finish is_buy qty price m =>
      have h := HandleFinish_journaled pv is_buy qty price m p
      simp only [Position.journaled, Prod.mk.injEq] at h
      show (Position.HandleFinish pv is_buy qty price m p).qty = 0 →
        (Position.HandleFinish pv is_buy qty price m p).avg_px = 0
      rw [h.1, h.2.2.1]
      exact hp

end EntryLemmas

/-! ## Ledger and dispatcher facts -/

section ManagerLemmas

variable {V : Type}

theorem Ledger.find_modify (pv : PositionValueOps V) (k k' : Key)
    (f : Position V → Position V) (l : Ledger V) :
    Ledger.find k' (Ledger.modify pv k f l)
      = if k' = k then some (f (Ledger.read pv l k)) else Ledger.find k' l := by
  induction l with
  | nil =>
    by_cases h : k' = k
    · subst h
      simp [Ledger.modify, Ledger.find, Ledger.read]
    · have h' : ¬ k = k' := fun e => h e.symm
      simp [Ledger.modify, Ledger.find, h, h']
  | cons a t ih =>
    obtain ⟨ka, pa⟩ := a
    by_cases hk : ka = k
    · subst hk
      by_cases h : k' = ka
      · subst h
        simp [Ledger.modify, Ledger.find, Ledger.read]
      · have h' : ¬ ka = k' := fun e => h e.symm
        simp [Ledger.modify, Ledger.find, h, h']
    · by_cases h : k' = k
      · subst h
        simp only [Ledger.modify, if_neg hk, Ledger.find, ih, if_true, Ledger.read]
      · by_cases h2 : ka = k'
        · subst h2
          simp [Ledger.modify, Ledger.find, h]
        · simp [Ledger.modify, Ledger.find, hk, h2, ih, h]

theorem Ledger.read_modify (pv : PositionValueOps V) (k k' : Key)
    (f : Position V → Position V) (l : Ledger V) :
    Ledger.read pv (Ledger.modify pv k f l) k'
      = if k' = k then f (Ledger.read pv l k) else Ledger.read pv l k' := by
  unfold Ledger.read
  rw [Ledger.find_modify]
  by_cases h : k' = k
  · simp [h, Ledger.read]
  · simp [h]

theorem Handle_sub_positions (pv : PositionValueOps V) (cm : Confirmation) (offline : Bool)
    (now : Nat) (s : PositionManager V) :
    (PositionManager.Handle pv cm offline now s).sub_positions_
      = match cm.effect with
        | none => s.sub_positions_
        | some c => Ledger.modify pv cm.order.subKey (c.apply pv) s.sub_positions_ := by
  unfold PositionManager.Handle Confirmation.effect Confirmation.is_otc Confirmation.is_cx
    Confirmation.multiplier Order.subKey
  cases h1 : cm.exec_type <;> cases h2 : cm.exec_trans_type <;> cases h3 : cm.order.type <;>
    cases offline <;> simp [h3] <;> rfl

theorem Handle_broker_positions (pv : PositionValueOps V) (cm : Confirmation) (offline : Bool)
    (now : Nat) (s : PositionManager V) :
    (PositionManager.Handle pv cm offline now s).broker_positions_
      = match cm.effect with
        | none => s.broker_positions_
        | some c => Ledger.modify pv cm.order.brokerKey (c.apply pv) s.broker_positions_ := by
  unfold PositionManager.Handle Confirmation.effect Confirmation.is_otc Confirmation.is_cx
    Confirmation.multiplier Order.brokerKey
  cases h1 : cm.exec_type <;> cases h2 : cm.exec_trans_type <;> cases h3 : cm.order.type <;>
    cases offline <;> simp [h3] <;> rfl

theorem Handle_user_positions (pv : PositionValueOps V) (cm : Confirmation) (offline : Bool)
    (now : Nat) (s : PositionManager V) :
    (PositionManager.Handle pv cm offline now s).user_positions_
      = match cm.effect with
        | none => s.user_positions_
        | some c => Ledger.modify pv cm.order.userKey (c.apply pv) s.user_positions_ := by
  unfold PositionManager.Handle Confirmation.effect Confirmation.is_otc Confirmation.is_cx
    Confirmation.multiplier Order.userKey
  cases h1 : cm.exec_type <;> cases h2 : cm.exec_trans_type <;> cases h3 : cm.order.type <;>
    cases offline <;> simp [h3] <;> rfl

theorem Handle_journal (pv : PositionValueOps V) (cm : Confirmation) (offline : Bool)
    (now : Nat) (s : PositionManager V) :
    (PositionManager.Handle pv cm offline now s).journal
      = if cm.isFill && !offline then
          s.journal ++
            [cm.row (Ledger.read pv (PositionManager.Handle pv cm offline now s).sub_positions_
              cm.order.subKey) now]
        else s.journal := by
  unfold PositionManager.Handle Confirmation.isFill Confirmation.row Order.subKey
  cases h1 : cm.exec_type <;> cases h2 : cm.exec_trans_type <;> cases h3 : cm.order.type <;>
    cases offline <;> simp [h3]

/-- A field that an entry-level method leaves alone is left alone in the
whole ledger. -/
theorem Ledger.read_modify_frame {α : Type} (pv : PositionValueOps V) (g : Position V → α)
    (f : Position V → Position V) (hf : ∀ p, g (f p) = g p) (k k' : Key) (l : Ledger V) :
    g (Ledger.read pv (Ledger.modify pv k f l) k') = g (Ledger.read pv l k') := by
  rw [Ledger.read_modify]
  by_cases h : k' = k
  · rw [if_pos h, hf, h]
  · rw [if_neg h]

/-- The four bookkeeping quantities are untouched by an OTC `HandleTrade`. -/
theorem HandleTrade_otc_frame (pv : PositionValueOps V) (is_buy : Bool)
    (qty price price0 m : ℚ) (is_bust is_cx : Bool) (p : Position V) :
    (Position.HandleTrade pv is_buy qty price price0 m is_bust true is_cx
        p).total_outstanding_buy_qty = p.total_outstanding_buy_qty ∧
      (Position.HandleTrade pv is_buy qty price price0 m is_bust true is_cx
        p).total_outstanding_sell_qty = p.total_outstanding_sell_qty ∧
      (Position.HandleTrade pv is_buy qty price price0 m is_bust true is_cx
        p).total_bought_qty = p.total_bought_qty ∧
      (Position.HandleTrade pv is_buy qty price price0 m is_bust true is_cx
        p).total_sold_qty = p.total_sold_qty := by
  unfold Position.HandleTrade
  dsimp only
  cases is_cx <;>
    simp only [Bool.false_eq_true, if_false, if_true,
      (HandlePnl_frame _ _ _ _).2.2.2.1, (HandlePnl_frame _ _ _ _).2.2.2.2.1,
      (HandlePnl_frame _ _ _ _).2.2.2.2.2.1, (HandlePnl_frame _ _ _ _).2.2.2.2.2.2, and_self]

/-- On an order of type OTC or CX, `Handle` calls nothing or an OTC
`HandleTrade`. -/
theorem effect_of_otc (cm : Confirmation)
    (h : cm.order.type = OrderType.kOTC ∨ cm.order.type = OrderType.kCX) :
    cm.effect = none ∨
      ∃ is_bust : Bool, cm.effect = some (Call.trade cm.order.is_buy cm.last_shares cm.last_px
        cm.order.price cm.multiplier is_bust true cm.is_cx) := by
  have ho : cm.is_otc = true := by
    unfold Confirmation.is_otc
    rcases h with h | h <;> simp [h]
  unfold Confirmation.effect
  rw [ho]
  cases cm.exec_type <;> cases cm.exec_trans_type <;> simp

theorem effect_filledConfirmation (o : Order) (q px l : ℚ) :
    (filledConfirmation o ExecTransType.kTransNew q px l).effect
        = some (Call.trade o.is_buy q px o.price
            (filledConfirmation o ExecTransType.kTransNew q px l).multiplier false
            (filledConfirmation o ExecTransType.kTransNew q px l).is_otc
            (filledConfirmation o ExecTransType.kTransNew q px l).is_cx) ∧
      (filledConfirmation o ExecTransType.kTransCancel q px l).effect
        = some (Call.trade o.is_buy q px o.price
            (filledConfirmation o ExecTransType.kTransNew q px l).multiplier true
            (filledConfirmation o ExecTransType.kTransNew q px l).is_otc
            (filledConfirmation o ExecTransType.kTransNew q px l).is_cx) :=
  ⟨rfl, rfl⟩

theorem Handle_read_sub (pv : PositionValueOps V) (cm : Confirmation) (offline : Bool)
    (now : Nat) (s : PositionManager V) (c : Call) (h : cm.effect = some c) :
    Ledger.read pv (PositionManager.Handle pv cm offline now s).sub_positions_ cm.order.subKey
      = c.apply pv (Ledger.read pv s.sub_positions_ cm.order.subKey) := by
  rw [Handle_sub_positions, h]
  simp only [Ledger.read_modify, if_true]

theorem Handle_read_broker (pv : PositionValueOps V) (cm : Confirmation) (offline : Bool)
    (now : Nat) (s : PositionManager V) (c : Call) (h : cm.effect = some c) :
    Ledger.read pv (PositionManager.Handle pv cm offline now s).broker_positions_
        cm.order.brokerKey
      = c.apply pv (Ledger.read pv s.broker_positions_ cm.order.brokerKey) := by
  rw [Handle_broker_positions, h]
  simp only [Ledger.read_modify, if_true]

theorem Handle_read_user (pv : PositionValueOps V) (cm : Confirmation) (offline : Bool)
    (now : Nat) (s : PositionManager V) (c : Call) (h : cm.effect = some c) :
    Ledger.read pv (PositionManager.Handle pv cm offline now s).user_positions_
        cm.order.userKey
      = c.apply pv (Ledger.read pv s.user_positions_ cm.order.userKey) := by
  rw [Handle_user_positions, h]
  simp only [Ledger.read_modify, if_true]

end ManagerLemmas

/-! ## Journal and recovery facts -/

section RecoveryLemmas

variable {V : Type}

theorem latestBefore_mem (session : Nat) (j : List JournalRow) (x : JournalRow)
    (h : x ∈ latestBefore session j) : x ∈ j :=
  (List.mem_filter.mp h).1

/-- Appending a row stamped after all the others (and before the session
marker) replaces the latest row of its key. -/
theorem latestBefore_append (session : Nat) (j : List JournalRow) (r : JournalRow)
    (hlt : ∀ x ∈ j, x.tm < r.tm) (hs : r.tm < session) :
    latestBefore session (j ++ [r])
      = (latestBefore session j).filter (fun x => !decide (x.key = r.key)) ++ [r] := by
  unfold latestBefore
  rw [List.filter_append, List.filter_filter]
  congr 1
  · apply List.filter_congr
    intro x hx
    have h1 : ¬ r.tm ≤ x.tm := Nat.not_le.mpr (hlt x hx)
    rw [List.all_append]
    simp only [List.all_cons, List.all_nil, Bool.and_true]
    have e : (!(decide (r.tm < session) && decide (r.key = x.key)) || decide (r.tm ≤ x.tm))
        = !decide (x.key = r.key) := by
      by_cases hk : r.key = x.key
      · have hk' : x.key = r.key := hk.symm
        simp [hk', hs, h1]
      · have hk' : ¬ x.key = r.key := fun e => hk e.symm
        simp [hk, hk']
    rw [e]
    cases decide (x.tm < session) <;> cases (!decide (x.key = r.key)) <;> simp
  · have hall : (j.all fun r' =>
        !(decide (r'.tm < session) && decide (r'.key = r.key)) || decide (r'.tm ≤ r.tm)) = true := by
      rw [List.all_eq_true]
      intro x hx
      have : x.tm ≤ r.tm := Nat.le_of_lt (hlt x hx)
      simp [this]
    rw [List.filter_cons, List.filter_nil, List.all_append, hall]
    simp [hs]

/-- Either a confirmation is a fill and `Handle` calls `HandleTrade`, or it is
not and `Handle` calls nothing or a method that leaves the journaled fields. -/
theorem effect_cases (pv : PositionValueOps V) (cm : Confirmation) :
    (cm.isFill = true ∧ ∃ is_bust : Bool,
        cm.effect = some (Call.trade cm.order.is_buy cm.last_shares cm.last_px cm.order.price
          cm.multiplier is_bust cm.is_otc cm.is_cx)) ∨
      (cm.isFill = false ∧
        (cm.effect = none ∨
          ∃ c : Call, cm.effect = some c ∧
            ∀ p : Position V, (c.apply pv p).journaled = p.journaled)) := by
  unfold Confirmation.isFill Confirmation.effect
  cases h1 : cm.exec_type <;> cases h2 : cm.exec_trans_type <;> cases h3 : cm.is_otc <;>
    simp [Call.apply, HandleNew_journaled, HandleFinish_journaled]

/-- The step of the sub-account tier: `Handle` keeps the latest journal row of
every key equal to the journaled fields of its sub-account entry. -/
theorem Handle_preserves_latest (pv : PositionValueOps V) (session : Nat) (cm : Confirmation)
    (now : Nat) (s : PositionManager V)
    (hst : cm.isFill = true → (∀ x ∈ s.journal, x.tm < now) ∧ now < session)
    (h1 : ∀ r ∈ latestBefore session s.journal,
      r.journaled = (Ledger.read pv s.sub_positions_ r.key).journaled)
    (h2 : ∀ k, (∀ r ∈ latestBefore session s.journal, r.key ≠ k) →
      (Ledger.read pv s.sub_positions_ k).journaled = (0, 0, 0, 0))
    (h3 : (latestBefore session s.journal).Pairwise (fun a b => a.key ≠ b.key)) :
    (∀ r ∈ latestBefore session (PositionManager.Handle pv cm false now s).journal,
        r.journaled
          = (Ledger.read pv (PositionManager.Handle pv cm false now s).sub_positions_
              r.key).journaled) ∧
      (∀ k, (∀ r ∈ latestBefore session (PositionManager.Handle pv cm false now s).journal,
          r.key ≠ k) →
        (Ledger.read pv (PositionManager.Handle pv cm false now s).sub_positions_ k).journaled
          = (0, 0, 0, 0)) ∧
      (latestBefore session (PositionManager.Handle pv cm false now s).journal).Pairwise
        (fun a b => a.key ≠ b.key) := by
  rcases effect_cases pv cm with ⟨hf, b, he⟩ | ⟨hf, he⟩
  · -- a fill: one row is appended
    obtain ⟨hlt, hs⟩ := hst hf
    have hj := Handle_journal pv cm false now s
    rw [hf] at hj
    simp only [Bool.not_false, Bool.and_self, if_true] at hj
    have hsub := Handle_sub_positions pv cm false now s
    rw [he] at hsub
    simp only at hsub
    have hT := latestBefore_append session s.journal
      (cm.row (Ledger.read pv (PositionManager.Handle pv cm false now s).sub_positions_
        cm.order.subKey) now) hlt hs
    rw [← hj] at hT
    rw [hT]
    have hrk : ∀ pos : Position V, (cm.row pos now).key = cm.order.subKey := fun _ => rfl
    have hother : ∀ k, k ≠ cm.order.subKey →
        Ledger.read pv (PositionManager.Handle pv cm false now s).sub_positions_ k
          = Ledger.read pv s.sub_positions_ k := by
      intro k hk
      rw [hsub, Ledger.read_modify, if_neg hk]
    refine ⟨?_, ?_, ?_⟩
    · intro r hr
      rcases List.mem_append.mp hr with hr | hr
      · have hm := List.mem_filter.mp hr
        have hk : r.key ≠ cm.order.subKey := by
          have := hm.2
          simpa [hrk] using this
        rw [hother _ hk]
        exact h1 r hm.1
      · rw [List.mem_singleton] at hr
        rw [hr]
        rfl
    · intro k hk
      have hk0 : k ≠ cm.order.subKey := by
        intro e
        exact hk _ (List.mem_append.mpr (Or.inr (List.mem_singleton.mpr rfl))) (by rw [hrk, e])
      rw [hother _ hk0]
      apply h2
      intro r hr
      by_cases hrk0 : r.key = cm.order.subKey
      · rw [hrk0]
        exact fun e => hk0 e.symm
      · apply hk
        apply List.mem_append.mpr
        left
        apply List.mem_filter.mpr
        refine ⟨hr, ?_⟩
        simpa [hrk] using hrk0
    · rw [List.pairwise_append]
      refine ⟨h3.sublist (List.filter_sublist _), List.pairwise_singleton _ _, ?_⟩
      intro a ha c hc
      rw [List.mem_singleton] at hc
      have hm := List.mem_filter.mp ha
      rw [hc]
      simpa using hm.2
  · -- not a fill: the journal and the journaled fields stay
    have hj := Handle_journal pv cm false now s
    rw [hf] at hj
    simp only [Bool.false_and, Bool.false_eq_true, if_false] at hj
    have hread : ∀ k, (Ledger.read pv (PositionManager.Handle pv cm false now s).sub_positions_
        k).journaled = (Ledger.read pv s.sub_positions_ k).journaled := by
      intro k
      rw [Handle_sub_positions]
      rcases he with he | ⟨c, he, hc⟩
      · rw [he]
      · rw [he]
        exact Ledger.read_modify_frame pv Position.journaled _ hc _ k _
    rw [hj]
    refine ⟨?_, ?_, h3⟩
    · intro r hr
      rw [hread]
      exact h1 r hr
    · intro k hk
      rw [hread]
      exact h2 k hk

theorem run_append (pv : PositionValueOps V) (l : List (Confirmation × Nat))
    (a : Confirmation × Nat) (s : PositionManager V) :
    PositionManager.run pv (l ++ [a]) s
      = PositionManager.Handle pv a.1 false a.2 (PositionManager.run pv l s) := by
  unfold PositionManager.run
  rw [List.foldl_append]
  rfl

/-- Every journal row written by `Handle` carries the owners of its order and
the given time stamp. -/
theorem Handle_journal_mem (pv : PositionValueOps V) (cm : Confirmation) (offline : Bool)
    (now : Nat) (s : PositionManager V) (r : JournalRow)
    (h : r ∈ (PositionManager.Handle pv cm offline now s).journal) :
    r ∈ s.journal ∨
      (r.tm = now ∧ r.key = cm.order.subKey ∧ r.brokerKey = cm.order.brokerKey ∧
        cm.isFill = true) := by
  rw [Handle_journal] at h
  split_ifs at h with hc
  · rcases List.mem_append.mp h with h | h
    · exact Or.inl h
    · rw [List.mem_singleton] at h
      rw [h]
      exact Or.inr ⟨rfl, rfl, rfl, (Bool.and_eq_true _ _ ▸ hc).1⟩
  · exact Or.inl h

/-- The stamps of a run and of what precedes its last confirmation. -/
theorem journalStamps_append (l : List (Confirmation × Nat)) (a : Confirmation × Nat)
    (session : Nat)
    (hinc : (journalStamps (l ++ [a])).Pairwise (fun x y => x < y))
    (hcut : ∀ e ∈ l ++ [a], e.1.isFill = true → e.2 < session) :
    (journalStamps l).Pairwise (fun x y => x < y) ∧
      (∀ e ∈ l, e.1.isFill = true → e.2 < session) ∧
      (a.1.isFill = true → (∀ e ∈ l, e.1.isFill = true → e.2 < a.2) ∧ a.2 < session) := by
  refine ⟨?_, ?_, ?_⟩
  · unfold journalStamps at hinc ⊢
    rw [List.filter_append, List.map_append, List.pairwise_append] at hinc
    exact hinc.1
  · exact fun e he => hcut e (List.mem_append.mpr (Or.inl he))
  · intro ha
    refine ⟨?_, hcut a (by simp) ha⟩
    intro e he hfe
    unfold journalStamps at hinc
    rw [List.filter_append, List.map_append, List.pairwise_append] at hinc
    apply hinc.2.2 e.2 (List.mem_map.mpr ⟨e, List.mem_filter.mpr ⟨he, hfe⟩, rfl⟩) a.2
    simp [ha]

/-- The facts that tie the live sub-account ledger to the journal after a run
whose journal rows are stamped with increasing times before the session
marker. -/
theorem run_invariants (pv : PositionValueOps V) (session : Nat)
    (evs : List (Confirmation × Nat))
    (hinc : (journalStamps evs).Pairwise (fun a b => a < b))
    (hcut : ∀ e ∈ evs, e.1.isFill = true → e.2 < session) :
    (∀ r ∈ (PositionManager.run pv evs (PositionManager.empty pv [])).journal,
        ∃ e ∈ evs, r.tm = e.2 ∧ r.key = e.1.order.subKey ∧
          r.brokerKey = e.1.order.brokerKey ∧ e.1.isFill = true) ∧
      (∀ r ∈ latestBefore session
          (PositionManager.run pv evs (PositionManager.empty pv [])).journal,
        r.journaled
          = (Ledger.read pv (PositionManager.run pv evs
              (PositionManager.empty pv [])).sub_positions_ r.key).journaled) ∧
      (∀ k, (∀ r ∈ latestBefore session
          (PositionManager.run pv evs (PositionManager.empty pv [])).journal, r.key ≠ k) →
        (Ledger.read pv (PositionManager.run pv evs
            (PositionManager.empty pv [])).sub_positions_ k).journaled = (0, 0, 0, 0)) ∧
      (latestBefore session
          (PositionManager.run pv evs (PositionManager.empty pv [])).journal).Pairwise
        (fun a b => a.key ≠ b.key) := by
  induction evs using List.reverseRecOn with
  | nil =>
    refine ⟨?_, ?_, ?_, ?_⟩
    · intro r hr
      exact absurd hr (List.not_mem_nil r)
    · intro r hr
      exact absurd hr (List.not_mem_nil r)
    · intro k _
      rfl
    · exact List.Pairwise.nil
  | append_singleton l a ih =>
    obtain ⟨hl, hcutl, hla⟩ := journalStamps_append l a session hinc hcut
    obtain ⟨p0, p1, p2, p3⟩ := ih hl hcutl
    have hst : a.1.isFill = true →
        (∀ x ∈ (PositionManager.run pv l (PositionManager.empty pv [])).journal, x.tm < a.2) ∧
          a.2 < session := by
      intro ha
      refine ⟨?_, (hla ha).2⟩
      intro x hx
      obtain ⟨e, he, htm, _, _, hfe⟩ := p0 x hx
      rw [htm]
      exact (hla ha).1 e he hfe
    rw [run_append]
    refine ⟨?_, Handle_preserves_latest pv session a.1 a.2 _ hst p1 p2 p3⟩
    intro r hr
    rcases Handle_journal_mem pv a.1 false a.2 _ r hr with h | h
    · obtain ⟨e, he, hx⟩ := p0 r h
      exact ⟨e, List.mem_append.mpr (Or.inl he), hx⟩
    · exact ⟨a, by simp, h⟩

theorem Ledger.find_append (k : Key) (l l' : Ledger V) :
    Ledger.find k (l ++ l') = (Ledger.find k l).orElse (fun _ => Ledger.find k l') := by
  induction l with
  | nil => rfl
  | cons a t ih =>
    obtain ⟨ka, pa⟩ := a
    by_cases h : ka = k
    · simp [Ledger.find, h]
    · simp [Ledger.find, h, ih]

theorem Ledger.find_emplace (k k' : Key) (p : Position V) (l : Ledger V) :
    Ledger.find k' (Ledger.emplace k p l)
      = (Ledger.find k' l).orElse (fun _ => if k = k' then some p else none) := by
  unfold Ledger.emplace
  cases h : Ledger.find k l with
  | some x =>
    by_cases hk : k = k'
    · subst hk
      simp [h]
    · cases h' : Ledger.find k' l <;> simp [hk]
  | none =>
    simp only
    rw [Ledger.find_append]
    simp [Ledger.find]

theorem InitializeRow_sub_positions (pv : PositionValueOps V) (secs : Nat → Option Security)
    (s : PositionManager V) (row : JournalRow) (hk : (secs row.security_id).isSome) :
    (PositionManager.InitializeRow pv secs s row).sub_positions_
      = Ledger.emplace row.key (row.toPosition pv) s.sub_positions_ := by
  unfold PositionManager.InitializeRow
  obtain ⟨sec, hsec⟩ := Option.isSome_iff_exists.mp hk
  rw [hsec]
  rfl

/-- The sub-account ledger after the row loop: a key keeps the entry it had,
and otherwise takes the first row of its key. -/
theorem Initialize_find_sub (pv : PositionValueOps V) (secs : Nat → Option Security)
    (rows : List JournalRow) (hk : ∀ r ∈ rows, (secs r.security_id).isSome)
    (s : PositionManager V) (k : Key) :
    Ledger.find k (rows.foldl (PositionManager.InitializeRow pv secs) s).sub_positions_
      = (Ledger.find k s.sub_positions_).orElse
          (fun _ => (rows.find? (fun r => decide (r.key = k))).map (JournalRow.toPosition pv)) := by
  induction rows generalizing s with
  | nil =>
    rw [List.foldl_nil]
    cases Ledger.find k s.sub_positions_ <;> rfl
  | cons r rs ih =>
    have hr : (secs r.security_id).isSome := hk r (List.mem_cons_self r rs)
    rw [List.foldl_cons, ih (fun x hx => hk x (List.mem_cons_of_mem r hx)),
      InitializeRow_sub_positions pv secs s r hr, Ledger.find_emplace]
    cases Ledger.find k s.sub_positions_ with
    | some x => rfl
    | none =>
      by_cases h : r.key = k
      · simp [List.find?, h]
      · simp [List.find?, h]

/-- The rows that recovery reads after a run all name a known security. -/
theorem run_rows_known (pv : PositionValueOps V) (secs : Nat → Option Security) (session : Nat)
    (evs : List (Confirmation × Nat))
    (hknown : ∀ e ∈ evs, (secs e.1.order.sec.id).isSome)
    (hinc : (journalStamps evs).Pairwise (fun a b => a < b))
    (hcut : ∀ e ∈ evs, e.1.isFill = true → e.2 < session) :
    ∀ r ∈ latestBefore session
        (PositionManager.run pv evs (PositionManager.empty pv [])).journal,
      (secs r.security_id).isSome := by
  intro r hr
  obtain ⟨e, he, _, hkey, _⟩ :=
    (run_invariants pv session evs hinc hcut).1 r (latestBefore_mem session _ r hr)
  have : r.security_id = e.1.order.sec.id := congrArg Prod.snd hkey
  rw [this]
  exact hknown e he

theorem brokerSum_nil (g : JournalRow → ℚ) (bk : Key) : brokerSum g bk [] = 0 := rfl

theorem brokerSum_cons (g : JournalRow → ℚ) (bk : Key) (r : JournalRow) (l : List JournalRow) :
    brokerSum g bk (r :: l) = (if r.brokerKey = bk then g r else 0) + brokerSum g bk l := by
  unfold brokerSum
  rw [List.map_cons, List.sum_cons]

theorem brokerSum_append (g : JournalRow → ℚ) (bk : Key) (l l' : List JournalRow) :
    brokerSum g bk (l ++ l') = brokerSum g bk l + brokerSum g bk l' := by
  unfold brokerSum
  rw [List.map_append, List.sum_append]

/-- A sum over rows splits into the rows of one sub-account key and the rest. -/
theorem brokerSum_split (g : JournalRow → ℚ) (bk k : Key) (l : List JournalRow) :
    brokerSum g bk l
      = brokerSum g bk (l.filter (fun x => !decide (x.key = k)))
        + brokerSum g bk (l.filter (fun x => decide (x.key = k))) := by
  induction l with
  | nil => simp [brokerSum_nil]
  | cons r rs ih =>
    by_cases h : r.key = k
    · simp only [List.filter_cons, h, decide_True, Bool.not_true, if_true, brokerSum_cons,
        Bool.false_eq_true, if_false]
      rw [ih]
      ring
    · simp only [List.filter_cons, h, decide_False, Bool.not_false, if_true, brokerSum_cons,
        Bool.false_eq_true, if_false]
      rw [ih]
      ring

/-- With pairwise distinct keys, a key has no row or exactly one. -/
theorem filter_key_unique (l : List JournalRow) (k : Key)
    (h : l.Pairwise (fun a b => a.key ≠ b.key)) :
    l.filter (fun x => decide (x.key = k)) = [] ∨
      ∃ r ∈ l, r.key = k ∧ l.filter (fun x => decide (x.key = k)) = [r] := by
  induction l with
  | nil => exact Or.inl rfl
  | cons a t ih =>
    rw [List.pairwise_cons] at h
    by_cases hk : a.key = k
    · right
      refine ⟨a, List.mem_cons_self a t, hk, ?_⟩
      have ht : t.filter (fun x => decide (x.key = k)) = [] := by
        rw [List.filter_eq_nil_iff]
        intro x hx
        have := h.1 x hx
        rw [hk] at this
        simpa using fun e : x.key = k => this e.symm
      rw [List.filter_cons, ht]
      simp [hk]
    · rcases ih h.2 with e | ⟨r, hr, hrk, e⟩
      · left
        rw [List.filter_cons, e]
        simp [hk]
      · right
        refine ⟨r, List.mem_cons_of_mem a hr, hrk, ?_⟩
        rw [List.filter_cons, e]
        simp [hk]


/-- Reading any key of the broker-account ledger after `Handle`. -/
theorem Handle_read_broker_any (pv : PositionValueOps V) (cm : Confirmation) (offline : Bool)
    (now : Nat) (s : PositionManager V) (bk : Key) :
    Ledger.read pv (PositionManager.Handle pv cm offline now s).broker_positions_ bk
      = match cm.effect with
        | none => Ledger.read pv s.broker_positions_ bk
        | some c =>
          if bk = cm.order.brokerKey then c.apply pv (Ledger.read pv s.broker_positions_ bk)
          else Ledger.read pv s.broker_positions_ bk := by
  rw [Handle_broker_positions]
  cases cm.effect with
  | none => rfl
  | some c =>
    simp only
    rw [Ledger.read_modify]
    by_cases h : bk = cm.order.brokerKey
    · rw [if_pos h, if_pos h, h]
    · rw [if_neg h, if_neg h]

/-- Reading any key of the sub-account ledger after `Handle`. -/
theorem Handle_read_sub_any (pv : PositionValueOps V) (cm : Confirmation) (offline : Bool)
    (now : Nat) (s : PositionManager V) (k : Key) :
    Ledger.read pv (PositionManager.Handle pv cm offline now s).sub_positions_ k
      = match cm.effect with
        | none => Ledger.read pv s.sub_positions_ k
        | some c =>
          if k = cm.order.subKey then c.apply pv (Ledger.read pv s.sub_positions_ k)
          else Ledger.read pv s.sub_positions_ k := by
  rw [Handle_sub_positions]
  cases cm.effect with
  | none => rfl
  | some c =>
    simp only
    rw [Ledger.read_modify]
    by_cases h : k = cm.order.subKey
    · rw [if_pos h, if_pos h, h]
    · rw [if_neg h, if_neg h]

/-- The step of the broker-account tier, for a journaled quantity `gp` of an
entry (stored as `gr` in a row) to which `HandleTrade` adds an amount that
does not depend on the entry: the broker-account entry keeps holding the sum
of the latest rows of its sub-accounts. -/
theorem Handle_preserves_broker_sum (pv : PositionValueOps V) (session : Nat)
    (cm : Confirmation) (now : Nat) (s : PositionManager V)
    (gr : JournalRow → ℚ) (gp : Position V → ℚ)
    (hgj : ∀ (r : JournalRow) (p : Position V), r.journaled = p.journaled → gr r = gp p)
    (hg0 : ∀ p : Position V, p.journaled = (0, 0, 0, 0) → gp p = 0)
    (hgp : ∀ p q : Position V, p.journaled = q.journaled → gp p = gp q)
    (hadd : ∀ (is_buy : Bool) (q px px0 m : ℚ) (b otc cx : Bool), ∃ δ : ℚ, ∀ p : Position V,
      gp (Position.HandleTrade pv is_buy q px px0 m b otc cx p) = gp p + δ)
    (hst : cm.isFill = true → (∀ x ∈ s.journal, x.tm < now) ∧ now < session)
    (h1 : ∀ r ∈ latestBefore session s.journal,
      r.journaled = (Ledger.read pv s.sub_positions_ r.key).journaled)
    (h2 : ∀ k, (∀ r ∈ latestBefore session s.journal, r.key ≠ k) →
      (Ledger.read pv s.sub_positions_ k).journaled = (0, 0, 0, 0))
    (h3 : (latestBefore session s.journal).Pairwise (fun a b => a.key ≠ b.key))
    (hB : ∀ r ∈ latestBefore session s.journal, r.key = cm.order.subKey →
      r.brokerKey = cm.order.brokerKey)
    (hq : ∀ bk, gp (Ledger.read pv s.broker_positions_ bk)
      = brokerSum gr bk (latestBefore session s.journal)) (bk : Key) :
    gp (Ledger.read pv (PositionManager.Handle pv cm false now s).broker_positions_ bk)
      = brokerSum gr bk
          (latestBefore session (PositionManager.Handle pv cm false now s).journal) := by
  rw [Handle_read_broker_any]
  rcases effect_cases pv cm with ⟨hf, b, he⟩ | ⟨hf, he⟩
  · obtain ⟨hlt, hs⟩ := hst hf
    have hj := Handle_journal pv cm false now s
    rw [hf] at hj
    simp only [Bool.not_false, Bool.and_self, if_true] at hj
    have hsub := Handle_read_sub_any pv cm false now s cm.order.subKey
    rw [he] at hsub
    simp only [if_true] at hsub
    have hT := latestBefore_append session s.journal
      (cm.row (Ledger.read pv (PositionManager.Handle pv cm false now s).sub_positions_
        cm.order.subKey) now) hlt hs
    rw [← hj] at hT
    obtain ⟨δ, hδ⟩ := hadd cm.order.is_buy cm.last_shares cm.last_px cm.order.price
      cm.multiplier b cm.is_otc cm.is_cx
    have hrow : gr (cm.row (Ledger.read pv
        (PositionManager.Handle pv cm false now s).sub_positions_ cm.order.subKey) now)
        = gp (Ledger.read pv s.sub_positions_ cm.order.subKey) + δ := by
      have e : (cm.row (Ledger.read pv
          (PositionManager.Handle pv cm false now s).sub_positions_ cm.order.subKey)
          now).journaled
          = (Ledger.read pv (PositionManager.Handle pv cm false now s).sub_positions_
              cm.order.subKey).journaled := rfl
      rw [hgj _ _ e, hsub]
      exact hδ _
    have hold : brokerSum gr bk
        ((latestBefore session s.journal).filter (fun x => decide (x.key = cm.order.subKey)))
        = if cm.order.brokerKey = bk then gp (Ledger.read pv s.sub_positions_ cm.order.subKey)
          else 0 := by
      rcases filter_key_unique _ cm.order.subKey h3 with e | ⟨r, hr, hrk, e⟩
      · rw [e, brokerSum_nil]
        have hn : ∀ r ∈ latestBefore session s.journal, r.key ≠ cm.order.subKey := by
          intro r hr
          have := List.filter_eq_nil_iff.mp e r hr
          simpa using this
        rw [hg0 _ (h2 _ hn)]
        simp
      · rw [e, brokerSum_cons, brokerSum_nil, add_zero, hB r hr hrk]
        have := h1 r hr
        rw [hrk] at this
        rw [hgj r _ this]
    rw [hT, brokerSum_append, brokerSum_cons, brokerSum_nil, add_zero, he]
    simp only
    have hsplit := brokerSum_split gr bk cm.order.subKey (latestBefore session s.journal)
    rw [hold] at hsplit
    have hrk : (cm.row (Ledger.read pv
        (PositionManager.Handle pv cm false now s).sub_positions_ cm.order.subKey) now).key
        = cm.order.subKey := rfl
    have hrb : (cm.row (Ledger.read pv
        (PositionManager.Handle pv cm false now s).sub_positions_ cm.order.subKey) now).brokerKey
        = cm.order.brokerKey := rfl
    rw [hrk, hrb, hrow]
    by_cases hbk : bk = cm.order.brokerKey
    · have hbk' : cm.order.brokerKey = bk := hbk.symm
      rw [if_pos hbk, if_pos hbk']
      rw [if_pos hbk'] at hsplit
      show gp (Position.HandleTrade pv _ _ _ _ _ _ _ _ _) = _
      rw [hδ, hq bk, hsplit]
      ring
    · have hbk' : ¬ cm.order.brokerKey = bk := fun e => hbk e.symm
      rw [if_neg hbk, if_neg hbk']
      rw [if_neg hbk'] at hsplit
      rw [hq bk, hsplit]
  · have hj := Handle_journal pv cm false now s
    rw [hf] at hj
    simp only [Bool.false_and, Bool.false_eq_true, if_false] at hj
    rw [hj, ← hq bk]
    rcases he with he | ⟨c, he, hc⟩
    · rw [he]
    · rw [he]
      simp only
      split_ifs
      · exact hgp _ _ (hc _)
      · rfl

/-- After a run in which a sub-account always trades a security through the
same broker account, every live broker-account entry holds the sums of `qty`
and of `cx_qty` over the latest journal rows of its sub-accounts. -/
theorem run_broker_sums (pv : PositionValueOps V) (session : Nat)
    (evs : List (Confirmation × Nat))
    (hinc : (journalStamps evs).Pairwise (fun a b => a < b))
    (hcut : ∀ e ∈ evs, e.1.isFill = true → e.2 < session)
    (hbroker : ∀ e ∈ evs, ∀ e' ∈ evs, e.1.order.subKey = e'.1.order.subKey →
      e.1.order.broker_account = e'.1.order.broker_account) (bk : Key) :
    (Ledger.read pv (PositionManager.run pv evs
          (PositionManager.empty pv [])).broker_positions_ bk).qty
        = brokerSum JournalRow.qty bk (latestBefore session
            (PositionManager.run pv evs (PositionManager.empty pv [])).journal) ∧
      (Ledger.read pv (PositionManager.run pv evs
          (PositionManager.empty pv [])).broker_positions_ bk).cx_qty
        = brokerSum JournalRow.cx_qty bk (latestBefore session
            (PositionManager.run pv evs (PositionManager.empty pv [])).journal) := by
  induction evs using List.reverseRecOn generalizing bk with
  | nil => exact ⟨rfl, rfl⟩
  | append_singleton l a ih =>
    obtain ⟨hl, hcutl, hla⟩ := journalStamps_append l a session hinc hcut
    have hbl : ∀ e ∈ l, ∀ e' ∈ l, e.1.order.subKey = e'.1.order.subKey →
        e.1.order.broker_account = e'.1.order.broker_account := fun e he e' he' =>
      hbroker e (List.mem_append.mpr (Or.inl he)) e' (List.mem_append.mpr (Or.inl he'))
    obtain ⟨p0, p1, p2, p3⟩ := run_invariants pv session l hl hcutl
    have hst : a.1.isFill = true →
        (∀ x ∈ (PositionManager.run pv l (PositionManager.empty pv [])).journal, x.tm < a.2) ∧
          a.2 < session := by
      intro ha
      refine ⟨?_, (hla ha).2⟩
      intro x hx
      obtain ⟨e, he, htm, _, _, hfe⟩ := p0 x hx
      rw [htm]
      exact (hla ha).1 e he hfe
    have hB : ∀ r ∈ latestBefore session
        (PositionManager.run pv l (PositionManager.empty pv [])).journal,
        r.key = a.1.order.subKey → r.brokerKey = a.1.order.brokerKey := by
      intro r hr hk
      obtain ⟨e, he, _, hek, heb, _⟩ := p0 r (latestBefore_mem session _ r hr)
      have h1 : e.1.order.subKey = a.1.order.subKey := by rw [← hek, hk]
      have h2 := hbroker e (List.mem_append.mpr (Or.inl he)) a (by simp) h1
      have h3 : e.1.order.sec.id = a.1.order.sec.id := congrArg Prod.snd h1
      rw [heb]
      unfold Order.brokerKey
      rw [h2, h3]
    rw [run_append]
    constructor
    · exact Handle_preserves_broker_sum pv session a.1 a.2 _ JournalRow.qty Position.qty
        (fun r p h => congrArg Prod.fst h)
        (fun p h => congrArg Prod.fst h)
        (fun p q h => congrArg Prod.fst h)
        (fun is_buy q px px0 m b otc cx =>
          ⟨signedDelta is_buy b q, fun p => HandleTrade_qty pv is_buy q px px0 m b otc cx p⟩)
        hst p1 p2 p3 hB (fun bk' => (ih hl hcutl hbl bk').1) bk
    · exact Handle_preserves_broker_sum pv session a.1 a.2 _ JournalRow.cx_qty Position.cx_qty
        (fun r p h => congrArg (fun x => x.2.1) h)
        (fun p h => congrArg (fun x => x.2.1) h)
        (fun p q h => congrArg (fun x => x.2.1) h)
        (fun is_buy q px px0 m b otc cx =>
          ⟨if cx then signedDelta is_buy b q else 0,
            fun p => HandleTrade_cx_qty pv is_buy q px px0 m b otc cx p⟩)
        hst p1 p2 p3 hB (fun bk' => (ih hl hcutl hbl bk').2) bk

theorem foldRow_qty (sec : Security) (row : JournalRow) (p : Position V) :
    (foldRow sec row p).qty = p.qty + row.qty := by
  unfold foldRow
  simp only [HandlePnl_qty]

theorem foldRow_cx_qty (sec : Security) (row : JournalRow) (p : Position V) :
    (foldRow sec row p).cx_qty = p.cx_qty + row.cx_qty := by
  unfold foldRow
  simp only [(HandlePnl_frame _ _ _ _).2.1]

theorem InitializeRow_broker_positions (pv : PositionValueOps V) (secs : Nat → Option Security)
    (s : PositionManager V) (row : JournalRow) (sec : Security)
    (hsec : secs row.security_id = some sec) :
    (PositionManager.InitializeRow pv secs s row).broker_positions_
      = Ledger.modify pv row.brokerKey (foldRow sec row) s.broker_positions_ := by
  unfold PositionManager.InitializeRow
  rw [hsec]
  rfl

/-- The broker-account ledger after the row loop, for a quantity that
`foldRow` accumulates: each entry gains the sum over the rows of its key. -/
theorem Initialize_read_broker_sum (pv : PositionValueOps V) (secs : Nat → Option Security)
    (gr : JournalRow → ℚ) (gp : Position V → ℚ)
    (hfold : ∀ (sec : Security) (row : JournalRow) (p : Position V),
      gp (foldRow sec row p) = gp p + gr row)
    (rows : List JournalRow) (hk : ∀ r ∈ rows, (secs r.security_id).isSome)
    (s : PositionManager V) (bk : Key) :
    gp (Ledger.read pv (rows.foldl (PositionManager.InitializeRow pv secs) s).broker_positions_
        bk)
      = gp (Ledger.read pv s.broker_positions_ bk) + brokerSum gr bk rows := by
  induction rows generalizing s with
  | nil => rw [List.foldl_nil, brokerSum_nil, add_zero]
  | cons r rs ih =>
    obtain ⟨sec, hsec⟩ := Option.isSome_iff_exists.mp (hk r (List.mem_cons_self r rs))
    rw [List.foldl_cons, ih (fun x hx => hk x (List.mem_cons_of_mem r hx)),
      InitializeRow_broker_positions pv secs s r sec hsec, Ledger.read_modify, brokerSum_cons]
    by_cases h : bk = r.brokerKey
    · have h' : r.brokerKey = bk := h.symm
      rw [if_pos h, if_pos h', hfold, h]
      ring
    · have h' : ¬ r.brokerKey = bk := fun e => h e.symm
      rw [if_neg h, if_neg h']
      ring

/-- When the confirmations on a sub-account key are exactly those on a
broker-account key, the two live entries are equal. -/
theorem run_broker_eq_sub (pv : PositionValueOps V) (evs : List (Confirmation × Nat))
    (k bk : Key) (hiff : ∀ e ∈ evs, e.1.order.subKey = k ↔ e.1.order.brokerKey = bk) :
    Ledger.read pv (PositionManager.run pv evs (PositionManager.empty pv [])).broker_positions_ bk
      = Ledger.read pv (PositionManager.run pv evs (PositionManager.empty pv [])).sub_positions_
          k := by
  induction evs using List.reverseRecOn with
  | nil => rfl
  | append_singleton l a ih =>
    have ih' := ih (fun e he => hiff e (List.mem_append.mpr (Or.inl he)))
    have ha := hiff a (by simp)
    rw [run_append, Handle_read_broker_any, Handle_read_sub_any]
    cases a.1.effect with
    | none => exact ih'
    | some c =>
      simp only
      by_cases hk : k = a.1.order.subKey
      · have hb : bk = a.1.order.brokerKey := (ha.mp hk.symm).symm
        rw [if_pos hk, if_pos hb, ih']
      · have hb : ¬ bk = a.1.order.brokerKey := fun e => hk (ha.mpr e.symm).symm
        rw [if_neg hk, if_neg hb, ih']

/-- A broker-account key that no confirmation names stays value-initialised. -/
theorem run_broker_untouched (pv : PositionValueOps V) (evs : List (Confirmation × Nat))
    (bk : Key) (hno : ∀ e ∈ evs, e.1.order.brokerKey ≠ bk) :
    Ledger.read pv (PositionManager.run pv evs (PositionManager.empty pv [])).broker_positions_ bk
      = Position.init pv := by
  induction evs using List.reverseRecOn with
  | nil => rfl
  | append_singleton l a ih =>
    have ih' := ih (fun e he => hno e (List.mem_append.mpr (Or.inl he)))
    have ha : ¬ bk = a.1.order.brokerKey := fun e => hno a (by simp) e.symm
    rw [run_append, Handle_read_broker_any]
    cases a.1.effect with
    | none => exact ih'
    | some c =>
      simp only
      rw [if_neg ha, ih']

/-- Every live sub-account entry is flat only with a zero average price. -/
theorem run_sub_flat (pv : PositionValueOps V) (evs : List (Confirmation × Nat)) (k : Key) :
    (Ledger.read pv (PositionManager.run pv evs (PositionManager.empty pv [])).sub_positions_
        k).qty = 0 →
      (Ledger.read pv (PositionManager.run pv evs (PositionManager.empty pv [])).sub_positions_
        k).avg_px = 0 := by
  induction evs using List.reverseRecOn with
  | nil => exact fun _ => rfl
  | append_singleton l a ih =>
    rw [run_append, Handle_read_sub_any]
    cases a.1.effect with
    | none => exact ih
    | some c =>
      simp only
      split_ifs
      · exact runCalls_journaled_inv pv [c] _ ih
      · exact ih

theorem Initialize_read_broker_other (pv : PositionValueOps V) (secs : Nat → Option Security)
    (rows : List JournalRow) (hk : ∀ r ∈ rows, (secs r.security_id).isSome)
    (s : PositionManager V) (bk : Key) (hno : ∀ r ∈ rows, r.brokerKey ≠ bk) :
    Ledger.read pv (rows.foldl (PositionManager.InitializeRow pv secs) s).broker_positions_ bk
      = Ledger.read pv s.broker_positions_ bk := by
  induction rows generalizing s with
  | nil => rfl
  | cons r rs ih =>
    obtain ⟨sec, hsec⟩ := Option.isSome_iff_exists.mp (hk r (List.mem_cons_self r rs))
    have hr : ¬ bk = r.brokerKey := fun e => hno r (List.mem_cons_self r rs) e.symm
    rw [List.foldl_cons, ih (fun x hx => hk x (List.mem_cons_of_mem r hx)) _
        (fun x hx => hno x (List.mem_cons_of_mem r hx)),
      InitializeRow_broker_positions pv secs s r sec hsec, Ledger.read_modify, if_neg hr]

/-- When at most one row belongs to a broker-account key, the row loop folds
exactly that row into the entry. -/
theorem Initialize_read_broker_single (pv : PositionValueOps V) (secs : Nat → Option Security)
    (rows : List JournalRow) (hk : ∀ r ∈ rows, (secs r.security_id).isSome)
    (s : PositionManager V) (bk : Key)
    (hone : rows.Pairwise (fun a b => ¬ (a.brokerKey = bk ∧ b.brokerKey = bk)))
    (r : JournalRow) (hr : r ∈ rows) (hrb : r.brokerKey = bk) :
    ∃ sec : Security,
      Ledger.read pv (rows.foldl (PositionManager.InitializeRow pv secs) s).broker_positions_ bk
        = foldRow sec r (Ledger.read pv s.broker_positions_ bk) := by
  induction rows generalizing s with
  | nil => exact absurd hr (List.not_mem_nil r)
  | cons a t ih =>
    rw [List.pairwise_cons] at hone
    obtain ⟨sec, hsec⟩ := Option.isSome_iff_exists.mp (hk a (List.mem_cons_self a t))
    have hkt : ∀ x ∈ t, (secs x.security_id).isSome := fun x hx =>
      hk x (List.mem_cons_of_mem a hx)
    rw [List.foldl_cons]
    by_cases ha : a.brokerKey = bk
    · have hno : ∀ x ∈ t, x.brokerKey ≠ bk := fun x hx e => hone.1 x hx ⟨ha, e⟩
      have hra : r = a := by
        rcases List.mem_cons.mp hr with e | e
        · exact e
        · exact absurd hrb (hno r e)
      refine ⟨sec, ?_⟩
      rw [Initialize_read_broker_other pv secs t hkt _ bk hno,
        InitializeRow_broker_positions pv secs s a sec hsec, Ledger.read_modify,
        if_pos ha.symm, hra, ha]
    · have hrt : r ∈ t := by
        rcases List.mem_cons.mp hr with e | e
        · rw [e] at hrb
          exact absurd hrb ha
        · exact e
      obtain ⟨sec', h⟩ := ih hkt (PositionManager.InitializeRow pv secs s a) hone.2 hrt
      refine ⟨sec', ?_⟩
      have ha' : ¬ bk = a.brokerKey := fun e => ha e.symm
      rw [h, InitializeRow_broker_positions pv secs s a sec hsec, Ledger.read_modify, if_neg ha']

/-- Folding one row into a value-initialised entry copies the journaled
fields of the row, provided the row is flat only with a zero average price. -/
theorem foldRow_init_journaled (pv : PositionValueOps V) (sec : Security) (r : JournalRow)
    (hflat : r.qty = 0 → r.avg_px = 0) :
    (foldRow sec r (Position.init pv)).journaled = r.journaled := by
  unfold foldRow HandlePnl Position.journaled JournalRow.journaled Position.init
  by_cases h : r.qty = 0
  · simp [h, hflat h]
  · simp [h]

/-- The journal that `brokerExampleLive` leaves. -/
theorem brokerExample_journal :
    brokerExampleLive.journal
      = [⟨1, 1, 7, 1, 100, 0, 10, 0, 1⟩, ⟨1, 2, 7, 1, 100, 0, 20, 0, 2⟩,
          ⟨1, 1, 7, 1, 0, 0, 0, 0, 3⟩] := by
  simp [brokerExampleLive, brokerExampleEvents, PositionManager.run, PositionManager.Handle,
    PositionManager.empty, filledConfirmation, sampleOrder, sampleOrderB, sampleSellOrder,
    sampleSecurity, Ledger.read, Ledger.modify, Ledger.find, Position.HandleTrade, HandlePnl,
    Position.init, unitOps]
  norm_num

end RecoveryLemmas

/-! ## The accounting rules of one entry -/

section EntryClaims

variable {V : Type}

/-- C1: in every state of an entry reached from the all-zero entry by a finite
sequence of HandleNew / HandleTrade / HandleFinish calls with positive
quantities, `qty = 0` implies `avg_px = 0`; and after a single HandleTrade
from an arbitrary entry, a resulting `qty` of 0 comes with `avg_px = 0`. -/
theorem C1_flat_entry_has_zero_avg_px (pv : PositionValueOps V) :
    (∀ cs : List Call, (∀ c ∈ cs, c.qtyPos) →
        (runCalls pv cs (Position.init pv)).qty = 0 →
        (runCalls pv cs (Position.init pv)).avg_px = 0) ∧
    (∀ (p : Position V) (is_buy : Bool) (qty price price0 multiplier : ℚ)
        (is_bust is_otc is_cx : Bool), 0 < qty →
        (Position.HandleTrade pv is_buy qty price price0 multiplier is_bust is_otc is_cx p).qty = 0 →
        (Position.HandleTrade pv is_buy qty price price0 multiplier is_bust is_otc is_cx p).avg_px
          = 0) := by
  refine ⟨?_, ?_⟩
  · intro cs _
    exact runCalls_journaled_inv pv cs (Position.init pv) (fun _ => rfl)
  · intro p is_buy qty price price0 multiplier is_bust is_otc is_cx _
    exact HandleTrade_avg_px_of_qty_zero pv is_buy qty price price0 multiplier is_bust is_otc is_cx p

/-- Witness of C1: buy 100 at 10, sell 60 at 12, sell 40 at 8 ends flat with
a zero average price. -/
theorem C1_flat_entry_has_zero_avg_px_witness :
    (∀ c ∈ [Call.new true 100 10 1, Call.trade true 100 10 10 1 false false false,
        Call.trade false 60 12 12 1 false false false,
        Call.trade false 40 8 8 1 false false false], c.qtyPos) ∧
    (runCalls unitOps [Call.new true 100 10 1, Call.trade true 100 10 10 1 false false false,
        Call.trade false 60 12 12 1 false false false,
        Call.trade false 40 8 8 1 false false false] (Position.init unitOps)).qty = 0 ∧
    (runCalls unitOps [Call.new true 100 10 1, Call.trade true 100 10 10 1 false false false,
        Call.trade false 60 12 12 1 false false false,
        Call.trade false 40 8 8 1 false false false] (Position.init unitOps)).avg_px = 0 :=
  have hq : ∀ c ∈ [Call.new true 100 10 1, Call.trade true 100 10 10 1 false false false,
        Call.trade false 60 12 12 1 false false false,
        Call.trade false 40 8 8 1 false false false], c.qtyPos := by
    simp [Call.qtyPos]
  have h0 : (runCalls unitOps [Call.new true 100 10 1,
        Call.trade true 100 10 10 1 false false false,
        Call.trade false 60 12 12 1 false false false,
        Call.trade false 40 8 8 1 false false false] (Position.init unitOps)).qty = 0 := by
    norm_num [runCalls, Call.apply, Position.HandleNew, Position.HandleTrade, HandlePnl,
      Position.init]
  ⟨hq, h0, (C1_flat_entry_has_zero_avg_px unitOps).1 _ hq h0⟩

/-- C6: opening/adding rule.  When the signed delta `d` of a HandleTrade is
non-zero and the entry is flat or has the sign of `d`, the resulting `avg_px`
is `(qty0*avg_px0 + d*price) / (qty0 + d)` and `realized_pnl` is unchanged. -/
theorem C6_opening_rule (pv : PositionValueOps V) (p : Position V) (is_buy : Bool)
    (qty price price0 multiplier : ℚ) (is_bust is_otc is_cx : Bool)
    (hd : signedDelta is_buy is_bust qty ≠ 0)
    (hs : p.qty = 0 ∨ (0 < p.qty ∧ 0 < signedDelta is_buy is_bust qty) ∨
      (p.qty < 0 ∧ signedDelta is_buy is_bust qty < 0)) :
    (Position.HandleTrade pv is_buy qty price price0 multiplier is_bust is_otc is_cx p).avg_px
        = (p.qty * p.avg_px + signedDelta is_buy is_bust qty * price)
            / (p.qty + signedDelta is_buy is_bust qty) ∧
      (Position.HandleTrade pv is_buy qty price price0 multiplier is_bust is_otc is_cx
        p).realized_pnl = p.realized_pnl := by
  rw [HandleTrade_avg_px, HandleTrade_realized_pnl]
  exact HandlePnl_open _ price multiplier p hd hs

/-- Witness of C6: from flat, a buy of 100 at 10 gives `avg_px = 10`. -/
theorem C6_opening_rule_witness :
    (Position.HandleTrade unitOps true 100 10 10 1 false false false
        (Position.init unitOps)).avg_px
        = ((Position.init unitOps).qty * (Position.init unitOps).avg_px
            + signedDelta true false 100 * 10)
            / ((Position.init unitOps).qty + signedDelta true false 100) ∧
      (Position.HandleTrade unitOps true 100 10 10 1 false false false
        (Position.init unitOps)).realized_pnl = (Position.init unitOps).realized_pnl :=
  C6_opening_rule unitOps (Position.init unitOps) true 100 10 10 1 false false false
    (by norm_num [signedDelta]) (Or.inl rfl)

/-- C7: partial-close rule.  When the entry is not flat, the signed delta `d`
has the opposite sign and `|qty0| > |d|`, `realized_pnl` grows by exactly
`(price - avg_px0) * (-d) * multiplier` and `avg_px` is unchanged. -/
theorem C7_partial_close_rule (pv : PositionValueOps V) (p : Position V) (is_buy : Bool)
    (qty price price0 multiplier : ℚ) (is_bust is_otc is_cx : Bool)
    (h0 : p.qty ≠ 0)
    (hopp : (0 < p.qty ∧ signedDelta is_buy is_bust qty < 0) ∨
      (p.qty < 0 ∧ 0 < signedDelta is_buy is_bust qty))
    (habs : |signedDelta is_buy is_bust qty| < |p.qty|) :
    (Position.HandleTrade pv is_buy qty price price0 multiplier is_bust is_otc is_cx
        p).realized_pnl
        = p.realized_pnl + (price - p.avg_px) * (-signedDelta is_buy is_bust qty) * multiplier ∧
      (Position.HandleTrade pv is_buy qty price price0 multiplier is_bust is_otc is_cx p).avg_px
        = p.avg_px := by
  have _ := h0
  rw [HandleTrade_avg_px, HandleTrade_realized_pnl]
  have h := HandlePnl_partial (signedDelta is_buy is_bust qty) price multiplier p (by
    rcases hopp with ⟨a, b⟩ | ⟨a, b⟩
    · left
      rw [abs_of_neg b, abs_of_pos a] at habs
      exact ⟨a, b, habs⟩
    · right
      rw [abs_of_pos b, abs_of_neg a] at habs
      exact ⟨a, b, habs⟩)
  exact ⟨h.2, h.1⟩

/-- Witness of C7: long 100 at 10, a sell of 60 at 12 realizes 120. -/
theorem C7_partial_close_rule_witness :
    (Position.HandleTrade unitOps false 60 12 12 1 false false false
        { Position.init unitOps with qty := 100, avg_px := 10 }).realized_pnl = 120 ∧
      (Position.HandleTrade unitOps false 60 12 12 1 false false false
        { Position.init unitOps with qty := 100, avg_px := 10 }).avg_px = 10 := by
  have h := C7_partial_close_rule unitOps
    { Position.init unitOps with qty := 100, avg_px := 10 } false 60 12 12 1 false false false
    (by norm_num) (by norm_num [signedDelta]) (by norm_num [signedDelta, abs_of_pos])
  norm_num [signedDelta, Position.init] at h
  exact h

/-- C8: full-close / flip rule.  When the entry is not flat, the signed delta
`d` has the opposite sign and `|qty0| ≤ |d|`, `realized_pnl` grows by exactly
`(price - avg_px0) * qty0 * multiplier`, the resulting `qty` is `qty0 + d`,
and the resulting `avg_px` is `price` when `qty0 + d ≠ 0` and 0 otherwise. -/
theorem C8_full_close_flip_rule (pv : PositionValueOps V) (p : Position V) (is_buy : Bool)
    (qty price price0 multiplier : ℚ) (is_bust is_otc is_cx : Bool)
    (h0 : p.qty ≠ 0)
    (hopp : (0 < p.qty ∧ signedDelta is_buy is_bust qty < 0) ∨
      (p.qty < 0 ∧ 0 < signedDelta is_buy is_bust qty))
    (habs : |p.qty| ≤ |signedDelta is_buy is_bust qty|) :
    (Position.HandleTrade pv is_buy qty price price0 multiplier is_bust is_otc is_cx
        p).realized_pnl
        = p.realized_pnl + (price - p.avg_px) * p.qty * multiplier ∧
      (Position.HandleTrade pv is_buy qty price price0 multiplier is_bust is_otc is_cx p).qty
        = p.qty + signedDelta is_buy is_bust qty ∧
      (Position.HandleTrade pv is_buy qty price price0 multiplier is_bust is_otc is_cx p).avg_px
        = (if p.qty + signedDelta is_buy is_bust qty = 0 then 0 else price) := by
  have _ := h0
  rw [HandleTrade_avg_px, HandleTrade_realized_pnl, HandleTrade_qty]
  have h := HandlePnl_flip (signedDelta is_buy is_bust qty) price multiplier p (by
    rcases hopp with ⟨a, b⟩ | ⟨a, b⟩
    · left
      rw [abs_of_neg b, abs_of_pos a] at habs
      exact ⟨a, b, habs⟩
    · right
      rw [abs_of_pos b, abs_of_neg a] at habs
      exact ⟨a, b, habs⟩)
  exact ⟨h.2, rfl, h.1⟩

/-- Witness of C8: long 40 at 10 with 120 realized, a sell of 40 at 8 ends
flat with `avg_px = 0` and `realized_pnl = 40`. -/
theorem C8_full_close_flip_rule_witness :
    (Position.HandleTrade unitOps false 40 8 8 1 false false false
        { Position.init unitOps with qty := 40, avg_px := 10, realized_pnl := 120 }).realized_pnl
        = 40 ∧
      (Position.HandleTrade unitOps false 40 8 8 1 false false false
        { Position.init unitOps with qty := 40, avg_px := 10, realized_pnl := 120 }).qty = 0 ∧
      (Position.HandleTrade unitOps false 40 8 8 1 false false false
        { Position.init unitOps with qty := 40, avg_px := 10, realized_pnl := 120 }).avg_px
        = 0 := by
  have h := C8_full_close_flip_rule unitOps
    { Position.init unitOps with qty := 40, avg_px := 10, realized_pnl := 120 }
    false 40 8 8 1 false false false
    (by norm_num) (by norm_num [signedDelta]) (by norm_num [signedDelta, abs_of_pos])
  norm_num [signedDelta, Position.init] at h
  exact h

/-- C9: signed delta.  For every entry and every HandleTrade with `q > 0`, the
resulting `qty` is the prior `qty` plus `+q` for a non-bust buy, `-q` for a
non-bust sell, `-q` for a busted buy and `+q` for a busted sell, whatever
`isOtc` and `isCx` are. -/
theorem C9_signed_delta (pv : PositionValueOps V) (p : Position V)
    (q price price0 multiplier : ℚ) (is_otc is_cx : Bool) (hq : 0 < q) :
    (Position.HandleTrade pv true q price price0 multiplier false is_otc is_cx p).qty
        = p.qty + q ∧
      (Position.HandleTrade pv false q price price0 multiplier false is_otc is_cx p).qty
        = p.qty + -q ∧
      (Position.HandleTrade pv true q price price0 multiplier true is_otc is_cx p).qty
        = p.qty + -q ∧
      (Position.HandleTrade pv false q price price0 multiplier true is_otc is_cx p).qty
        = p.qty + q := by
  have _ := hq
  simp only [HandleTrade_qty, signedDelta]
  simp

/-- Witness of C9 on the flat entry with `q = 50`, an OTC trade at price 5. -/
theorem C9_signed_delta_witness :
    (Position.HandleTrade unitOps true 50 5 5 1 false true false (Position.init unitOps)).qty
        = (Position.init unitOps).qty + 50 ∧
      (Position.HandleTrade unitOps false 50 5 5 1 false true false (Position.init unitOps)).qty
        = (Position.init unitOps).qty + -50 ∧
      (Position.HandleTrade unitOps true 50 5 5 1 true true false (Position.init unitOps)).qty
        = (Position.init unitOps).qty + -50 ∧
      (Position.HandleTrade unitOps false 50 5 5 1 true true false (Position.init unitOps)).qty
        = (Position.init unitOps).qty + 50 :=
  C9_signed_delta unitOps (Position.init unitOps) 50 5 5 1 true false (by norm_num)

/-- Outstanding quantities after `HandleNew(Q)` and some fills of the order. -/
theorem lifecycle_after_fills (pv : PositionValueOps V) (p : Position V) (is_buy : Bool)
    (Q price multiplier : ℚ) (fills : List Fill) (hf : ∀ f ∈ fills, 0 < f.qty) :
    (runCalls pv (Call.new is_buy Q price multiplier :: fills.map (Fill.call is_buy))
        p).total_outstanding_buy_qty
        = p.total_outstanding_buy_qty + (if is_buy then Q - filledQty fills else 0) ∧
      (runCalls pv (Call.new is_buy Q price multiplier :: fills.map (Fill.call is_buy))
        p).total_outstanding_sell_qty
        = p.total_outstanding_sell_qty + (if is_buy then 0 else Q - filledQty fills) := by
  have hN := HandleNew_outstanding pv is_buy Q price multiplier p
  have hF := runCalls_fills_outstanding pv is_buy fills hf
    (Position.HandleNew pv is_buy Q price multiplier p)
  have e : runCalls pv (Call.new is_buy Q price multiplier :: fills.map (Fill.call is_buy)) p
      = runCalls pv (fills.map (Fill.call is_buy))
          (Position.HandleNew pv is_buy Q price multiplier p) := rfl
  rw [e, hF.1, hF.2, hN.1, hN.2]
  cases is_buy <;> simp only [Bool.false_eq_true, if_false, if_true] <;> constructor <;> ring

/-- C3 as amended: over exact arithmetic, through the life of one order on
one side (HandleNew(Q), non-OTC fills whose non-bust quantities sum to at most
Q, then optionally HandleFinish on the positive remainder), starting from
non-negative outstanding quantities, both outstanding quantities are
non-negative after every call, and the side is back at its starting value
once the order is fully filled or finished. -/
theorem C3_outstanding_nonneg (pv : PositionValueOps V) (p : Position V) (is_buy : Bool)
    (Q price multiplier : ℚ) (fills : List Fill) (fin : Bool)
    (hb : 0 ≤ p.total_outstanding_buy_qty) (hs : 0 ≤ p.total_outstanding_sell_qty)
    (hQ : 0 < Q) (hf : ∀ f ∈ fills, 0 < f.qty) (hsum : filledQty fills ≤ Q)
    (hfin : fin = true → 0 < Q - filledQty fills) :
    (∀ n : Nat,
        0 ≤ (runCalls pv ((lifecycle is_buy Q price multiplier fills fin).take n)
              p).total_outstanding_buy_qty ∧
        0 ≤ (runCalls pv ((lifecycle is_buy Q price multiplier fills fin).take n)
              p).total_outstanding_sell_qty) ∧
      ((filledQty fills = Q ∨ fin = true) →
        (runCalls pv (lifecycle is_buy Q price multiplier fills fin) p).outstanding is_buy
          = p.outstanding is_buy) := by
  have _ := hQ
  have _ := hfin
  refine ⟨?_, ?_⟩
  · intro n
    cases n with
    | zero => exact ⟨hb, hs⟩
    | succ n =>
      have hft : ∀ f ∈ fills.take n, 0 < f.qty := fun f hm => hf f (List.mem_of_mem_take hm)
      have hle := filledQty_take_le fills hf n
      have hA := lifecycle_after_fills pv p is_buy Q price multiplier (fills.take n) hft
      have e : (lifecycle is_buy Q price multiplier fills fin).take (n + 1)
          = (Call.new is_buy Q price multiplier :: (fills.take n).map (Fill.call is_buy))
            ++ (if fin then [Call.finish is_buy (Q - filledQty fills) price multiplier]
                else []).take (n - (fills.map (Fill.call is_buy)).length) := by
        unfold lifecycle
        rw [List.take_succ_cons, List.take_append_eq_append_take, List.map_take]
        rfl
      rw [e, runCalls_append]
      cases fin with
      | false =>
        have e2 : (if false = true then
            [Call.finish is_buy (Q - filledQty fills) price multiplier] else []).take
              (n - (fills.map (Fill.call is_buy)).length) = [] := by simp
        rw [e2]
        show 0 ≤ (runCalls pv _ p).total_outstanding_buy_qty ∧
          0 ≤ (runCalls pv _ p).total_outstanding_sell_qty
        rw [hA.1, hA.2]
        cases is_buy <;> simp only [Bool.false_eq_true, if_false, if_true] <;>
          constructor <;> linarith
      | true =>
        cases hk : n - (fills.map (Fill.call is_buy)).length with
        | zero =>
          rw [List.take_zero]
          show 0 ≤ (runCalls pv _ p).total_outstanding_buy_qty ∧
            0 ≤ (runCalls pv _ p).total_outstanding_sell_qty
          rw [hA.1, hA.2]
          cases is_buy <;> simp only [Bool.false_eq_true, if_false, if_true] <;>
            constructor <;> linarith
        | succ k =>
          have e2 : (if true = true then
              [Call.finish is_buy (Q - filledQty fills) price multiplier] else []).take (k + 1)
              = [Call.finish is_buy (Q - filledQty fills) price multiplier] := by simp
          rw [e2]
          have hFin := HandleFinish_outstanding pv is_buy (Q - filledQty fills) price multiplier
            (runCalls pv (Call.new is_buy Q price multiplier ::
              (fills.take n).map (Fill.call is_buy)) p)
          show 0 ≤ (Position.HandleFinish pv is_buy (Q - filledQty fills) price multiplier
              (runCalls pv _ p)).total_outstanding_buy_qty ∧
            0 ≤ (Position.HandleFinish pv is_buy (Q - filledQty fills) price multiplier
              (runCalls pv _ p)).total_outstanding_sell_qty
          rw [hFin.1, hFin.2, hA.1, hA.2]
          cases is_buy <;> simp only [Bool.false_eq_true, if_false, if_true] <;>
            constructor <;> linarith
  · intro hdone
    have hA := lifecycle_after_fills pv p is_buy Q price multiplier fills hf
    have e : lifecycle is_buy Q price multiplier fills fin
        = (Call.new is_buy Q price multiplier :: fills.map (Fill.call is_buy))
          ++ (if fin then [Call.finish is_buy (Q - filledQty fills) price multiplier]
              else []) := rfl
    rw [e, runCalls_append]
    cases fin with
    | false =>
      have hfull : filledQty fills = Q := by
        rcases hdone with h | h
        · exact h
        · exact absurd h (by decide)
      show (runCalls pv _ p).outstanding is_buy = p.outstanding is_buy
      unfold Position.outstanding
      rw [hA.1, hA.2, hfull]
      cases is_buy <;> simp
    | true =>
      have hFin := HandleFinish_outstanding pv is_buy (Q - filledQty fills) price multiplier
        (runCalls pv (Call.new is_buy Q price multiplier :: fills.map (Fill.call is_buy)) p)
      show (Position.HandleFinish pv is_buy (Q - filledQty fills) price multiplier
        (runCalls pv _ p)).outstanding is_buy = p.outstanding is_buy
      unfold Position.outstanding
      rw [hFin.1, hFin.2, hA.1, hA.2]
      cases is_buy <;> simp

/-- Witness of C3: a buy order of 100, filled 60, the fill busted, filled 30,
then finished with 10 left. -/
theorem C3_outstanding_nonneg_witness :
    (∀ n : Nat,
        0 ≤ (runCalls unitOps ((lifecycle true 100 10 1
              [⟨60, 10, 10, 1, false, false⟩, ⟨60, 10, 10, 1, true, false⟩,
                ⟨30, 11, 10, 1, false, false⟩] true).take n)
              (Position.init unitOps)).total_outstanding_buy_qty ∧
        0 ≤ (runCalls unitOps ((lifecycle true 100 10 1
              [⟨60, 10, 10, 1, false, false⟩, ⟨60, 10, 10, 1, true, false⟩,
                ⟨30, 11, 10, 1, false, false⟩] true).take n)
              (Position.init unitOps)).total_outstanding_sell_qty) ∧
      ((filledQty [⟨60, 10, 10, 1, false, false⟩, ⟨60, 10, 10, 1, true, false⟩,
            ⟨30, 11, 10, 1, false, false⟩] = 100 ∨ true = true) →
        (runCalls unitOps (lifecycle true 100 10 1
            [⟨60, 10, 10, 1, false, false⟩, ⟨60, 10, 10, 1, true, false⟩,
              ⟨30, 11, 10, 1, false, false⟩] true) (Position.init unitOps)).outstanding true
          = (Position.init unitOps).outstanding true) :=
  C3_outstanding_nonneg unitOps (Position.init unitOps) true 100 10 1
    [⟨60, 10, 10, 1, false, false⟩, ⟨60, 10, 10, 1, true, false⟩, ⟨30, 11, 10, 1, false, false⟩]
    true (le_refl 0) (le_refl 0) (by norm_num) (by simp) (by norm_num [filledQty])
    (by norm_num [filledQty])

end EntryClaims

/-! ## What `Handle` does to the ledgers -/

section ManagerClaims

variable {V : Type}

/-- C2 as amended: over exact arithmetic, a Filled confirmation with
transaction type New followed by the Filled confirmation with transaction
type Cancel for the same order, quantity and price returns `qty` of the three
affected entries to its value before the fill; `avg_px` and `realized_pnl`
return to their values before the fill for each affected entry that was flat
(`qty = 0`, `avg_px = 0`) or that held a position (`qty ≠ 0`) whose `avg_px`
was the fill price, and `avg_px` returns only for those. -/
theorem C2_bust_restores_flat_or_at_price (pv : PositionValueOps V) (s : PositionManager V)
    (o : Order) (q px l1 l2 : ℚ) (off1 off2 : Bool) (now1 now2 : Nat) (hq : 0 < q) :
    Position.bustRestored (Ledger.read pv s.sub_positions_ o.subKey)
        (Ledger.read pv
          (PositionManager.Handle pv (filledConfirmation o ExecTransType.kTransCancel q px l2)
            off2 now2
            (PositionManager.Handle pv (filledConfirmation o ExecTransType.kTransNew q px l1)
              off1 now1 s)).sub_positions_ o.subKey) px ∧
      Position.bustRestored (Ledger.read pv s.broker_positions_ o.brokerKey)
        (Ledger.read pv
          (PositionManager.Handle pv (filledConfirmation o ExecTransType.kTransCancel q px l2)
            off2 now2
            (PositionManager.Handle pv (filledConfirmation o ExecTransType.kTransNew q px l1)
              off1 now1 s)).broker_positions_ o.brokerKey) px ∧
      Position.bustRestored (Ledger.read pv s.user_positions_ o.userKey)
        (Ledger.read pv
          (PositionManager.Handle pv (filledConfirmation o ExecTransType.kTransCancel q px l2)
            off2 now2
            (PositionManager.Handle pv (filledConfirmation o ExecTransType.kTransNew q px l1)
              off1 now1 s)).user_positions_ o.userKey) px := by
  have e1 := (effect_filledConfirmation o q px l1).1
  have e2 := (effect_filledConfirmation o q px l2).2
  have hs := Handle_read_sub pv _ off2 now2
    (PositionManager.Handle pv (filledConfirmation o ExecTransType.kTransNew q px l1) off1 now1 s)
    _ e2
  have hb := Handle_read_broker pv _ off2 now2
    (PositionManager.Handle pv (filledConfirmation o ExecTransType.kTransNew q px l1) off1 now1 s)
    _ e2
  have hu := Handle_read_user pv _ off2 now2
    (PositionManager.Handle pv (filledConfirmation o ExecTransType.kTransNew q px l1) off1 now1 s)
    _ e2
  have hs1 := Handle_read_sub pv _ off1 now1 s _ e1
  have hb1 := Handle_read_broker pv _ off1 now1 s _ e1
  have hu1 := Handle_read_user pv _ off1 now1 s _ e1
  have ko : ∀ (t : ExecTransType) (l : ℚ), (filledConfirmation o t q px l).order = o :=
    fun _ _ => rfl
  rw [ko] at hs hb hu hs1 hb1 hu1
  rw [hs, hb, hu, hs1, hb1, hu1]
  exact ⟨HandleTrade_bust_roundtrip pv _ o.is_buy q px o.price _ _ _ hq,
    HandleTrade_bust_roundtrip pv _ o.is_buy q px o.price _ _ _ hq,
    HandleTrade_bust_roundtrip pv _ o.is_buy q px o.price _ _ _ hq⟩

/-- Witness of the amended C2: on the empty manager a fill of 100 at 10 and
its bust leave the three affected entries restored. -/
theorem C2_bust_restores_flat_or_at_price_witness :
    0 < (100 : ℚ) ∧
      Position.bustRestored
        (Ledger.read unitOps (PositionManager.empty unitOps []).sub_positions_
          sampleOrder.subKey)
        (Ledger.read unitOps
          (PositionManager.Handle unitOps
            (filledConfirmation sampleOrder ExecTransType.kTransCancel 100 10 0) false 2
            (PositionManager.Handle unitOps
              (filledConfirmation sampleOrder ExecTransType.kTransNew 100 10 0) false 1
              (PositionManager.empty unitOps []))).sub_positions_ sampleOrder.subKey) 10 :=
  ⟨by norm_num,
    (C2_bust_restores_flat_or_at_price unitOps (PositionManager.empty unitOps []) sampleOrder
      100 10 0 0 false false 1 2 (by norm_num)).1⟩

/-- Counterexample to C2 as stated.  With integer values, on which no
operation rounds: sub-account 1 is long 40 at 10 with no realized PnL; after a
fill of 60 at 20 and the Cancel of that fill its `avg_px` is 16 and its
`realized_pnl` is 240.  In double arithmetic, on the empty state: after a
fill of 3 at 0.1 and the Cancel of that fill, the sub-account entry, which was
flat with `realized_pnl = 0` before the fill, has a `realized_pnl` other
than 0. -/
theorem C2_counterexample :
    ((Ledger.read unitOps bustExampleBefore.sub_positions_ sampleOrder.subKey).avg_px = 10 ∧
      (Ledger.read unitOps bustExampleAfter.sub_positions_ sampleOrder.subKey).avg_px = 16 ∧
      (Ledger.read unitOps bustExampleBefore.sub_positions_ sampleOrder.subKey).realized_pnl
        = 0 ∧
      (Ledger.read unitOps bustExampleAfter.sub_positions_ sampleOrder.subKey).realized_pnl
        = 240) ∧
      (Ledger.read unitOps (PositionManager.empty unitOps []).sub_positions_
          roundingOrder.subKey).realized_pnl = 0 ∧
      (Ledger.read unitOps roundingBustExample.sub_positions_
          roundingOrder.subKey).realized_pnl ≠ 0 := by
  refine ⟨?_, by decide!⟩
  simp [bustExampleAfter, bustExampleBefore, PositionManager.Handle, PositionManager.empty,
    filledConfirmation, sampleOrder, sampleSecurity, Order.subKey, Ledger.read, Ledger.modify,
    Ledger.find, Position.HandleTrade, HandlePnl, Position.init, unitOps]
  norm_num

/-- C10: on an order flagged off-book (type OTC, or CX which `Handle` treats
as OTC too), `Handle` leaves `total_outstanding_buy_qty` and
`total_outstanding_sell_qty` of every entry of the three ledgers unchanged,
whatever the exec_type and exec_trans_type; and `HandleTrade` with
`isOtc = true` changes none of the two outstanding and the two cumulative
bought/sold quantities. -/
theorem C10_otc_never_touches_outstanding (pv : PositionValueOps V) :
    (∀ (s : PositionManager V) (cm : Confirmation) (offline : Bool) (now : Nat) (k : Key),
        (cm.order.type = OrderType.kOTC ∨ cm.order.type = OrderType.kCX) →
        ((Ledger.read pv (PositionManager.Handle pv cm offline now s).sub_positions_
              k).total_outstanding_buy_qty
            = (Ledger.read pv s.sub_positions_ k).total_outstanding_buy_qty ∧
          (Ledger.read pv (PositionManager.Handle pv cm offline now s).sub_positions_
              k).total_outstanding_sell_qty
            = (Ledger.read pv s.sub_positions_ k).total_outstanding_sell_qty) ∧
        ((Ledger.read pv (PositionManager.Handle pv cm offline now s).broker_positions_
              k).total_outstanding_buy_qty
            = (Ledger.read pv s.broker_positions_ k).total_outstanding_buy_qty ∧
          (Ledger.read pv (PositionManager.Handle pv cm offline now s).broker_positions_
              k).total_outstanding_sell_qty
            = (Ledger.read pv s.broker_positions_ k).total_outstanding_sell_qty) ∧
        ((Ledger.read pv (PositionManager.Handle pv cm offline now s).user_positions_
              k).total_outstanding_buy_qty
            = (Ledger.read pv s.user_positions_ k).total_outstanding_buy_qty ∧
          (Ledger.read pv (PositionManager.Handle pv cm offline now s).user_positions_
              k).total_outstanding_sell_qty
            = (Ledger.read pv s.user_positions_ k).total_outstanding_sell_qty)) ∧
    (∀ (p : Position V) (is_buy : Bool) (qty price price0 multiplier : ℚ)
        (is_bust is_cx : Bool),
        (Position.HandleTrade pv is_buy qty price price0 multiplier is_bust true is_cx
            p).total_outstanding_buy_qty = p.total_outstanding_buy_qty ∧
        (Position.HandleTrade pv is_buy qty price price0 multiplier is_bust true is_cx
            p).total_outstanding_sell_qty = p.total_outstanding_sell_qty ∧
        (Position.HandleTrade pv is_buy qty price price0 multiplier is_bust true is_cx
            p).total_bought_qty = p.total_bought_qty ∧
        (Position.HandleTrade pv is_buy qty price price0 multiplier is_bust true is_cx
            p).total_sold_qty = p.total_sold_qty) := by
  refine ⟨?_, ?_⟩
  · intro s cm offline now k h
    rw [Handle_sub_positions, Handle_broker_positions, Handle_user_positions]
    rcases effect_of_otc cm h with e | ⟨b, e⟩
    · rw [e]
      exact ⟨⟨rfl, rfl⟩, ⟨rfl, rfl⟩, ⟨rfl, rfl⟩⟩
    · rw [e]
      have f1 : ∀ p : Position V,
          ((Call.trade cm.order.is_buy cm.last_shares cm.last_px cm.order.price cm.multiplier b
              true cm.is_cx).apply pv p).total_outstanding_buy_qty
            = p.total_outstanding_buy_qty := fun p =>
        (HandleTrade_otc_frame pv cm.order.is_buy cm.last_shares cm.last_px cm.order.price
          cm.multiplier b cm.is_cx p).1
      have f2 : ∀ p : Position V,
          ((Call.trade cm.order.is_buy cm.last_shares cm.last_px cm.order.price cm.multiplier b
              true cm.is_cx).apply pv p).total_outstanding_sell_qty
            = p.total_outstanding_sell_qty := fun p =>
        (HandleTrade_otc_frame pv cm.order.is_buy cm.last_shares cm.last_px cm.order.price
          cm.multiplier b cm.is_cx p).2.1
      exact ⟨⟨Ledger.read_modify_frame pv (fun p => p.total_outstanding_buy_qty) _ f1 _ k _,
          Ledger.read_modify_frame pv (fun p => p.total_outstanding_sell_qty) _ f2 _ k _⟩,
        ⟨Ledger.read_modify_frame pv (fun p => p.total_outstanding_buy_qty) _ f1 _ k _,
          Ledger.read_modify_frame pv (fun p => p.total_outstanding_sell_qty) _ f2 _ k _⟩,
        ⟨Ledger.read_modify_frame pv (fun p => p.total_outstanding_buy_qty) _ f1 _ k _,
          Ledger.read_modify_frame pv (fun p => p.total_outstanding_sell_qty) _ f2 _ k _⟩⟩
  · intro p is_buy qty price price0 multiplier is_bust is_cx
    exact HandleTrade_otc_frame pv is_buy qty price price0 multiplier is_bust is_cx p

/-- Witness of C10: an OTC fill of 50 at 5 on a manager that holds an
acknowledged on-book order of 100 leaves the outstanding buy quantity of the
sub-account entry at 100. -/
theorem C10_otc_never_touches_outstanding_witness :
    (Ledger.read unitOps
        (PositionManager.Handle unitOps
          (filledConfirmation sampleOtcOrder ExecTransType.kTransNew 50 5 0) false 2
          (PositionManager.Handle unitOps
            { filledConfirmation sampleOrder ExecTransType.kTransNew 0 0 100 with
              exec_type := ExecType.kUnconfirmedNew }
            false 1 (PositionManager.empty unitOps []))).sub_positions_
        (1, 7)).total_outstanding_buy_qty = 100 := by
  have h := ((C10_otc_never_touches_outstanding unitOps).1
    (PositionManager.Handle unitOps
      { filledConfirmation sampleOrder ExecTransType.kTransNew 0 0 100 with
        exec_type := ExecType.kUnconfirmedNew }
      false 1 (PositionManager.empty unitOps []))
    (filledConfirmation sampleOtcOrder ExecTransType.kTransNew 50 5 0) false 2 (1, 7)
    (Or.inl rfl)).1.1
  rw [h]
  simp [PositionManager.Handle, PositionManager.empty, filledConfirmation, sampleOrder,
    sampleSecurity, Ledger.read, Ledger.modify, Ledger.find, Position.HandleNew,
    Position.init, unitOps]

end ManagerClaims

/-! ## Recovery round trips -/

section RecoveryClaims

variable {V : Type}

/-- C4: recovery round trip, sub-account tier.  After any run of non-offline
confirmations on empty ledgers, with all securities known and journal rows
stamped with strictly increasing times before the session marker, the row
loop of `Initialize` over the rows of its query (in whatever order they come
back) seeds a sub-account ledger whose `(qty, cx_qty, avg_px, realized_pnl)`
equals the live one under every key, in particular under every key that
received a fill. -/
theorem C4_recovery_roundtrip_sub (pv : PositionValueOps V) (secs : Nat → Option Security)
    (session : Nat) (evs : List (Confirmation × Nat))
    (hknown : ∀ e ∈ evs, (secs e.1.order.sec.id).isSome)
    (hinc : (journalStamps evs).Pairwise (fun a b => a < b))
    (hcut : ∀ e ∈ evs, e.1.isFill = true → e.2 < session)
    (rows : List JournalRow)
    (hperm : rows.Perm (latestBefore session
      (PositionManager.run pv evs (PositionManager.empty pv [])).journal))
    (k : Key) :
    (Ledger.read pv
        (PositionManager.InitializeRows pv secs rows
          (PositionManager.empty pv
            (PositionManager.run pv evs (PositionManager.empty pv [])).journal)).sub_positions_
        k).journaled
      = (Ledger.read pv (PositionManager.run pv evs (PositionManager.empty pv [])).sub_positions_
          k).journaled := by
  obtain ⟨_, p1, p2, _⟩ := run_invariants pv session evs hinc hcut
  have hrows : ∀ r ∈ rows, (secs r.security_id).isSome := fun r hr =>
    run_rows_known pv secs session evs hknown hinc hcut r (hperm.mem_iff.mp hr)
  unfold PositionManager.InitializeRows Ledger.read
  rw [Initialize_find_sub pv secs rows hrows]
  have he : Ledger.find k (PositionManager.empty pv
      (PositionManager.run pv evs (PositionManager.empty pv [])).journal).sub_positions_
      = none := rfl
  rw [he]
  cases hf : rows.find? (fun r => decide (r.key = k)) with
  | some r =>
    have hm := hperm.mem_iff.mp (List.mem_of_find?_eq_some hf)
    have hkk : r.key = k := by simpa using List.find?_some hf
    have h := p1 r hm
    rw [hkk] at h
    unfold Ledger.read at h
    rw [← h]
    rfl
  | none =>
    have hn : ∀ r ∈ latestBefore session
        (PositionManager.run pv evs (PositionManager.empty pv [])).journal, r.key ≠ k := by
      intro r hr
      have := List.find?_eq_none.mp hf r (hperm.mem_iff.mpr hr)
      simpa using this
    have h := p2 k hn
    unfold Ledger.read at h
    rw [h]
    rfl

/-- Witness of C4: two fills of one order with an acknowledgement in between,
journal rows stamped 1 and 2, session marker 5. -/
theorem C4_recovery_roundtrip_sub_witness :
    (Ledger.read unitOps
        (PositionManager.InitializeRows unitOps (fun _ => some sampleSecurity)
          (latestBefore 5
            (PositionManager.run unitOps
              [(filledConfirmation sampleOrder ExecTransType.kTransNew 40 10 60, 1),
                (filledConfirmation sampleOrder ExecTransType.kTransOther 0 0 60, 0),
                (filledConfirmation sampleOrder ExecTransType.kTransNew 60 20 0, 2)]
              (PositionManager.empty unitOps [])).journal)
          (PositionManager.empty unitOps
            (PositionManager.run unitOps
              [(filledConfirmation sampleOrder ExecTransType.kTransNew 40 10 60, 1),
                (filledConfirmation sampleOrder ExecTransType.kTransOther 0 0 60, 0),
                (filledConfirmation sampleOrder ExecTransType.kTransNew 60 20 0, 2)]
              (PositionManager.empty unitOps [])).journal)).sub_positions_
        (1, 7)).journaled
      = (Ledger.read unitOps
          (PositionManager.run unitOps
            [(filledConfirmation sampleOrder ExecTransType.kTransNew 40 10 60, 1),
              (filledConfirmation sampleOrder ExecTransType.kTransOther 0 0 60, 0),
              (filledConfirmation sampleOrder ExecTransType.kTransNew 60 20 0, 2)]
            (PositionManager.empty unitOps [])).sub_positions_ (1, 7)).journaled :=
  C4_recovery_roundtrip_sub unitOps (fun _ => some sampleSecurity) 5
    [(filledConfirmation sampleOrder ExecTransType.kTransNew 40 10 60, 1),
      (filledConfirmation sampleOrder ExecTransType.kTransOther 0 0 60, 0),
      (filledConfirmation sampleOrder ExecTransType.kTransNew 60 20 0, 2)]
    (by simp)
    (by simp [journalStamps, Confirmation.isFill, filledConfirmation])
    (by simp [Confirmation.isFill, filledConfirmation])
    _ (List.Perm.refl _) (1, 7)

/-- C5 as amended: recovery round trip, broker-account tier, over exact
arithmetic.  Under the hypotheses of the sub-account round trip, and when
every sub-account always trades a given security through the same broker
account, the broker-account
ledger rebuilt by the row loop of `Initialize` (over the rows of its query in
whatever order they come back) has, under every key, the `qty` and `cx_qty`
of the live broker-account ledger; under a key whose confirmations all come
from one (sub-account, security) key it has the live `avg_px` and
`realized_pnl` as well. -/
theorem C5_recovery_broker_qty_and_single_sub (pv : PositionValueOps V)
    (secs : Nat → Option Security) (session : Nat) (evs : List (Confirmation × Nat))
    (hknown : ∀ e ∈ evs, (secs e.1.order.sec.id).isSome)
    (hinc : (journalStamps evs).Pairwise (fun a b => a < b))
    (hcut : ∀ e ∈ evs, e.1.isFill = true → e.2 < session)
    (hbroker : ∀ e ∈ evs, ∀ e' ∈ evs, e.1.order.subKey = e'.1.order.subKey →
      e.1.order.broker_account = e'.1.order.broker_account)
    (rows : List JournalRow)
    (hperm : rows.Perm (latestBefore session
      (PositionManager.run pv evs (PositionManager.empty pv [])).journal)) :
    (∀ bk : Key,
        (Ledger.read pv
            (PositionManager.InitializeRows pv secs rows
              (PositionManager.empty pv
                (PositionManager.run pv evs
                  (PositionManager.empty pv [])).journal)).broker_positions_ bk).qty
          = (Ledger.read pv (PositionManager.run pv evs
              (PositionManager.empty pv [])).broker_positions_ bk).qty ∧
        (Ledger.read pv
            (PositionManager.InitializeRows pv secs rows
              (PositionManager.empty pv
                (PositionManager.run pv evs
                  (PositionManager.empty pv [])).journal)).broker_positions_ bk).cx_qty
          = (Ledger.read pv (PositionManager.run pv evs
              (PositionManager.empty pv [])).broker_positions_ bk).cx_qty) ∧
      (∀ bk k : Key, (∀ e ∈ evs, e.1.order.brokerKey = bk → e.1.order.subKey = k) →
        (Ledger.read pv
            (PositionManager.InitializeRows pv secs rows
              (PositionManager.empty pv
                (PositionManager.run pv evs
                  (PositionManager.empty pv [])).journal)).broker_positions_ bk).journaled
          = (Ledger.read pv (PositionManager.run pv evs
              (PositionManager.empty pv [])).broker_positions_ bk).journaled) := by
  obtain ⟨p0, p1, p2, p3⟩ := run_invariants pv session evs hinc hcut
  have hmem : ∀ r, r ∈ rows ↔ r ∈ latestBefore session
      (PositionManager.run pv evs (PositionManager.empty pv [])).journal := fun r =>
    hperm.mem_iff
  have hrows : ∀ r ∈ rows, (secs r.security_id).isSome := fun r hr =>
    run_rows_known pv secs session evs hknown hinc hcut r ((hmem r).mp hr)
  have hsum : ∀ (g : JournalRow → ℚ) (bk : Key), brokerSum g bk rows
      = brokerSum g bk (latestBefore session
          (PositionManager.run pv evs (PositionManager.empty pv [])).journal) := by
    intro g bk
    unfold brokerSum
    exact (hperm.map _).sum_eq
  unfold PositionManager.InitializeRows
  refine ⟨?_, ?_⟩
  · intro bk
    have hs := run_broker_sums pv session evs hinc hcut hbroker bk
    constructor
    · rw [Initialize_read_broker_sum pv secs JournalRow.qty Position.qty
        (fun sec row p => foldRow_qty sec row p) _ hrows, hs.1, hsum]
      show (0 : ℚ) + _ = _
      rw [zero_add]
    · rw [Initialize_read_broker_sum pv secs JournalRow.cx_qty Position.cx_qty
        (fun sec row p => foldRow_cx_qty sec row p) _ hrows, hs.2, hsum]
      show (0 : ℚ) + _ = _
      rw [zero_add]
  · intro bk k hsingle
    -- a confirmation on `bk` makes the confirmations on `k` and on `bk` the same ones
    have hiff : ∀ e0 ∈ evs, e0.1.order.brokerKey = bk →
        ∀ e ∈ evs, e.1.order.subKey = k ↔ e.1.order.brokerKey = bk := by
      intro e0 he0 hb0 e he
      constructor
      · intro hk
        have h1 : e.1.order.subKey = e0.1.order.subKey := by
          rw [hk, hsingle e0 he0 hb0]
        have h2 := hbroker e he e0 he0 h1
        have h3 : e.1.order.sec.id = e0.1.order.sec.id := congrArg Prod.snd h1
        rw [← hb0]
        unfold Order.brokerKey
        rw [h2, h3]
      · exact hsingle e he
    have hone : rows.Pairwise (fun a b => ¬ (a.brokerKey = bk ∧ b.brokerKey = bk)) := by
      have hsym : ∀ {x y : JournalRow}, x.key ≠ y.key → y.key ≠ x.key := fun h e => h e.symm
      apply ((hperm.pairwise_iff hsym).mpr p3).imp_of_mem
      intro a b ha hb hab hboth
      obtain ⟨ea, hea, _, hka, hba, _⟩ :=
        p0 a (latestBefore_mem session _ a ((hmem a).mp ha))
      obtain ⟨eb, heb, _, hkb, hbb, _⟩ :=
        p0 b (latestBefore_mem session _ b ((hmem b).mp hb))
      apply hab
      rw [hka, hkb, hsingle ea hea (by rw [← hba]; exact hboth.1),
        hsingle eb heb (by rw [← hbb]; exact hboth.2)]
    by_cases hex : ∃ r ∈ rows, r.brokerKey = bk
    · obtain ⟨r, hr, hrb⟩ := hex
      have hrT := (hmem r).mp hr
      obtain ⟨e0, he0, _, hk0, hb0, _⟩ := p0 r (latestBefore_mem session _ r hrT)
      have hb0' : e0.1.order.brokerKey = bk := by rw [← hb0]; exact hrb
      have hrk : r.key = k := by rw [hk0]; exact hsingle e0 he0 hb0'
      have hj := p1 r hrT
      rw [hrk] at hj
      have hflat : r.qty = 0 → r.avg_px = 0 := by
        intro hq
        have h1 : (Ledger.read pv (PositionManager.run pv evs
            (PositionManager.empty pv [])).sub_positions_ k).qty = r.qty :=
          (congrArg Prod.fst hj).symm
        have h2 : (Ledger.read pv (PositionManager.run pv evs
            (PositionManager.empty pv [])).sub_positions_ k).avg_px = r.avg_px :=
          (congrArg (fun x => x.2.2.1) hj).symm
        rw [← h2]
        apply run_sub_flat
        rw [h1, hq]
      obtain ⟨sec, hrec⟩ := Initialize_read_broker_single pv secs rows hrows
        (PositionManager.empty pv
          (PositionManager.run pv evs (PositionManager.empty pv [])).journal) bk hone r hr hrb
      rw [hrec, run_broker_eq_sub pv evs k bk (hiff e0 he0 hb0'), ← hj]
      exact foldRow_init_journaled pv sec r hflat
    · have hno : ∀ r ∈ rows, r.brokerKey ≠ bk := fun r hr e => hex ⟨r, hr, e⟩
      rw [Initialize_read_broker_other pv secs rows hrows _ bk hno]
      by_cases hev : ∃ e ∈ evs, e.1.order.brokerKey = bk
      · obtain ⟨e0, he0, hb0⟩ := hev
        rw [run_broker_eq_sub pv evs k bk (hiff e0 he0 hb0)]
        have hnk : ∀ r ∈ latestBefore session
            (PositionManager.run pv evs (PositionManager.empty pv [])).journal, r.key ≠ k := by
          intro r hr hk
          obtain ⟨e, he, _, hke, hbe, _⟩ := p0 r (latestBefore_mem session _ r hr)
          apply hno r ((hmem r).mpr hr)
          rw [hbe]
          exact (hiff e0 he0 hb0 e he).mp (by rw [← hke]; exact hk)
        rw [p2 k hnk]
        rfl
      · have hnev : ∀ e ∈ evs, e.1.order.brokerKey ≠ bk := fun e he h => hev ⟨e, he, h⟩
        rw [run_broker_untouched pv evs bk hnev]
        rfl

/-- Witness of the amended C5 on `brokerExampleEvents`: the rebuilt entry of
broker account 1 has the live `qty`. -/
theorem C5_recovery_broker_qty_and_single_sub_witness :
    (Ledger.read unitOps
        (PositionManager.InitializeRows unitOps (fun _ => some sampleSecurity)
          (latestBefore 10 (PositionManager.run unitOps brokerExampleEvents
            (PositionManager.empty unitOps [])).journal)
          (PositionManager.empty unitOps
            (PositionManager.run unitOps brokerExampleEvents
              (PositionManager.empty unitOps [])).journal)).broker_positions_ (1, 7)).qty
      = (Ledger.read unitOps (PositionManager.run unitOps brokerExampleEvents
          (PositionManager.empty unitOps [])).broker_positions_ (1, 7)).qty :=
  ((C5_recovery_broker_qty_and_single_sub unitOps (fun _ => some sampleSecurity) 10
    brokerExampleEvents (by simp)
    (by simp [brokerExampleEvents, journalStamps, Confirmation.isFill, filledConfirmation])
    (by simp [brokerExampleEvents])
    (by
      intro e he e' he' _
      simp only [brokerExampleEvents, List.mem_cons, List.mem_singleton, List.not_mem_nil,
        or_false] at he he'
      rcases he with rfl | rfl | rfl <;> rcases he' with rfl | rfl | rfl <;> rfl)
    _ (List.Perm.refl _)).1 (1, 7)).1

/-- Counterexample to C5 as stated: sub-account 1 buys 100 at 10, sub-account 2
buys 100 at 20, sub-account 1 sells 100 at 10, all through broker account 1.
The live broker-account entry ends with `avg_px = 15` and
`realized_pnl = -500`; the one rebuilt from the journal has `avg_px = 20` and
`realized_pnl = 0`, in either order of the two rows of the query (integer
values, on which no operation rounds).  In double arithmetic: sub-account 2
buys 0.1, sub-account 1 buys 0.2 and then 0.3, all at 10 through broker
account 1, stamped 1, 2, 3; the `qty` of the live broker-account entry
differs from the `qty` of the rebuilt one, in either order of the rows. -/
theorem C5_counterexample :
    ((∀ e ∈ brokerExampleEvents, ∀ e' ∈ brokerExampleEvents,
        e.1.order.subKey = e'.1.order.subKey →
        e.1.order.broker_account = e'.1.order.broker_account) ∧
      (Ledger.read unitOps brokerExampleLive.broker_positions_ (1, 7)).avg_px = 15 ∧
      (Ledger.read unitOps brokerExampleRecovered.broker_positions_ (1, 7)).avg_px = 20 ∧
      (Ledger.read unitOps brokerExampleLive.broker_positions_ (1, 7)).realized_pnl = -500 ∧
      (Ledger.read unitOps brokerExampleRecovered.broker_positions_ (1, 7)).realized_pnl = 0 ∧
      (Ledger.read unitOps brokerExampleRecoveredByKey.broker_positions_ (1, 7)).avg_px = 20 ∧
      (Ledger.read unitOps brokerExampleRecoveredByKey.broker_positions_ (1, 7)).realized_pnl
        = 0) ∧
      (∀ e ∈ roundingEvents, ∀ e' ∈ roundingEvents,
        e.1.order.subKey = e'.1.order.subKey →
        e.1.order.broker_account = e'.1.order.broker_account) ∧
      (journalStamps roundingEvents).Pairwise (fun a b => a < b) ∧
      (Ledger.read unitOps roundingLive.broker_positions_ (1, 7)).qty
        ≠ (Ledger.read unitOps roundingRecovered.broker_positions_ (1, 7)).qty ∧
      (Ledger.read unitOps roundingLive.broker_positions_ (1, 7)).qty
        ≠ (Ledger.read unitOps roundingRecoveredByKey.broker_positions_ (1, 7)).qty := by
  refine ⟨?_, by decide!⟩
  refine ⟨?_, ?_, ?_, ?_, ?_, ?_, ?_⟩
  · intro e he e' he' _
    simp only [brokerExampleEvents, List.mem_cons, List.mem_singleton, List.not_mem_nil,
      or_false] at he he'
    rcases he with rfl | rfl | rfl <;> rcases he' with rfl | rfl | rfl <;> rfl
  · simp [brokerExampleLive, brokerExampleEvents, PositionManager.run, PositionManager.Handle,
      PositionManager.empty, filledConfirmation, sampleOrder, sampleOrderB, sampleSellOrder,
      sampleSecurity, Ledger.read, Ledger.modify, Ledger.find, Position.HandleTrade, HandlePnl,
      Position.init, unitOps]
    norm_num
  · unfold brokerExampleRecovered PositionManager.Initialize PositionManager.InitializeRows
    rw [show (PositionManager.empty unitOps brokerExampleLive.journal).journal
      = brokerExampleLive.journal from rfl, brokerExample_journal]
    simp [latestBefore, JournalRow.key, PositionManager.InitializeRow, PositionManager.empty,
      foldRow, sampleSecurity, Ledger.read, Ledger.modify, Ledger.find, Ledger.emplace,
      HandlePnl, Position.init, unitOps]
  · simp [brokerExampleLive, brokerExampleEvents, PositionManager.run, PositionManager.Handle,
      PositionManager.empty, filledConfirmation, sampleOrder, sampleOrderB, sampleSellOrder,
      sampleSecurity, Ledger.read, Ledger.modify, Ledger.find, Position.HandleTrade, HandlePnl,
      Position.init, unitOps]
    norm_num
  · unfold brokerExampleRecovered PositionManager.Initialize PositionManager.InitializeRows
    rw [show (PositionManager.empty unitOps brokerExampleLive.journal).journal
      = brokerExampleLive.journal from rfl, brokerExample_journal]
    simp [latestBefore, JournalRow.key, PositionManager.InitializeRow, PositionManager.empty,
      foldRow, sampleSecurity, Ledger.read, Ledger.modify, Ledger.find, Ledger.emplace,
      HandlePnl, Position.init, unitOps]
  · unfold brokerExampleRecoveredByKey PositionManager.InitializeRows
    rw [brokerExample_journal]
    simp [latestBefore, JournalRow.key, PositionManager.InitializeRow, PositionManager.empty,
      foldRow, sampleSecurity, Ledger.read, Ledger.modify, Ledger.find, Ledger.emplace,
      HandlePnl, Position.init, unitOps]
  · unfold brokerExampleRecoveredByKey PositionManager.InitializeRows
    rw [brokerExample_journal]
    simp [latestBefore, JournalRow.key, PositionManager.InitializeRow, PositionManager.empty,
      foldRow, sampleSecurity, Ledger.read, Ledger.modify, Ledger.find, Ledger.emplace,
      HandlePnl, Position.init, unitOps]

end RecoveryClaims

/-! ## Reservation calls and `cx_qty` -/

section ReservationClaims
variable {V : Type}

/-- C11 as amended: HandleNew and HandleFinish leave `cx_qty`; HandleTrade
(`q > 0`) adds the signed delta to `cx_qty` when `isCx` is set and leaves it
otherwise.  So `cx_qty` does not decrease, except in a HandleTrade with `isCx`
set and a negative signed delta (a non-bust sell or a busted buy), which
lowers it by `q`. -/
theorem C11_cx_qty_follows_signed_delta (pv : PositionValueOps V) (p : Position V)
    (is_buy : Bool) (q price price0 multiplier : ℚ) (is_bust is_otc is_cx : Bool)
    (hq : 0 < q) :
    (Position.HandleNew pv is_buy q price multiplier p).cx_qty = p.cx_qty ∧
      (Position.HandleFinish pv is_buy q price0 multiplier p).cx_qty = p.cx_qty ∧
      (Position.HandleTrade pv is_buy q price price0 multiplier is_bust is_otc is_cx p).cx_qty
        = p.cx_qty + (if is_cx then signedDelta is_buy is_bust q else 0) ∧
      ((is_cx = false ∨ is_buy ≠ is_bust) →
        p.cx_qty ≤ (Position.HandleTrade pv is_buy q price price0 multiplier is_bust is_otc
          is_cx p).cx_qty) ∧
      (is_cx = true → is_buy = is_bust →
        (Position.HandleTrade pv is_buy q price price0 multiplier is_bust is_otc is_cx
          p).cx_qty = p.cx_qty - q) := by
  have hn : (Position.HandleNew pv is_buy q price multiplier p).cx_qty = p.cx_qty :=
    congrArg (fun x => x.2.1) (HandleNew_journaled pv is_buy q price multiplier p)
  have hf : (Position.HandleFinish pv is_buy q price0 multiplier p).cx_qty = p.cx_qty :=
    congrArg (fun x => x.2.1) (HandleFinish_journaled pv is_buy q price0 multiplier p)
  refine ⟨hn, hf, HandleTrade_cx_qty pv is_buy q price price0 multiplier is_bust is_otc is_cx p,
    ?_, ?_⟩
  · intro h
    rw [HandleTrade_cx_qty]
    unfold signedDelta
    rcases h with h | h
    · rw [h]
      simp
    · cases is_cx <;> cases is_buy <;> cases is_bust <;> simp at h ⊢ <;> linarith
  · intro hc hb
    rw [HandleTrade_cx_qty, hc, hb]
    unfold signedDelta
    cases is_bust <;> simp <;> ring

/-- Witness of the amended C11: a CX buy of 50 raises `cx_qty` of the flat
entry to 50. -/
theorem C11_cx_qty_follows_signed_delta_witness :
    (Position.HandleTrade unitOps true 50 5 5 1 false true true (Position.init unitOps)).cx_qty
      = (Position.init unitOps).cx_qty + (if true = true then signedDelta true false 50 else 0) :=
  (C11_cx_qty_follows_signed_delta unitOps (Position.init unitOps) true 50 5 5 1 false true
    true (by norm_num)).2.2.1

/-- Counterexample to C11 as stated: a CX sell of 50 at 5 on the flat entry
leaves `cx_qty = -50`, below the `cx_qty = 0` it had before. -/
theorem C11_counterexample :
    (Position.init unitOps).cx_qty = 0 ∧
      (Position.HandleTrade unitOps false 50 5 5 1 false true true
        (Position.init unitOps)).cx_qty = -50 ∧
      ¬ ((Position.init unitOps).cx_qty
        ≤ (Position.HandleTrade unitOps false 50 5 5 1 false true true
            (Position.init unitOps)).cx_qty) := by
  simp [Position.HandleTrade, HandlePnl, Position.init, unitOps]

/-- C17 as amended: HandleNew adds `q` to the outstanding quantity of its side
and HandleFinish subtracts `leavesQty` from it; both leave `qty`, `avg_px`,
`realized_pnl`, `cx_qty`, `total_bought_qty`, `total_sold_qty` and the
outstanding quantity of the other side unchanged, so that, over exact
arithmetic, HandleNew(side, q) followed by HandleFinish(side, q) restores
every field of the entry.  The last part says the same of the single calls
under any rounding: the sum or difference is rounded once, the other fields
are untouched. -/
theorem C17_reservation_calls_have_no_pnl_effect (pv : PositionValueOps V) (p : Position V)
    (is_buy : Bool) (q price multiplier leaves_qty price0 multiplier0 : ℚ) :
    ((Position.HandleNew pv is_buy q price multiplier p).outstanding is_buy
        = p.outstanding is_buy + q ∧
      (Position.HandleNew pv is_buy q price multiplier p).outstanding (!is_buy)
        = p.outstanding (!is_buy) ∧
      (Position.HandleNew pv is_buy q price multiplier p).journaled = p.journaled ∧
      (Position.HandleNew pv is_buy q price multiplier p).total_bought_qty
        = p.total_bought_qty ∧
      (Position.HandleNew pv is_buy q price multiplier p).total_sold_qty = p.total_sold_qty) ∧
    ((Position.HandleFinish pv is_buy leaves_qty price0 multiplier0 p).outstanding is_buy
        = p.outstanding is_buy - leaves_qty ∧
      (Position.HandleFinish pv is_buy leaves_qty price0 multiplier0 p).outstanding (!is_buy)
        = p.outstanding (!is_buy) ∧
      (Position.HandleFinish pv is_buy leaves_qty price0 multiplier0 p).journaled
        = p.journaled ∧
      (Position.HandleFinish pv is_buy leaves_qty price0 multiplier0 p).total_bought_qty
        = p.total_bought_qty ∧
      (Position.HandleFinish pv is_buy leaves_qty price0 multiplier0 p).total_sold_qty
        = p.total_sold_qty) ∧
    Position.sameFields p
      (Position.HandleFinish pv is_buy q price0 multiplier0
        (Position.HandleNew pv is_buy q price multiplier p)) ∧
    (∀ rnd : ℚ → ℚ,
      ((fp.Position.HandleNew rnd pv is_buy q price multiplier p).outstanding is_buy
          = rnd (p.outstanding is_buy + q) ∧
        (fp.Position.HandleNew rnd pv is_buy q price multiplier p).outstanding (!is_buy)
          = p.outstanding (!is_buy) ∧
        (fp.Position.HandleNew rnd pv is_buy q price multiplier p).journaled = p.journaled ∧
        (fp.Position.HandleNew rnd pv is_buy q price multiplier p).total_bought_qty
          = p.total_bought_qty ∧
        (fp.Position.HandleNew rnd pv is_buy q price multiplier p).total_sold_qty
          = p.total_sold_qty) ∧
      ((fp.Position.HandleFinish rnd pv is_buy leaves_qty price0 multiplier0 p).outstanding
            is_buy
          = rnd (p.outstanding is_buy - leaves_qty) ∧
        (fp.Position.HandleFinish rnd pv is_buy leaves_qty price0 multiplier0 p).outstanding
            (!is_buy)
          = p.outstanding (!is_buy) ∧
        (fp.Position.HandleFinish rnd pv is_buy leaves_qty price0 multiplier0 p).journaled
          = p.journaled ∧
        (fp.Position.HandleFinish rnd pv is_buy leaves_qty price0 multiplier0
          p).total_bought_qty = p.total_bought_qty ∧
        (fp.Position.HandleFinish rnd pv is_buy leaves_qty price0 multiplier0
          p).total_sold_qty = p.total_sold_qty)) := by
  refine ⟨?_, ?_, ?_, ?_⟩
  · unfold Position.HandleNew Position.outstanding Position.journaled
    cases is_buy <;> simp
  · unfold Position.HandleFinish Position.outstanding Position.journaled
    cases is_buy <;> simp
  · unfold Position.HandleNew Position.HandleFinish Position.sameFields
    cases is_buy <;> simp
  · intro rnd
    unfold fp.Position.HandleNew fp.Position.HandleFinish Position.outstanding
      Position.journaled
    cases is_buy <;> simp

end ReservationClaims

/-! ## Accounting identity facts -/

section AccountingLemmas
variable {V : Type}

/-- The accounting identity of one `HandlePnl` step: what is added to
`realized_pnl` is the multiplier times the change of `qty * avg_px` net of
the traded amount. -/
theorem HandlePnl_identity (d price m : ℚ) (p : Position V) :
    (HandlePnl d price m p).realized_pnl
      = p.realized_pnl
        + m * ((p.qty + d) * (HandlePnl d price m p).avg_px - p.qty * p.avg_px - d * price) := by
  by_cases hz : p.qty + d = 0
  · have hd : d = -p.qty := by linarith
    rw [HandlePnl_avg_px_of_sum_zero d price m p hz, hz]
    rcases lt_trichotomy p.qty 0 with h | h | h
    · rw [(HandlePnl_flip d price m p (Or.inr ⟨h, by linarith, by linarith⟩)).2, hd]
      ring
    · have hd0 : d = 0 := by linarith
      unfold HandlePnl
      dsimp only
      have h1 : ¬ (p.qty > 0 ∧ d < 0) := by rintro ⟨a, _⟩; linarith
      have h2 : ¬ (p.qty < 0 ∧ d > 0) := by rintro ⟨a, _⟩; linarith
      rw [if_neg h1, if_neg h2, if_pos hz, h, hd0]
      show p.realized_pnl = _
      ring
    · rw [(HandlePnl_flip d price m p (Or.inl ⟨h, by linarith, by linarith⟩)).2, hd]
      ring
  · by_cases ho : (0 < p.qty ∧ d < 0) ∨ (p.qty < 0 ∧ 0 < d)
    · rcases ho with ⟨a, b⟩ | ⟨a, b⟩
      · rcases lt_or_le (-d) p.qty with c | c
        · have h := HandlePnl_partial d price m p (Or.inl ⟨a, b, c⟩)
          rw [h.1, h.2]
          ring
        · have h := HandlePnl_flip d price m p (Or.inl ⟨a, b, c⟩)
          rw [h.1, h.2, if_neg hz]
          ring
      · rcases lt_or_le d (-p.qty) with c | c
        · have h := HandlePnl_partial d price m p (Or.inr ⟨a, b, c⟩)
          rw [h.1, h.2]
          ring
        · have h := HandlePnl_flip d price m p (Or.inr ⟨a, b, c⟩)
          rw [h.1, h.2, if_neg hz]
          ring
    · have h1 : ¬ (p.qty > 0 ∧ d < 0) := fun h => ho (Or.inl h)
      have h2 : ¬ (p.qty < 0 ∧ d > 0) := fun h => ho (Or.inr h)
      unfold HandlePnl
      dsimp only
      rw [if_neg h1, if_neg h2, if_neg hz]
      show p.realized_pnl = p.realized_pnl
        + m * ((p.qty + d) * ((p.qty * p.avg_px + d * price) / (p.qty + d))
          - p.qty * p.avg_px - d * price)
      rw [mul_div_cancel₀ _ hz]
      ring

/-- The accounting identity carried through a sequence of trades. -/
theorem runCalls_trades_identity (pv : PositionValueOps V) (m : ℚ) (ts : List Trade)
    (p : Position V) :
    (runCalls pv (ts.map (Trade.call m)) p).qty = p.qty + (ts.map Trade.delta).sum ∧
      (runCalls pv (ts.map (Trade.call m)) p).realized_pnl
        = p.realized_pnl
          + m * ((runCalls pv (ts.map (Trade.call m)) p).qty
              * (runCalls pv (ts.map (Trade.call m)) p).avg_px
            - p.qty * p.avg_px - sumDeltaPrice ts) := by
  induction ts generalizing p with
  | nil =>
    constructor
    · simp [runCalls]
    · simp [runCalls, sumDeltaPrice]
  | cons t ts ih =>
    have e : runCalls pv ((t :: ts).map (Trade.call m)) p
        = runCalls pv (ts.map (Trade.call m))
            (Position.HandleTrade pv t.is_buy t.qty t.price t.price0 m t.is_bust t.is_otc
              t.is_cx p) := rfl
    have h := ih (Position.HandleTrade pv t.is_buy t.qty t.price t.price0 m t.is_bust t.is_otc
      t.is_cx p)
    have hid := HandlePnl_identity (signedDelta t.is_buy t.is_bust t.qty) t.price m p
    rw [← HandleTrade_realized_pnl pv t.is_buy t.qty t.price t.price0 m t.is_bust t.is_otc
        t.is_cx p,
      ← HandleTrade_avg_px pv t.is_buy t.qty t.price t.price0 m t.is_bust t.is_otc
        t.is_cx p,
      ← HandleTrade_qty pv t.is_buy t.qty t.price t.price0 m t.is_bust t.is_otc
        t.is_cx p] at hid
    have hq := HandleTrade_qty pv t.is_buy t.qty t.price t.price0 m t.is_bust t.is_otc t.is_cx p
    have es : sumDeltaPrice (t :: ts) = t.delta * t.price + sumDeltaPrice ts := rfl
    rw [e, es]
    constructor
    · rw [h.1, hq, List.map_cons, List.sum_cons]
      unfold Trade.delta
      ring
    · rw [h.2, hid]
      unfold Trade.delta
      ring

/-- The sum against a mark price, written with the two plain sums. -/
theorem sumDeltaMark_eq (P : ℚ) (ts : List Trade) :
    sumDeltaMark P ts = P * (ts.map Trade.delta).sum - sumDeltaPrice ts := by
  induction ts with
  | nil => simp [sumDeltaMark, sumDeltaPrice]
  | cons t ts ih =>
    have e1 : sumDeltaMark P (t :: ts) = t.delta * (P - t.price) + sumDeltaMark P ts := rfl
    have e2 : sumDeltaPrice (t :: ts) = t.delta * t.price + sumDeltaPrice ts := rfl
    rw [e1, e2, ih, List.map_cons, List.sum_cons]
    ring

end AccountingLemmas

/-! ## The accounting identity -/

section AccountingClaims
variable {V : Type}

/-- C18: accounting identity.  After any finite sequence of HandleTrade calls
with a fixed multiplier `m` on the all-zero entry, with signed deltas `d_i`
at prices `p_i`, `realized_pnl = m * (qty * avg_px - sum d_i * p_i)`, and for
every mark price `P`,
`realized_pnl + qty * (P - avg_px) * m = m * sum d_i * (P - p_i)`. -/
theorem C18_accounting_identity (pv : PositionValueOps V) (m : ℚ) (ts : List Trade)
    (hq : ∀ t ∈ ts, 0 < t.qty) :
    (runCalls pv (ts.map (Trade.call m)) (Position.init pv)).realized_pnl
        = m * ((runCalls pv (ts.map (Trade.call m)) (Position.init pv)).qty
              * (runCalls pv (ts.map (Trade.call m)) (Position.init pv)).avg_px
            - sumDeltaPrice ts) ∧
      ∀ P : ℚ,
        (runCalls pv (ts.map (Trade.call m)) (Position.init pv)).realized_pnl
          + (runCalls pv (ts.map (Trade.call m)) (Position.init pv)).qty
            * (P - (runCalls pv (ts.map (Trade.call m)) (Position.init pv)).avg_px) * m
          = m * sumDeltaMark P ts := by
  have _ := hq
  have h := runCalls_trades_identity pv m ts (Position.init pv)
  have h0 : (Position.init pv).qty = 0 := rfl
  have h1 : (Position.init pv).avg_px = 0 := rfl
  have h2 : (Position.init pv).realized_pnl = 0 := rfl
  rw [h0, h1, h2] at h
  have hmark := fun P : ℚ => sumDeltaMark_eq P ts
  constructor
  · rw [h.2]
    ring
  · intro P
    have hs : (ts.map Trade.delta).sum
        = (runCalls pv (ts.map (Trade.call m)) (Position.init pv)).qty := by
      rw [h.1, zero_add]
    rw [hmark P, hs, h.2]
    ring

/-- Witness of C18: buy 100 at 10, sell 60 at 12, sell 40 at 8 with
multiplier 1 realizes `-(1000 - 720 - 320) = 40`. -/
theorem C18_accounting_identity_witness :
    (runCalls unitOps
        ([⟨true, 100, 10, 10, false, false, false⟩, ⟨false, 60, 12, 12, false, false, false⟩,
          ⟨false, 40, 8, 8, false, false, false⟩].map (Trade.call 1))
        (Position.init unitOps)).realized_pnl
      = 1 * ((runCalls unitOps
                ([⟨true, 100, 10, 10, false, false, false⟩,
                  ⟨false, 60, 12, 12, false, false, false⟩,
                  ⟨false, 40, 8, 8, false, false, false⟩].map (Trade.call 1))
                (Position.init unitOps)).qty
              * (runCalls unitOps
                ([⟨true, 100, 10, 10, false, false, false⟩,
                  ⟨false, 60, 12, 12, false, false, false⟩,
                  ⟨false, 40, 8, 8, false, false, false⟩].map (Trade.call 1))
                (Position.init unitOps)).avg_px
            - sumDeltaPrice [⟨true, 100, 10, 10, false, false, false⟩,
                ⟨false, 60, 12, 12, false, false, false⟩,
                ⟨false, 40, 8, 8, false, false, false⟩]) :=
  (C18_accounting_identity unitOps 1
    [⟨true, 100, 10, 10, false, false, false⟩, ⟨false, 60, 12, 12, false, false, false⟩,
      ⟨false, 40, 8, 8, false, false, false⟩] (by simp)).1

end AccountingClaims

/-! ## Fill-splitting facts -/

section SplitLemmas
variable {V : Type}

/-- Splitting a signed delta in two parts of its sign does not change the
average price that `HandlePnl` leaves; `p1` is the entry between the parts. -/
theorem HandlePnl_split_avg_px (d1 d2 price m : ℚ) (p p1 : Position V)
    (hs : (0 < d1 ∧ 0 < d2) ∨ (d1 < 0 ∧ d2 < 0))
    (hq : p1.qty = p.qty + d1)
    (ha : p1.avg_px = (HandlePnl d1 price m p).avg_px) :
    (HandlePnl d2 price m p1).avg_px = (HandlePnl (d1 + d2) price m p).avg_px := by
  have hd1 : d1 ≠ 0 := by rcases hs with ⟨a, _⟩ | ⟨a, _⟩ <;> intro h <;> linarith
  have hd2 : d2 ≠ 0 := by rcases hs with ⟨_, a⟩ | ⟨_, a⟩ <;> intro h <;> linarith
  have hd : d1 + d2 ≠ 0 := by rcases hs with ⟨a, b⟩ | ⟨a, b⟩ <;> intro h <;> linarith
  -- opening with both parts
  have hopen : (p.qty = 0 ∨ (0 < p.qty ∧ 0 < d1) ∨ (p.qty < 0 ∧ d1 < 0)) →
      (HandlePnl d2 price m p1).avg_px = (HandlePnl (d1 + d2) price m p).avg_px := by
    intro ho
    have h1 := HandlePnl_open d1 price m p hd1 ho
    rw [h1.1] at ha
    have hne1 : p.qty + d1 ≠ 0 := by
      rcases ho with h | ⟨a, b⟩ | ⟨a, b⟩
      · rw [h, zero_add]; exact hd1
      · intro h; linarith
      · intro h; linarith
    have ho2 : p1.qty = 0 ∨ (0 < p1.qty ∧ 0 < d2) ∨ (p1.qty < 0 ∧ d2 < 0) := by
      rw [hq]
      rcases hs with ⟨a, b⟩ | ⟨a, b⟩
      · right; left
        rcases ho with h | ⟨c, _⟩ | ⟨_, c⟩
        · exact ⟨by rw [h]; linarith, b⟩
        · exact ⟨by linarith, b⟩
        · linarith
      · right; right
        rcases ho with h | ⟨_, c⟩ | ⟨c, _⟩
        · exact ⟨by rw [h]; linarith, b⟩
        · linarith
        · exact ⟨by linarith, b⟩
    have ho3 : p.qty = 0 ∨ (0 < p.qty ∧ 0 < d1 + d2) ∨ (p.qty < 0 ∧ d1 + d2 < 0) := by
      rcases ho with h | ⟨a, b⟩ | ⟨a, b⟩
      · exact Or.inl h
      · right; left
        rcases hs with ⟨_, c⟩ | ⟨c, _⟩
        · exact ⟨a, by linarith⟩
        · linarith
      · right; right
        rcases hs with ⟨c, _⟩ | ⟨_, c⟩
        · linarith
        · exact ⟨a, by linarith⟩
    have hne3 : p.qty + (d1 + d2) ≠ 0 := by
      rcases ho3 with h | ⟨a, b⟩ | ⟨a, b⟩
      · rw [h, zero_add]; exact hd
      · intro h; linarith
      · intro h; linarith
    have hne2 : p.qty + d1 + d2 ≠ 0 := by rw [add_assoc]; exact hne3
    rw [(HandlePnl_open d2 price m p1 hd2 ho2).1, (HandlePnl_open (d1 + d2) price m p hd ho3).1,
      hq, ha]
    field_simp
    ring
  -- closing: the position and the delta have opposite signs
  have hclose : ((0 < p.qty ∧ d1 < 0 ∧ d2 < 0) ∨ (p.qty < 0 ∧ 0 < d1 ∧ 0 < d2)) →
      (HandlePnl d2 price m p1).avg_px = (HandlePnl (d1 + d2) price m p).avg_px := by
    intro hc
    by_cases hall : |d1 + d2| < |p.qty|
    · -- both parts and the whole close part of the position
      have hw : (0 < p.qty ∧ d1 + d2 < 0 ∧ -(d1 + d2) < p.qty) ∨
          (p.qty < 0 ∧ 0 < d1 + d2 ∧ d1 + d2 < -p.qty) := by
        rcases hc with ⟨a, b, c⟩ | ⟨a, b, c⟩
        · left
          rw [abs_of_neg (by linarith), abs_of_pos a] at hall
          exact ⟨a, by linarith, hall⟩
        · right
          rw [abs_of_pos (by linarith), abs_of_neg a] at hall
          exact ⟨a, by linarith, hall⟩
      have h1 := HandlePnl_partial d1 price m p (by
        rcases hw with ⟨a, b, c⟩ | ⟨a, b, c⟩
        · left
          rcases hc with ⟨_, x, y⟩ | ⟨z, _, _⟩
          · exact ⟨a, x, by linarith⟩
          · linarith
        · right
          rcases hc with ⟨z, _, _⟩ | ⟨_, x, y⟩
          · linarith
          · exact ⟨a, x, by linarith⟩)
      rw [h1.1] at ha
      have h2 := HandlePnl_partial d2 price m p1 (by
        rw [hq]
        rcases hw with ⟨a, b, c⟩ | ⟨a, b, c⟩
        · left
          rcases hc with ⟨_, x, y⟩ | ⟨z, _, _⟩
          · exact ⟨by linarith, y, by linarith⟩
          · linarith
        · right
          rcases hc with ⟨z, _, _⟩ | ⟨_, x, y⟩
          · linarith
          · exact ⟨by linarith, y, by linarith⟩)
      have hw1 := ( HandlePnl_partial (d1 + d2) price m p hw).1
      rw [h2.1, hw1, ha]
    · -- the whole closes or flips the position
      have hw : (0 < p.qty ∧ d1 + d2 < 0 ∧ p.qty ≤ -(d1 + d2)) ∨
          (p.qty < 0 ∧ 0 < d1 + d2 ∧ -p.qty ≤ d1 + d2) := by
        rcases hc with ⟨a, b, c⟩ | ⟨a, b, c⟩
        · left
          rw [abs_of_neg (by linarith), abs_of_pos a] at hall
          exact ⟨a, by linarith, not_lt.mp hall⟩
        · right
          rw [abs_of_pos (by linarith), abs_of_neg a] at hall
          exact ⟨a, by linarith, not_lt.mp hall⟩
      rw [(HandlePnl_flip (d1 + d2) price m p hw).1]
      by_cases hfirst : |d1| < |p.qty|
      · -- the first part closes part of it, the second closes or flips the rest
        have h1 := HandlePnl_partial d1 price m p (by
          rcases hc with ⟨a, b, c⟩ | ⟨a, b, c⟩
          · left
            rw [abs_of_neg b, abs_of_pos a] at hfirst
            exact ⟨a, b, hfirst⟩
          · right
            rw [abs_of_pos b, abs_of_neg a] at hfirst
            exact ⟨a, b, hfirst⟩)
        have h2 := HandlePnl_flip d2 price m p1 (by
          rw [hq]
          rcases hc with ⟨a, b, c⟩ | ⟨a, b, c⟩
          · left
            rw [abs_of_neg b, abs_of_pos a] at hfirst
            rcases hw with ⟨_, _, w⟩ | ⟨z, _, _⟩
            · exact ⟨by linarith, c, by linarith⟩
            · linarith
          · right
            rw [abs_of_pos b, abs_of_neg a] at hfirst
            rcases hw with ⟨z, _, _⟩ | ⟨_, _, w⟩
            · linarith
            · exact ⟨by linarith, c, by linarith⟩)
        rw [h2.1, hq, add_assoc]
      · -- the first part closes or flips it, the second opens
        have h1 := HandlePnl_flip d1 price m p (by
          rcases hc with ⟨a, b, c⟩ | ⟨a, b, c⟩
          · left
            rw [abs_of_neg b, abs_of_pos a] at hfirst
            exact ⟨a, b, not_lt.mp hfirst⟩
          · right
            rw [abs_of_pos b, abs_of_neg a] at hfirst
            exact ⟨a, b, not_lt.mp hfirst⟩)
        rw [h1.1] at ha
        have hq1 : (p1.qty = 0) ∨ (0 < p1.qty ∧ 0 < d2) ∨ (p1.qty < 0 ∧ d2 < 0) := by
          rw [hq]
          rcases hc with ⟨a, b, c⟩ | ⟨a, b, c⟩
          · rw [abs_of_neg b, abs_of_pos a] at hfirst
            rcases eq_or_lt_of_le (not_lt.mp hfirst) with e | e
            · left; linarith
            · right; right; exact ⟨by linarith, c⟩
          · rw [abs_of_pos b, abs_of_neg a] at hfirst
            rcases eq_or_lt_of_le (not_lt.mp hfirst) with e | e
            · left; linarith
            · right; left; exact ⟨by linarith, c⟩
        have hne : ¬ (p.qty + (d1 + d2) = 0) := by
          rcases hc with ⟨a, b, c⟩ | ⟨a, b, c⟩
          · rw [abs_of_neg b, abs_of_pos a] at hfirst
            intro h; linarith [not_lt.mp hfirst]
          · rw [abs_of_pos b, abs_of_neg a] at hfirst
            intro h; linarith [not_lt.mp hfirst]
        rw [(HandlePnl_open d2 price m p1 hd2 hq1).1, if_neg hne, hq, ha]
        have hne' : p.qty + d1 + d2 ≠ 0 := by rw [add_assoc]; exact hne
        by_cases hz : p.qty + d1 = 0
        · rw [if_pos hz, hz]
          field_simp
        · rw [if_neg hz]
          field_simp
          ring
  rcases lt_trichotomy p.qty 0 with hneg | hzero | hpos
  · rcases hs with ⟨a, b⟩ | ⟨a, b⟩
    · exact hclose (Or.inr ⟨hneg, a, b⟩)
    · exact hopen (Or.inr (Or.inr ⟨hneg, a⟩))
  · exact hopen (Or.inl hzero)
  · rcases hs with ⟨a, b⟩ | ⟨a, b⟩
    · exact hopen (Or.inr (Or.inl ⟨hpos, a⟩))
    · exact hclose (Or.inl ⟨hpos, a, b⟩)

/-- What `HandleTrade` adds to the bookkeeping quantities: amounts that depend
on the arguments only, not on the entry. -/
theorem HandleTrade_counters (pv : PositionValueOps V) (is_buy : Bool)
    (q price price0 m : ℚ) (is_bust is_otc is_cx : Bool) (p : Position V) :
    (Position.HandleTrade pv is_buy q price price0 m is_bust is_otc is_cx
        p).total_outstanding_buy_qty
        = p.total_outstanding_buy_qty
          + (if is_otc || is_bust then 0
             else if (if !is_buy then -q else q) > 0 then -(if !is_buy then -q else q) else 0) ∧
      (Position.HandleTrade pv is_buy q price price0 m is_bust is_otc is_cx
        p).total_outstanding_sell_qty
        = p.total_outstanding_sell_qty
          + (if is_otc || is_bust then 0
             else if (if !is_buy then -q else q) > 0 then 0 else (if !is_buy then -q else q)) ∧
      (Position.HandleTrade pv is_buy q price price0 m is_bust is_otc is_cx
        p).total_bought_qty
        = p.total_bought_qty
          + (if is_otc then 0
             else if (if !is_buy then -q else q) > 0 then
               (if is_bust then -(if !is_buy then -q else q) else (if !is_buy then -q else q))
             else 0) ∧
      (Position.HandleTrade pv is_buy q price price0 m is_bust is_otc is_cx
        p).total_sold_qty
        = p.total_sold_qty
          + (if is_otc then 0
             else if (if !is_buy then -q else q) > 0 then 0
             else (if is_bust then (if !is_buy then -q else q)
               else -(if !is_buy then -q else q))) ∧
      (Position.HandleTrade pv is_buy q price price0 m is_bust is_otc is_cx
        p).unrealized_pnl = p.unrealized_pnl := by
  unfold Position.HandleTrade
  dsimp only
  by_cases h : (if (!is_buy) = true then -q else q) > 0 <;>
    cases is_cx <;> cases is_otc <;> cases is_bust <;>
    simp only [Bool.false_eq_true, if_false, if_true, Bool.not_true, Bool.not_false,
      (HandlePnl_frame _ _ _ _).2.2.1, (HandlePnl_frame _ _ _ _).2.2.2.1,
      (HandlePnl_frame _ _ _ _).2.2.2.2.1, (HandlePnl_frame _ _ _ _).2.2.2.2.2.1,
      (HandlePnl_frame _ _ _ _).2.2.2.2.2.2, h, Bool.or_true, Bool.or_false,
      Bool.true_or, add_zero, sub_eq_add_neg, neg_neg, and_self]

theorem signedDelta_add (is_buy is_bust : Bool) (q1 q2 : ℚ) :
    signedDelta is_buy is_bust (q1 + q2) = signedDelta is_buy is_bust q1
      + signedDelta is_buy is_bust q2 := by
  unfold signedDelta
  cases is_buy <;> cases is_bust <;> simp <;> ring

theorem signedDelta_sign (is_buy is_bust : Bool) (q1 q2 : ℚ) (h1 : 0 < q1) (h2 : 0 < q2) :
    (0 < signedDelta is_buy is_bust q1 ∧ 0 < signedDelta is_buy is_bust q2) ∨
      (signedDelta is_buy is_bust q1 < 0 ∧ signedDelta is_buy is_bust q2 < 0) := by
  unfold signedDelta
  cases is_buy <;> cases is_bust <;> simp [h1, h2]

end SplitLemmas

/-! ## Fill-splitting invariance -/

section SplitClaims
variable {V : Type}

/-- C19: fill-splitting invariance.  A single HandleTrade of quantity
`q1 + q2` leaves the same `qty`, `avg_px`, `realized_pnl`, `cx_qty`,
outstanding and cumulative bought/sold quantities (and `unrealized_pnl`) as
HandleTrade of `q1` followed by HandleTrade of `q2` with the same side, price,
multiplier and flags, also when the trade takes the position through zero. -/
theorem C19_fill_splitting_invariance (pv : PositionValueOps V) (p : Position V)
    (is_buy : Bool) (q1 q2 price price0 multiplier : ℚ) (is_bust is_otc is_cx : Bool)
    (h1 : 0 < q1) (h2 : 0 < q2) :
    Position.sameFields
      (Position.HandleTrade pv is_buy (q1 + q2) price price0 multiplier is_bust is_otc is_cx p)
      (Position.HandleTrade pv is_buy q2 price price0 multiplier is_bust is_otc is_cx
        (Position.HandleTrade pv is_buy q1 price price0 multiplier is_bust is_otc is_cx p)) := by
  have havg : (Position.HandleTrade pv is_buy q2 price price0 multiplier is_bust is_otc is_cx
      (Position.HandleTrade pv is_buy q1 price price0 multiplier is_bust is_otc is_cx p)).avg_px
      = (Position.HandleTrade pv is_buy (q1 + q2) price price0 multiplier is_bust is_otc is_cx
          p).avg_px := by
    rw [HandleTrade_avg_px, HandleTrade_avg_px pv is_buy (q1 + q2), signedDelta_add]
    exact HandlePnl_split_avg_px _ _ price multiplier p _
      (signedDelta_sign is_buy is_bust q1 q2 h1 h2)
      (HandleTrade_qty pv is_buy q1 price price0 multiplier is_bust is_otc is_cx p)
      (HandleTrade_avg_px pv is_buy q1 price price0 multiplier is_bust is_otc is_cx p)
  have hc1 := HandleTrade_counters pv is_buy q1 price price0 multiplier is_bust is_otc is_cx p
  have hc2 := HandleTrade_counters pv is_buy q2 price price0 multiplier is_bust is_otc is_cx
    (Position.HandleTrade pv is_buy q1 price price0 multiplier is_bust is_otc is_cx p)
  have hc := HandleTrade_counters pv is_buy (q1 + q2) price price0 multiplier is_bust is_otc
    is_cx p
  have h12 : 0 < q1 + q2 := by linarith
  have n1 : ¬ (-q1 > 0) := by intro h; linarith
  have n2 : ¬ (-q2 > 0) := by intro h; linarith
  have n12 : ¬ (-(q1 + q2) > 0) := by intro h; linarith
  have n12' : ¬ (q1 < -q2) := by intro h; linarith
  have g1 : q1 > 0 := h1
  have g2 : q2 > 0 := h2
  have g12 : q1 + q2 > 0 := h12
  unfold Position.sameFields
  refine ⟨?_, ?_, havg, ?_, ?_, ?_, ?_, ?_, ?_⟩
  · rw [HandleTrade_qty, HandleTrade_qty, HandleTrade_qty, signedDelta_add]
    ring
  · rw [HandleTrade_cx_qty, HandleTrade_cx_qty, HandleTrade_cx_qty, signedDelta_add]
    cases is_cx <;> simp
    ring
  · rw [hc2.2.2.2.2, hc1.2.2.2.2, hc.2.2.2.2]
  · have i2 := HandlePnl_identity (signedDelta is_buy is_bust q2) price multiplier
      (Position.HandleTrade pv is_buy q1 price price0 multiplier is_bust is_otc is_cx p)
    have i1 := HandlePnl_identity (signedDelta is_buy is_bust q1) price multiplier p
    have i0 := HandlePnl_identity (signedDelta is_buy is_bust (q1 + q2)) price multiplier p
    rw [← HandleTrade_realized_pnl pv is_buy q2 price price0 multiplier is_bust is_otc is_cx,
      ← HandleTrade_avg_px pv is_buy q2 price price0 multiplier is_bust is_otc is_cx,
      HandleTrade_qty, havg] at i2
    rw [← HandleTrade_realized_pnl pv is_buy q1 price price0 multiplier is_bust is_otc is_cx,
      ← HandleTrade_avg_px pv is_buy q1 price price0 multiplier is_bust is_otc is_cx] at i1
    rw [← HandleTrade_realized_pnl pv is_buy (q1 + q2) price price0 multiplier is_bust is_otc
        is_cx,
      ← HandleTrade_avg_px pv is_buy (q1 + q2) price price0 multiplier is_bust is_otc is_cx,
      signedDelta_add] at i0
    rw [i2, i1, i0]
    ring
  · rw [hc2.2.2.1, hc1.2.2.1, hc.2.2.1]
    cases is_buy <;> cases is_otc <;> cases is_bust <;>
      simp [n1, n2, n12, n12', g1, g2, g12] <;> ring
  · rw [hc2.2.2.2.1, hc1.2.2.2.1, hc.2.2.2.1]
    cases is_buy <;> cases is_otc <;> cases is_bust <;>
      simp [n1, n2, n12, n12', g1, g2, g12] <;> ring
  · rw [hc2.1, hc1.1, hc.1]
    cases is_buy <;> cases is_otc <;> cases is_bust <;>
      simp [n1, n2, n12, n12', g1, g2, g12]
    ring
  · rw [hc2.2.1, hc1.2.1, hc.2.1]
    cases is_buy <;> cases is_otc <;> cases is_bust <;>
      simp [n1, n2, n12, n12', g1, g2, g12]
    ring

/-- Witness of C19: long 40 at 10, a sell of 100 at 8 against sells of 30 and
70 at 8, which take the position through zero. -/
theorem C19_fill_splitting_invariance_witness :
    Position.sameFields
      (Position.HandleTrade unitOps false (30 + 70) 8 8 1 false false false
        { Position.init unitOps with qty := 40, avg_px := 10 })
      (Position.HandleTrade unitOps false 70 8 8 1 false false false
        (Position.HandleTrade unitOps false 30 8 8 1 false false false
          { Position.init unitOps with qty := 40, avg_px := 10 })) :=
  C19_fill_splitting_invariance unitOps { Position.init unitOps with qty := 40, avg_px := 10 }
    false 30 70 8 8 1 false false false (by norm_num) (by norm_num)

end SplitClaims

/-! ## Dispatch facts -/

section DispatchLemmas
variable {V : Type}

/-- Reading any key of the user ledger after `Handle`. -/
theorem Handle_read_user_any (pv : PositionValueOps V) (cm : Confirmation) (offline : Bool)
    (now : Nat) (s : PositionManager V) (k : Key) :
    Ledger.read pv (PositionManager.Handle pv cm offline now s).user_positions_ k
      = match cm.effect with
        | none => Ledger.read pv s.user_positions_ k
        | some c =>
          if k = cm.order.userKey then c.apply pv (Ledger.read pv s.user_positions_ k)
          else Ledger.read pv s.user_positions_ k := by
  rw [Handle_user_positions]
  cases cm.effect with
  | none => rfl
  | some c =>
    simp only
    rw [Ledger.read_modify]
    by_cases h : k = cm.order.userKey
    · rw [if_pos h, if_pos h, h]
    · rw [if_neg h, if_neg h]

/-- The call that `Handle` makes for a PartiallyFilled or Filled confirmation. -/
theorem effect_of_fill (cm : Confirmation)
    (hex : cm.exec_type = ExecType.kPartiallyFilled ∨ cm.exec_type = ExecType.kFilled) :
    cm.effect
      = match cm.exec_trans_type with
        | .kTransNew =>
          some (Call.trade cm.order.is_buy cm.last_shares cm.last_px cm.order.price
            cm.multiplier false cm.is_otc cm.is_cx)
        | .kTransCancel =>
          some (Call.trade cm.order.is_buy cm.last_shares cm.last_px cm.order.price
            cm.multiplier true cm.is_otc cm.is_cx)
        | .kTransOther => none := by
  unfold Confirmation.effect
  rcases hex with h | h <;> simp only [h]

end DispatchLemmas

/-! ## Fill dispatch and offline replay -/

section DispatchClaims
variable {V : Type}

/-- C12: fill dispatch.  For a PartiallyFilled or Filled confirmation with
transaction type New (`isBust = false`) or Cancel (`isBust = true`), `Handle`
applies `HandleTrade(side, last_shares, last_px, price0, rate * multiplier,
isBust, isOtc, isCx)` to the entries (sub-account id, security id),
(broker-account id, security id), (user id, security id) of the three
ledgers and leaves every other entry as it was; for any other transaction
type the three ledgers and the journal are unchanged. -/
theorem C12_fill_dispatch (pv : PositionValueOps V) (s : PositionManager V)
    (cm : Confirmation) (offline : Bool) (now : Nat)
    (hex : cm.exec_type = ExecType.kPartiallyFilled ∨ cm.exec_type = ExecType.kFilled) :
    (∀ is_bust : Bool,
        (cm.exec_trans_type = ExecTransType.kTransNew ∧ is_bust = false) ∨
          (cm.exec_trans_type = ExecTransType.kTransCancel ∧ is_bust = true) →
        ∀ k : Key,
          Ledger.read pv (PositionManager.Handle pv cm offline now s).sub_positions_ k
            = (if k = (cm.order.sub_account, cm.order.sec.id) then
                Position.HandleTrade pv cm.order.is_buy cm.last_shares cm.last_px
                  cm.order.price (cm.order.sec.rate * cm.order.sec.multiplier) is_bust
                  cm.is_otc cm.is_cx (Ledger.read pv s.sub_positions_ k)
              else Ledger.read pv s.sub_positions_ k) ∧
          Ledger.read pv (PositionManager.Handle pv cm offline now s).broker_positions_ k
            = (if k = (cm.order.broker_account, cm.order.sec.id) then
                Position.HandleTrade pv cm.order.is_buy cm.last_shares cm.last_px
                  cm.order.price (cm.order.sec.rate * cm.order.sec.multiplier) is_bust
                  cm.is_otc cm.is_cx (Ledger.read pv s.broker_positions_ k)
              else Ledger.read pv s.broker_positions_ k) ∧
          Ledger.read pv (PositionManager.Handle pv cm offline now s).user_positions_ k
            = (if k = (cm.order.user, cm.order.sec.id) then
                Position.HandleTrade pv cm.order.is_buy cm.last_shares cm.last_px
                  cm.order.price (cm.order.sec.rate * cm.order.sec.multiplier) is_bust
                  cm.is_otc cm.is_cx (Ledger.read pv s.user_positions_ k)
              else Ledger.read pv s.user_positions_ k)) ∧
      (cm.exec_trans_type = ExecTransType.kTransOther →
        (PositionManager.Handle pv cm offline now s).sub_positions_ = s.sub_positions_ ∧
        (PositionManager.Handle pv cm offline now s).broker_positions_ = s.broker_positions_ ∧
        (PositionManager.Handle pv cm offline now s).user_positions_ = s.user_positions_ ∧
        (PositionManager.Handle pv cm offline now s).journal = s.journal) := by
  have he := effect_of_fill cm hex
  refine ⟨?_, ?_⟩
  · intro is_bust hb k
    have hc : cm.effect = some (Call.trade cm.order.is_buy cm.last_shares cm.last_px
        cm.order.price cm.multiplier is_bust cm.is_otc cm.is_cx) := by
      rcases hb with ⟨h1, h2⟩ | ⟨h1, h2⟩ <;> rw [he, h1, h2]
    rw [Handle_read_sub_any, Handle_read_broker_any, Handle_read_user_any, hc]
    exact ⟨rfl, rfl, rfl⟩
  · intro ht
    rw [ht] at he
    have hf : cm.isFill = false := by
      unfold Confirmation.isFill
      rw [ht]
      simp
    rw [Handle_sub_positions, Handle_broker_positions, Handle_user_positions, Handle_journal,
      he, hf]
    exact ⟨rfl, rfl, rfl, rfl⟩

/-- Witness of C12: a Filled/New confirmation of `sampleOrder` for 100 at 10 on
the empty manager. -/
theorem C12_fill_dispatch_witness :
    Ledger.read unitOps
        (PositionManager.Handle unitOps
          (filledConfirmation sampleOrder ExecTransType.kTransNew 100 10 0) false 1
          (PositionManager.empty unitOps [])).user_positions_ (1, 7)
      = Position.HandleTrade unitOps true 100 10 10 (1 * 1) false false false
          (Ledger.read unitOps (PositionManager.empty unitOps []).user_positions_ (1, 7)) :=
  (((C12_fill_dispatch unitOps (PositionManager.empty unitOps [])
    (filledConfirmation sampleOrder ExecTransType.kTransNew 100 10 0) false 1
    (Or.inr rfl)).1 false (Or.inl ⟨rfl, rfl⟩) (1, 7)).2.2).trans (if_pos rfl)

/-- C13: offline replay.  The three ledgers after `Handle(cm, offline = true)`
are those after `Handle(cm, offline = false)`; with `offline = true` the
journal is unchanged, and with `offline = false` exactly one row is appended
when `cm` is a PartiallyFilled/Filled confirmation with transaction type New
or Cancel (none otherwise), which holds the owners of the order and the
resulting `qty`, `cx_qty`, `avg_px`, `realized_pnl` of the sub-account entry. -/
theorem C13_offline_replay (pv : PositionValueOps V) (s : PositionManager V)
    (cm : Confirmation) (now : Nat) :
    (PositionManager.Handle pv cm true now s).sub_positions_
        = (PositionManager.Handle pv cm false now s).sub_positions_ ∧
      (PositionManager.Handle pv cm true now s).broker_positions_
        = (PositionManager.Handle pv cm false now s).broker_positions_ ∧
      (PositionManager.Handle pv cm true now s).user_positions_
        = (PositionManager.Handle pv cm false now s).user_positions_ ∧
      (PositionManager.Handle pv cm true now s).journal = s.journal ∧
      (PositionManager.Handle pv cm false now s).journal
        = (if cm.isFill then
            s.journal ++
              [{ user_id := cm.order.user
                 sub_account_id := cm.order.sub_account
                 security_id := cm.order.sec.id
                 broker_account_id := cm.order.broker_account
                 qty := (Ledger.read pv (PositionManager.Handle pv cm false now s).sub_positions_
                   (cm.order.sub_account, cm.order.sec.id)).qty
                 cx_qty := (Ledger.read pv
                   (PositionManager.Handle pv cm false now s).sub_positions_
                   (cm.order.sub_account, cm.order.sec.id)).cx_qty
                 avg_px := (Ledger.read pv
                   (PositionManager.Handle pv cm false now s).sub_positions_
                   (cm.order.sub_account, cm.order.sec.id)).avg_px
                 realized_pnl := (Ledger.read pv
                   (PositionManager.Handle pv cm false now s).sub_positions_
                   (cm.order.sub_account, cm.order.sec.id)).realized_pnl
                 tm := now }]
          else s.journal) := by
  refine ⟨?_, ?_, ?_, ?_, ?_⟩
  · rw [Handle_sub_positions, Handle_sub_positions]
  · rw [Handle_broker_positions, Handle_broker_positions]
  · rw [Handle_user_positions, Handle_user_positions]
  · rw [Handle_journal]
    simp
  · rw [Handle_journal]
    cases cm.isFill <;> rfl

end DispatchClaims

/-! ## Cross-tier facts -/

section ConservationLemmas
variable {V : Type}

/-- A method that adds a fixed amount `δ` to `g` adds `δ` to the sum of the
security of the key it is applied under. -/
theorem Ledger.secSum_modify (pv : PositionValueOps V) (g : Position V → ℚ) (sec : Nat)
    (k : Key) (f : Position V → Position V) (δ : ℚ)
    (hf : ∀ p, g (f p) = g p + δ) (h0 : g (Position.init pv) = 0) (l : Ledger V) :
    Ledger.secSum g sec (Ledger.modify pv k f l)
      = Ledger.secSum g sec l + (if k.2 = sec then δ else 0) := by
  induction l with
  | nil =>
    unfold Ledger.secSum Ledger.modify
    by_cases h : k.2 = sec
    · simp [h, hf, h0]
    · simp [h]
  | cons a t ih =>
    obtain ⟨ka, pa⟩ := a
    unfold Ledger.secSum at ih ⊢
    by_cases hk : ka = k
    · subst hk
      simp only [Ledger.modify, if_true, List.map_cons, List.sum_cons]
      by_cases h : ka.2 = sec
      · simp only [h, if_true, hf]
        ring
      · simp only [h, if_false]
        ring
    · simp only [Ledger.modify, if_neg hk, List.map_cons, List.sum_cons, ih]
      ring

/-- Every method call adds to each of the six quantities an amount that does
not depend on the entry. -/
theorem Call_additive (pv : PositionValueOps V) (c : Call) (g : Position V → ℚ)
    (hg : g ∈ conservedFields V) :
    ∃ δ : ℚ, ∀ p : Position V, g (c.apply pv p) = g p + δ := by
  simp only [conservedFields, List.mem_cons, List.mem_singleton, List.not_mem_nil,
    or_false] at hg
  cases c with
  | new is_buy qty price m =>
    have ho := fun p : Position V => HandleNew_outstanding pv is_buy qty price m p
    have hj := fun p : Position V => HandleNew_journaled pv is_buy qty price m p
    rcases hg with rfl | rfl | rfl | rfl | rfl | rfl
    · exact ⟨0, fun p => by rw [add_zero]; exact congrArg Prod.fst (hj p)⟩
    · exact ⟨0, fun p => by rw [add_zero]; exact congrArg (fun x => x.2.1) (hj p)⟩
    · exact ⟨_, fun p => (ho p).1⟩
    · exact ⟨_, fun p => (ho p).2⟩
    · exact ⟨0, fun p => by
        rw [add_zero]; show (Position.HandleNew pv is_buy qty price m p).total_bought_qty = _
        unfold Position.HandleNew; cases is_buy <;> rfl⟩
    · exact ⟨0, fun p => by
        rw [add_zero]; show (Position.HandleNew pv is_buy qty price m p).total_sold_qty = _
        unfold Position.HandleNew; cases is_buy <;> rfl⟩
  | trade is_buy qty price price0 m is_bust is_otc is_cx =>
    have hc := fun p : Position V =>
      HandleTrade_counters pv is_buy qty price price0 m is_bust is_otc is_cx p
    rcases hg with rfl | rfl | rfl | rfl | rfl | rfl
    · exact ⟨_, fun p => HandleTrade_qty pv is_buy qty price price0 m is_bust is_otc is_cx p⟩
    · exact ⟨_, fun p => HandleTrade_cx_qty pv is_buy qty price price0 m is_bust is_otc is_cx p⟩
    · exact ⟨_, fun p => (hc p).1⟩
    · exact ⟨_, fun p => (hc p).2.1⟩
    · exact ⟨_, fun p => (hc p).2.2.1⟩
    · exact ⟨_, fun p => (hc p).2.2.2.1⟩
  | finish is_buy qty price m =>
    have ho := fun p : Position V => HandleFinish_outstanding pv is_buy qty price m p
    have hj := fun p : Position V => HandleFinish_journaled pv is_buy qty price m p
    rcases hg with rfl | rfl | rfl | rfl | rfl | rfl
    · exact ⟨0, fun p => by rw [add_zero]; exact congrArg Prod.fst (hj p)⟩
    · exact ⟨0, fun p => by rw [add_zero]; exact congrArg (fun x => x.2.1) (hj p)⟩
    · exact ⟨-(if is_buy then qty else 0), fun p => by rw [← sub_eq_add_neg]; exact (ho p).1⟩
    · exact ⟨-(if is_buy then 0 else qty), fun p => by rw [← sub_eq_add_neg]; exact (ho p).2⟩
    · exact ⟨0, fun p => by
        rw [add_zero]; show (Position.HandleFinish pv is_buy qty price m p).total_bought_qty = _
        unfold Position.HandleFinish; cases is_buy <;> rfl⟩
    · exact ⟨0, fun p => by
        rw [add_zero]; show (Position.HandleFinish pv is_buy qty price m p).total_sold_qty = _
        unfold Position.HandleFinish; cases is_buy <;> rfl⟩

theorem conservedFields_init (pv : PositionValueOps V) (g : Position V → ℚ)
    (hg : g ∈ conservedFields V) : g (Position.init pv) = 0 := by
  simp only [conservedFields, List.mem_cons, List.mem_singleton, List.not_mem_nil,
    or_false] at hg
  rcases hg with rfl | rfl | rfl | rfl | rfl | rfl <;> rfl

/-- One `Handle` adds the same amount to the sums of a security in the three
ledgers. -/
theorem Handle_secSum (pv : PositionValueOps V) (cm : Confirmation) (offline : Bool)
    (now : Nat) (s : PositionManager V) (g : Position V → ℚ) (hg : g ∈ conservedFields V)
    (sec : Nat) :
    ∃ δ : ℚ,
      Ledger.secSum g sec (PositionManager.Handle pv cm offline now s).sub_positions_
          = Ledger.secSum g sec s.sub_positions_ + δ ∧
        Ledger.secSum g sec (PositionManager.Handle pv cm offline now s).broker_positions_
          = Ledger.secSum g sec s.broker_positions_ + δ ∧
        Ledger.secSum g sec (PositionManager.Handle pv cm offline now s).user_positions_
          = Ledger.secSum g sec s.user_positions_ + δ := by
  rw [Handle_sub_positions, Handle_broker_positions, Handle_user_positions]
  cases cm.effect with
  | none => exact ⟨0, by simp⟩
  | some c =>
    obtain ⟨δ, hδ⟩ := Call_additive pv c g hg
    have h0 := conservedFields_init pv g hg
    refine ⟨if cm.order.sec.id = sec then δ else 0, ?_, ?_, ?_⟩
    · exact Ledger.secSum_modify pv g sec cm.order.subKey _ δ hδ h0 _
    · exact Ledger.secSum_modify pv g sec cm.order.brokerKey _ δ hδ h0 _
    · exact Ledger.secSum_modify pv g sec cm.order.userKey _ δ hδ h0 _

end ConservationLemmas

/-! ## Cross-tier conservation -/

section ConservationClaims
variable {V : Type}

/-- C20 as amended: cross-tier quantity conservation, over exact arithmetic.
Starting from three empty ledgers, after any finite sequence of `Handle` calls, for every security the sum of
`qty` over the sub-account entries of that security equals the sum over the
broker-account entries and the sum over the user entries; the same holds
for `cx_qty`, `total_outstanding_buy_qty`, `total_outstanding_sell_qty`,
`total_bought_qty` and `total_sold_qty`. -/
theorem C20_cross_tier_conservation (pv : PositionValueOps V)
    (evs : List (Confirmation × Bool × Nat)) (journal : List JournalRow) (sec : Nat)
    (g : Position V → ℚ) (hg : g ∈ conservedFields V) :
    Ledger.secSum g sec
        (PositionManager.runAny pv evs (PositionManager.empty pv journal)).sub_positions_
      = Ledger.secSum g sec
          (PositionManager.runAny pv evs (PositionManager.empty pv journal)).broker_positions_ ∧
    Ledger.secSum g sec
        (PositionManager.runAny pv evs (PositionManager.empty pv journal)).broker_positions_
      = Ledger.secSum g sec
          (PositionManager.runAny pv evs (PositionManager.empty pv journal)).user_positions_ := by
  have key : ∀ (l : List (Confirmation × Bool × Nat)) (s : PositionManager V),
      (Ledger.secSum g sec s.sub_positions_ = Ledger.secSum g sec s.broker_positions_ ∧
        Ledger.secSum g sec s.broker_positions_ = Ledger.secSum g sec s.user_positions_) →
      (Ledger.secSum g sec (PositionManager.runAny pv l s).sub_positions_
          = Ledger.secSum g sec (PositionManager.runAny pv l s).broker_positions_ ∧
        Ledger.secSum g sec (PositionManager.runAny pv l s).broker_positions_
          = Ledger.secSum g sec (PositionManager.runAny pv l s).user_positions_) := by
    intro l
    induction l with
    | nil => exact fun s h => h
    | cons e es ih =>
      intro s h
      have e1 : PositionManager.runAny pv (e :: es) s
          = PositionManager.runAny pv es (PositionManager.Handle pv e.1 e.2.1 e.2.2 s) := rfl
      rw [e1]
      apply ih
      obtain ⟨δ, h1, h2, h3⟩ := Handle_secSum pv e.1 e.2.1 e.2.2 s g hg sec
      rw [h1, h2, h3, h.1, h.2]
      exact ⟨rfl, rfl⟩
  exact key evs _ ⟨rfl, rfl⟩

/-- Witness of C20 on the three fills of `brokerExampleEvents`, for `qty` of
security 7. -/
theorem C20_cross_tier_conservation_witness :
    Ledger.secSum Position.qty 7
        (PositionManager.runAny unitOps
          [(filledConfirmation sampleOrder ExecTransType.kTransNew 100 10 0, false, 1),
            (filledConfirmation sampleOrderB ExecTransType.kTransNew 100 20 0, true, 2),
            (filledConfirmation sampleSellOrder ExecTransType.kTransNew 100 10 0, false, 3)]
          (PositionManager.empty unitOps [])).sub_positions_
      = Ledger.secSum Position.qty 7
          (PositionManager.runAny unitOps
            [(filledConfirmation sampleOrder ExecTransType.kTransNew 100 10 0, false, 1),
              (filledConfirmation sampleOrderB ExecTransType.kTransNew 100 20 0, true, 2),
              (filledConfirmation sampleSellOrder ExecTransType.kTransNew 100 10 0, false, 3)]
            (PositionManager.empty unitOps [])).broker_positions_ :=
  (C20_cross_tier_conservation unitOps _ [] 7 Position.qty (by simp [conservedFields])).1

end ConservationClaims

/-! ## Recovery fold facts -/

section FoldLemmas
variable {V : Type}

/-- The branch of `HandlePnl` for a delta that is not against the position. -/
theorem HandlePnl_same_side (d price m : ℚ) (p : Position V)
    (h1 : ¬ (p.qty > 0 ∧ d < 0)) (h2 : ¬ (p.qty < 0 ∧ d > 0)) :
    (HandlePnl d price m p).avg_px
        = (if p.qty + d = 0 then 0 else (p.qty * p.avg_px + d * price) / (p.qty + d)) ∧
      (HandlePnl d price m p).realized_pnl = p.realized_pnl := by
  unfold HandlePnl
  dsimp only
  rw [if_neg h1, if_neg h2]
  by_cases hz : p.qty + d = 0
  · rw [if_pos hz, if_pos hz]
    exact ⟨rfl, rfl⟩
  · rw [if_neg hz, if_neg hz]
    exact ⟨rfl, rfl⟩

/-- Folding a row into an entry of the same side (`σ` is 1 for long, -1 for
short): realized PnL adds up and `qty * avg_px` adds up. -/
theorem foldRow_same_side (sec : Security) (row : JournalRow) (p : Position V) (σ : ℚ)
    (hσ : σ = 1 ∨ σ = -1) (hp : 0 ≤ σ * p.qty) (hr : 0 ≤ σ * row.qty)
    (hflat : p.qty = 0 → p.avg_px = 0) :
    (foldRow sec row p).realized_pnl = p.realized_pnl + row.realized_pnl ∧
      (foldRow sec row p).qty * (foldRow sec row p).avg_px
        = p.qty * p.avg_px + row.qty * row.avg_px ∧
      ((foldRow sec row p).qty = 0 → (foldRow sec row p).avg_px = 0) ∧
      0 ≤ σ * (foldRow sec row p).qty := by
  have _ := hflat
  have h1 : ¬ (p.qty > 0 ∧ row.qty < 0) := by
    rintro ⟨a, b⟩
    rcases hσ with h | h <;> rw [h] at hp hr <;> linarith
  have h2 : ¬ (p.qty < 0 ∧ row.qty > 0) := by
    rintro ⟨a, b⟩
    rcases hσ with h | h <;> rw [h] at hp hr <;> linarith
  have hq := foldRow_qty sec row p
  have hs := HandlePnl_same_side row.qty row.avg_px (sec.multiplier * sec.rate)
    ({ p with realized_pnl := p.realized_pnl + row.realized_pnl } : Position V) h1 h2
  have ha : (foldRow sec row p).avg_px
      = (if p.qty + row.qty = 0 then 0
         else (p.qty * p.avg_px + row.qty * row.avg_px) / (p.qty + row.qty)) := hs.1
  have hre : (foldRow sec row p).realized_pnl = p.realized_pnl + row.realized_pnl := hs.2
  refine ⟨hre, ?_, ?_, ?_⟩
  · rw [hq, ha]
    by_cases hz : p.qty + row.qty = 0
    · rw [if_pos hz, hz, zero_mul]
      have hp0 : p.qty = 0 := by
        rcases hσ with h | h <;> rw [h] at hp hr <;> linarith
      have hr0 : row.qty = 0 := by
        rcases hσ with h | h <;> rw [h] at hp hr <;> linarith
      rw [hp0, hr0]
      ring
    · rw [if_neg hz, mul_div_cancel₀ _ hz]
  · intro hz
    rw [hq] at hz
    rw [ha, if_pos hz]
  · rw [hq, mul_add]
    linarith

/-- The broker-account entry of a key whose rows are all on one side, after
the row loop. -/
theorem Initialize_read_broker_same_side (pv : PositionValueOps V)
    (secs : Nat → Option Security) (σ : ℚ) (hσ : σ = 1 ∨ σ = -1) (bk : Key)
    (rows : List JournalRow) (hk : ∀ r ∈ rows, (secs r.security_id).isSome)
    (hside : ∀ r ∈ rows, r.brokerKey = bk → 0 ≤ σ * r.qty)
    (s : PositionManager V)
    (hp : 0 ≤ σ * (Ledger.read pv s.broker_positions_ bk).qty)
    (hflat : (Ledger.read pv s.broker_positions_ bk).qty = 0 →
      (Ledger.read pv s.broker_positions_ bk).avg_px = 0) :
    (Ledger.read pv (rows.foldl (PositionManager.InitializeRow pv secs) s).broker_positions_
        bk).realized_pnl
        = (Ledger.read pv s.broker_positions_ bk).realized_pnl
          + brokerSum JournalRow.realized_pnl bk rows ∧
      (Ledger.read pv (rows.foldl (PositionManager.InitializeRow pv secs) s).broker_positions_
          bk).qty
        * (Ledger.read pv (rows.foldl (PositionManager.InitializeRow pv secs) s).broker_positions_
          bk).avg_px
        = (Ledger.read pv s.broker_positions_ bk).qty
            * (Ledger.read pv s.broker_positions_ bk).avg_px
          + brokerSum (fun r => r.qty * r.avg_px) bk rows ∧
      ((Ledger.read pv (rows.foldl (PositionManager.InitializeRow pv secs) s).broker_positions_
          bk).qty = 0 →
        (Ledger.read pv (rows.foldl (PositionManager.InitializeRow pv secs) s).broker_positions_
          bk).avg_px = 0) := by
  induction rows generalizing s with
  | nil =>
    rw [List.foldl_nil, brokerSum_nil, brokerSum_nil, add_zero, add_zero]
    exact ⟨rfl, rfl, hflat⟩
  | cons r rs ih =>
    obtain ⟨sec, hsec⟩ := Option.isSome_iff_exists.mp (hk r (List.mem_cons_self r rs))
    have hread : Ledger.read pv (PositionManager.InitializeRow pv secs s r).broker_positions_ bk
        = if bk = r.brokerKey then foldRow sec r (Ledger.read pv s.broker_positions_ bk)
          else Ledger.read pv s.broker_positions_ bk := by
      rw [InitializeRow_broker_positions pv secs s r sec hsec, Ledger.read_modify]
      by_cases h : bk = r.brokerKey
      · rw [if_pos h, if_pos h, h]
      · rw [if_neg h, if_neg h]
    rw [List.foldl_cons, brokerSum_cons, brokerSum_cons]
    by_cases h : bk = r.brokerKey
    · have h' : r.brokerKey = bk := h.symm
      rw [if_pos h] at hread
      have hf := foldRow_same_side sec r (Ledger.read pv s.broker_positions_ bk) σ hσ hp
        (hside r (List.mem_cons_self r rs) h') hflat
      rw [← hread] at hf
      have hi := ih (fun x hx => hk x (List.mem_cons_of_mem r hx))
        (fun x hx => hside x (List.mem_cons_of_mem r hx))
        (PositionManager.InitializeRow pv secs s r) hf.2.2.2 hf.2.2.1
      rw [if_pos h', if_pos h', hi.1, hi.2.1, hf.1, hf.2.1]
      exact ⟨by ring, by ring, hi.2.2⟩
    · have h' : ¬ r.brokerKey = bk := fun e => h e.symm
      rw [if_neg h] at hread
      have hi := ih (fun x hx => hk x (List.mem_cons_of_mem r hx))
        (fun x hx => hside x (List.mem_cons_of_mem r hx))
        (PositionManager.InitializeRow pv secs s r) (by rw [hread]; exact hp)
        (by rw [hread]; exact hflat)
      rw [if_neg h', if_neg h', hi.1, hi.2.1, hread]
      exact ⟨by ring, by ring, hi.2.2⟩

/-- The row loop of `Initialize` makes the same updates, under the same keys,
to the user ledger as to the broker-account ledger. -/
theorem InitializeRows_user_eq_broker (pv : PositionValueOps V) (secs : Nat → Option Security)
    (rows : List JournalRow) (s : PositionManager V)
    (h : s.user_positions_ = s.broker_positions_) :
    (PositionManager.InitializeRows pv secs rows s).user_positions_
      = (PositionManager.InitializeRows pv secs rows s).broker_positions_ := by
  unfold PositionManager.InitializeRows
  induction rows generalizing s with
  | nil => exact h
  | cons r rs ih =>
    rw [List.foldl_cons]
    apply ih
    unfold PositionManager.InitializeRow
    cases secs r.security_id with
    | none => exact h
    | some sec =>
      simp only
      rw [h]

end FoldLemmas

/-! ## The recovery fold of the broker-account and user tiers -/

section FoldClaims
variable {V : Type}

/-- C14 as amended: recovery fold, broker-account tier, over exact
arithmetic.  For recovered rows of known securities, taken in any order, the
row loop of `Initialize` leaves each (broker-account, security) entry with `qty` the sum of the rows' `qty`
and `cx_qty` the sum of their `cx_qty`; when the rows of the key are all long
or flat, or all short or flat, it also leaves `realized_pnl` the sum of the
rows' `realized_pnl` and `avg_px` the quantity-weighted average
`sum(qty_i * avg_px_i) / sum(qty_i)` (0 when the summed `qty` is 0). -/
theorem C14_recovery_fold_same_side (pv : PositionValueOps V) (secs : Nat → Option Security)
    (rows rows' : List JournalRow) (journal : List JournalRow)
    (hk : ∀ r ∈ rows, (secs r.security_id).isSome) (hperm : rows'.Perm rows) (bk : Key) :
    (Ledger.read pv (PositionManager.InitializeRows pv secs rows'
          (PositionManager.empty pv journal)).broker_positions_ bk).qty
        = brokerSum JournalRow.qty bk rows ∧
      (Ledger.read pv (PositionManager.InitializeRows pv secs rows'
          (PositionManager.empty pv journal)).broker_positions_ bk).cx_qty
        = brokerSum JournalRow.cx_qty bk rows ∧
      (((∀ r ∈ rows, r.brokerKey = bk → 0 ≤ r.qty) ∨
          (∀ r ∈ rows, r.brokerKey = bk → r.qty ≤ 0)) →
        (Ledger.read pv (PositionManager.InitializeRows pv secs rows'
            (PositionManager.empty pv journal)).broker_positions_ bk).realized_pnl
          = brokerSum JournalRow.realized_pnl bk rows ∧
        (Ledger.read pv (PositionManager.InitializeRows pv secs rows'
            (PositionManager.empty pv journal)).broker_positions_ bk).avg_px
          = (if brokerSum JournalRow.qty bk rows = 0 then 0
             else brokerSum (fun r => r.qty * r.avg_px) bk rows
               / brokerSum JournalRow.qty bk rows)) := by
  have hk' : ∀ r ∈ rows', (secs r.security_id).isSome := fun r hr =>
    hk r (hperm.mem_iff.mp hr)
  have hsum : ∀ g : JournalRow → ℚ, brokerSum g bk rows' = brokerSum g bk rows := by
    intro g
    unfold brokerSum
    exact (hperm.map _).sum_eq
  have hq : (Ledger.read pv (PositionManager.InitializeRows pv secs rows'
      (PositionManager.empty pv journal)).broker_positions_ bk).qty
      = brokerSum JournalRow.qty bk rows := by
    unfold PositionManager.InitializeRows
    rw [Initialize_read_broker_sum pv secs JournalRow.qty Position.qty
      (fun sec row p => foldRow_qty sec row p) rows' hk', hsum]
    exact zero_add _
  refine ⟨hq, ?_, ?_⟩
  · unfold PositionManager.InitializeRows
    rw [Initialize_read_broker_sum pv secs JournalRow.cx_qty Position.cx_qty
      (fun sec row p => foldRow_cx_qty sec row p) rows' hk', hsum]
    exact zero_add _
  · intro hside
    have hmain : ∃ σ : ℚ, (σ = 1 ∨ σ = -1) ∧ ∀ r ∈ rows', r.brokerKey = bk → 0 ≤ σ * r.qty := by
      rcases hside with h | h
      · refine ⟨1, Or.inl rfl, fun r hr hb => ?_⟩
        rw [one_mul]
        exact h r (hperm.mem_iff.mp hr) hb
      · refine ⟨-1, Or.inr rfl, fun r hr hb => ?_⟩
        have := h r (hperm.mem_iff.mp hr) hb
        linarith
    obtain ⟨σ, hσ, hs⟩ := hmain
    have h := Initialize_read_broker_same_side pv secs σ hσ bk rows' hk' hs
      (PositionManager.empty pv journal)
      (by show 0 ≤ σ * (0 : ℚ); rw [mul_zero]) (fun _ => rfl)
    have e0 : (Ledger.read pv (PositionManager.empty pv journal).broker_positions_ bk).qty
        = 0 := rfl
    have e1 : (Ledger.read pv (PositionManager.empty pv journal).broker_positions_
        bk).realized_pnl = 0 := rfl
    rw [e0, e1, zero_mul, zero_add, zero_add, hsum, hsum] at h
    have hq' := hq
    unfold PositionManager.InitializeRows at hq' ⊢
    refine ⟨h.1, ?_⟩
    by_cases hz : brokerSum JournalRow.qty bk rows = 0
    · rw [if_pos hz]
      apply h.2.2
      rw [hq', hz]
    · rw [if_neg hz, ← h.2.1, hq', mul_comm, mul_div_assoc, div_self hz, mul_one]

/-- Witness of the amended C14: rows A (long 100 at 10) and C (long 100 at
30), taken as C then A, are all long; the rebuilt entry has the summed
`realized_pnl` and the weighted average price. -/
theorem C14_recovery_fold_same_side_witness :
    (Ledger.read unitOps (PositionManager.InitializeRows unitOps (fun _ => some sampleSecurity)
        [foldRowC, foldRowA] (PositionManager.empty unitOps [])).broker_positions_
        (1, 7)).realized_pnl
      = brokerSum JournalRow.realized_pnl (1, 7) [foldRowA, foldRowC] ∧
    (Ledger.read unitOps (PositionManager.InitializeRows unitOps (fun _ => some sampleSecurity)
        [foldRowC, foldRowA] (PositionManager.empty unitOps [])).broker_positions_
        (1, 7)).avg_px
      = (if brokerSum JournalRow.qty (1, 7) [foldRowA, foldRowC] = 0 then 0
         else brokerSum (fun r => r.qty * r.avg_px) (1, 7) [foldRowA, foldRowC]
           / brokerSum JournalRow.qty (1, 7) [foldRowA, foldRowC]) :=
  (C14_recovery_fold_same_side unitOps (fun _ => some sampleSecurity) [foldRowA, foldRowC]
    [foldRowC, foldRowA] [] (by simp) (List.Perm.swap foldRowA foldRowC []) (1, 7)).2.2
    (Or.inl (by simp [foldRowA, foldRowC]))

/-- Counterexample to C14 as stated.  Rows A (long 100 at 10) and B (short 50
at 20) of one broker account: the rebuilt entry has `avg_px = 10` and
`realized_pnl = 500`, where the weighted average is 0 and the summed
`realized_pnl` is 0.  With row C (long 100 at 30) added, the order A, B, C
gives `avg_px = 70/3` and the order A, C, B gives `avg_px = 20` (exact
arithmetic).  In double arithmetic: three rows of one broker account, long
0.1, 0.2 and 0.3 at 10, give one `qty` and `avg_px` in the order 1, 2, 3
and another in the order 3, 2, 1. -/
theorem C14_counterexample :
    ((Ledger.read unitOps (PositionManager.InitializeRows unitOps (fun _ => some sampleSecurity)
        [foldRowA, foldRowB] (PositionManager.empty unitOps [])).broker_positions_
        (1, 7)).avg_px = 10 ∧
      (Ledger.read unitOps (PositionManager.InitializeRows unitOps (fun _ => some sampleSecurity)
        [foldRowA, foldRowB] (PositionManager.empty unitOps [])).broker_positions_
        (1, 7)).realized_pnl = 500 ∧
      brokerSum (fun r => r.qty * r.avg_px) (1, 7) [foldRowA, foldRowB]
        / brokerSum JournalRow.qty (1, 7) [foldRowA, foldRowB] = 0 ∧
      brokerSum JournalRow.realized_pnl (1, 7) [foldRowA, foldRowB] = 0 ∧
      (Ledger.read unitOps (PositionManager.InitializeRows unitOps (fun _ => some sampleSecurity)
        [foldRowA, foldRowB, foldRowC] (PositionManager.empty unitOps [])).broker_positions_
        (1, 7)).avg_px = 70 / 3 ∧
      (Ledger.read unitOps (PositionManager.InitializeRows unitOps (fun _ => some sampleSecurity)
        [foldRowA, foldRowC, foldRowB] (PositionManager.empty unitOps [])).broker_positions_
        (1, 7)).avg_px = 20) ∧
      (∀ r ∈ roundingRows, r.brokerKey = (1, 7) → 0 ≤ r.qty) ∧
      (Ledger.read unitOps (fp.PositionManager.InitializeRows round64 unitOps
          (fun _ => some sampleSecurity) roundingRows
          (PositionManager.empty unitOps [])).broker_positions_ (1, 7)).qty
        ≠ (Ledger.read unitOps (fp.PositionManager.InitializeRows round64 unitOps
          (fun _ => some sampleSecurity) roundingRows.reverse
          (PositionManager.empty unitOps [])).broker_positions_ (1, 7)).qty ∧
      (Ledger.read unitOps (fp.PositionManager.InitializeRows round64 unitOps
          (fun _ => some sampleSecurity) roundingRows
          (PositionManager.empty unitOps [])).broker_positions_ (1, 7)).avg_px
        ≠ (Ledger.read unitOps (fp.PositionManager.InitializeRows round64 unitOps
          (fun _ => some sampleSecurity) roundingRows.reverse
          (PositionManager.empty unitOps [])).broker_positions_ (1, 7)).avg_px := by
  refine ⟨?_, by decide!⟩
  refine ⟨?_, ?_, ?_, ?_, ?_, ?_⟩ <;>
    simp [PositionManager.InitializeRows, PositionManager.InitializeRow, PositionManager.empty,
      foldRowA, foldRowB, foldRowC, foldRow, sampleSecurity, Ledger.read, Ledger.modify,
      Ledger.find, Ledger.emplace, HandlePnl, Position.init, unitOps, brokerSum,
      JournalRow.brokerKey] <;>
    norm_num

/-- The defect behind C15, evaluated: after one fill of an order of user 5
through broker account 2, the live user ledger holds `qty = 100` under
(user 5, security 7); the user ledger rebuilt from the journal holds nothing
under (5, 7) and `qty = 100` under (2, 7), the key of the broker account. -/
theorem C15_user_tier_keyed_by_broker_account :
    (Ledger.read unitOps userExampleLive.user_positions_ (5, 7)).qty = 100 ∧
      (Ledger.read unitOps userExampleRecovered.user_positions_ (5, 7)).qty = 0 ∧
      (Ledger.read unitOps userExampleRecovered.user_positions_ (2, 7)).qty = 100 := by
  have hj : userExampleLive.journal = [⟨5, 1, 7, 2, 100, 0, 10, 0, 1⟩] := by
    simp [userExampleLive, userExampleOrder, PositionManager.run, PositionManager.Handle,
      PositionManager.empty, filledConfirmation, sampleOrder, sampleSecurity, Ledger.read,
      Ledger.modify, Ledger.find, Position.HandleTrade, HandlePnl, Position.init, unitOps]
  refine ⟨?_, ?_, ?_⟩
  · simp [userExampleLive, userExampleOrder, PositionManager.run, PositionManager.Handle,
      PositionManager.empty, filledConfirmation, sampleOrder, sampleSecurity, Ledger.read,
      Ledger.modify, Ledger.find, Position.HandleTrade, HandlePnl, Position.init, unitOps]
  · unfold userExampleRecovered PositionManager.Initialize PositionManager.InitializeRows
    rw [show (PositionManager.empty unitOps userExampleLive.journal).journal
      = userExampleLive.journal from rfl, hj]
    simp [latestBefore, JournalRow.key, PositionManager.InitializeRow, PositionManager.empty,
      foldRow, sampleSecurity, Ledger.read, Ledger.modify, Ledger.find, Ledger.emplace,
      HandlePnl, Position.init, unitOps]
  · unfold userExampleRecovered PositionManager.Initialize PositionManager.InitializeRows
    rw [show (PositionManager.empty unitOps userExampleLive.journal).journal
      = userExampleLive.journal from rfl, hj]
    simp [latestBefore, JournalRow.key, PositionManager.InitializeRow, PositionManager.empty,
      foldRow, sampleSecurity, Ledger.read, Ledger.modify, Ledger.find, Ledger.emplace,
      HandlePnl, Position.init, unitOps]

end FoldClaims

/-! ## Reversal of a fill from the flat entry -/

section ReversalClaims
variable {V : Type}

end ReversalClaims

/-! ## Exact arithmetic is the rounded program at `rnd = id` -/

section BridgeLemmas
variable {V : Type}

theorem fp_HandlePnl_id : @fp.HandlePnl V id = @HandlePnl V := rfl

theorem fp_HandleTrade_id : @fp.Position.HandleTrade V id = @Position.HandleTrade V := rfl

theorem fp_HandleNew_id : @fp.Position.HandleNew V id = @Position.HandleNew V := rfl

theorem fp_HandleFinish_id : @fp.Position.HandleFinish V id = @Position.HandleFinish V := rfl

theorem fp_Handle_id (pv : PositionValueOps V) (cm : Confirmation) (offline : Bool) (now : Nat)
    (s : PositionManager V) :
    fp.PositionManager.Handle id pv cm offline now s
      = PositionManager.Handle pv cm offline now s := by
  unfold fp.PositionManager.Handle PositionManager.Handle
  rw [fp_HandleTrade_id, fp_HandleNew_id, fp_HandleFinish_id]
  rfl

theorem fp_foldRow_id : @fp.foldRow V id = @foldRow V := rfl

theorem fp_InitializeRow_id (pv : PositionValueOps V) (secs : Nat → Option Security)
    (s : PositionManager V) (row : JournalRow) :
    fp.PositionManager.InitializeRow id pv secs s row
      = PositionManager.InitializeRow pv secs s row := by
  unfold fp.PositionManager.InitializeRow PositionManager.InitializeRow
  rw [fp_foldRow_id]

theorem fp_InitializeRows_id (pv : PositionValueOps V) (secs : Nat → Option Security)
    (rows : List JournalRow) (s : PositionManager V) :
    fp.PositionManager.InitializeRows id pv secs rows s
      = PositionManager.InitializeRows pv secs rows s := by
  have h : fp.PositionManager.InitializeRow id pv secs = PositionManager.InitializeRow pv secs := by
    funext s row
    exact fp_InitializeRow_id pv secs s row
  unfold fp.PositionManager.InitializeRows PositionManager.InitializeRows
  rw [h]

end BridgeLemmas

/-! ## PnL publication facts -/

section PublishLemmas
variable {V : Type}

theorem pnlFind_addPnl (rnd : ℚ → ℚ) (a acc : Nat) (r u : ℚ) (m : List (Nat × ℚ × ℚ)) :
    pnlFind a (addPnl rnd acc r u m)
      = if a = acc then
          some (rnd (((pnlFind acc m).getD (0, 0)).1 + r),
            rnd (((pnlFind acc m).getD (0, 0)).2 + u))
        else pnlFind a m := by
  induction m with
  | nil =>
    by_cases h : a = acc
    · subst h; simp [addPnl, pnlFind]
    · have h' : ¬ acc = a := fun e => h e.symm
      simp [addPnl, pnlFind, h, h']
  | cons e t ih =>
    obtain ⟨k, v⟩ := e
    by_cases hk : k = acc
    · subst hk
      by_cases h : a = k
      · subst h; simp [addPnl, pnlFind]
      · have h' : ¬ k = a := fun e => h e.symm
        simp [addPnl, pnlFind, h, h']
    · by_cases h : a = acc
      · subst h
        simp [addPnl, pnlFind, hk, ih]
      · by_cases hka : k = a
        · subst hka; simp [addPnl, pnlFind, hk, h]
        · simp [addPnl, pnlFind, hk, h, hka, ih]

theorem addPnl_keys (rnd : ℚ → ℚ) (acc : Nat) (r u : ℚ) (m : List (Nat × ℚ × ℚ)) :
    (addPnl rnd acc r u m).map Prod.fst
      = if acc ∈ m.map Prod.fst then m.map Prod.fst else m.map Prod.fst ++ [acc] := by
  induction m with
  | nil => simp [addPnl]
  | cons e t ih =>
    obtain ⟨k, v⟩ := e
    by_cases hk : k = acc
    · subst hk; simp [addPnl]
    · have hk' : ¬ acc = k := fun e => hk e.symm
      by_cases hm : acc ∈ t.map Prod.fst
      · rw [if_pos hm] at ih
        have hm' : acc ∈ ((k, v) :: t).map Prod.fst := by
          rw [List.map_cons]; exact List.mem_cons_of_mem _ hm
        rw [if_pos hm']
        simp only [addPnl, if_neg hk, List.map_cons, ih]
      · rw [if_neg hm] at ih
        have hm' : ¬ acc ∈ ((k, v) :: t).map Prod.fst := by
          rw [List.map_cons, List.mem_cons]
          rintro (h | h)
          · exact hk' h
          · exact hm h
        rw [if_neg hm']
        simp only [addPnl, if_neg hk, List.map_cons, ih, List.cons_append]

theorem addPnl_nodup (rnd : ℚ → ℚ) (acc : Nat) (r u : ℚ) (m : List (Nat × ℚ × ℚ))
    (h : (m.map Prod.fst).Nodup) : ((addPnl rnd acc r u m).map Prod.fst).Nodup := by
  rw [addPnl_keys]
  by_cases hm : acc ∈ m.map Prod.fst
  · rw [if_pos hm]; exact h
  · rw [if_neg hm]
    rw [List.nodup_append]
    refine ⟨h, List.nodup_singleton _, ?_⟩
    intro x hx hx'
    rw [List.mem_singleton] at hx'
    subst hx'
    exact hm hx

theorem aggregate_nodup (rnd : ℚ → ℚ) (l : Ledger V) (m : List (Nat × ℚ × ℚ))
    (h : (m.map Prod.fst).Nodup) :
    ((l.foldl (fun m e => addPnl rnd e.1.1 e.2.realized_pnl e.2.unrealized_pnl m) m).map
      Prod.fst).Nodup := by
  induction l generalizing m with
  | nil => exact h
  | cons e t ih => exact ih _ (addPnl_nodup rnd _ _ _ m h)

theorem Ledger.hasAccount_cons (a : Nat) (e : Key × Position V) (t : Ledger V) :
    Ledger.hasAccount a (e :: t) = if e.1.1 = a then true else Ledger.hasAccount a t := by
  unfold Ledger.hasAccount
  by_cases h : e.1.1 = a
  · rw [if_pos h, List.any_cons, decide_eq_true h, Bool.true_or]
  · rw [if_neg h, List.any_cons, decide_eq_false h, Bool.false_or]

theorem Ledger.hasAccount_inOrder (a : Nat) (l : Ledger V) :
    Ledger.hasAccount a (Ledger.inOrder l) = Ledger.hasAccount a l := by
  have hp : (Ledger.inOrder l).Perm l := List.perm_insertionSort _ l
  have key : ∀ l1 l2 : Ledger V, l1.Perm l2 →
      (Ledger.hasAccount a l1 = true → Ledger.hasAccount a l2 = true) := by
    intro l1 l2 h12 h1
    unfold Ledger.hasAccount at h1 ⊢
    rw [List.any_eq_true] at h1 ⊢
    obtain ⟨x, hx, hxa⟩ := h1
    exact ⟨x, h12.mem_iff.mp hx, hxa⟩
  cases h1 : Ledger.hasAccount a (Ledger.inOrder l) with
  | true => exact (key _ _ hp h1).symm
  | false =>
    cases h2 : Ledger.hasAccount a l with
    | false => rfl
    | true =>
      have := key _ _ hp.symm h2
      rw [h1] at this
      exact this

theorem accFoldFrom_cons (rnd : ℚ → ℚ) (g : Position V → ℚ) (a : Nat) (x : ℚ)
    (e : Key × Position V) (t : Ledger V) :
    accFoldFrom rnd g a x (e :: t)
      = if e.1.1 = a then accFoldFrom rnd g a (rnd (x + g e.2)) t else accFoldFrom rnd g a x t := by
  unfold accFoldFrom
  by_cases h : e.1.1 = a
  · rw [if_pos h, List.filter_cons_of_pos (by rw [decide_eq_true h]), List.foldl_cons]
  · rw [if_neg h, List.filter_cons_of_neg (by rw [decide_eq_false h]; exact Bool.false_ne_true)]

theorem pnlFind_aggregate (rnd : ℚ → ℚ) (a : Nat) (l : Ledger V) (m : List (Nat × ℚ × ℚ)) :
    pnlFind a (l.foldl (fun m e => addPnl rnd e.1.1 e.2.realized_pnl e.2.unrealized_pnl m) m)
      = if (pnlFind a m).isSome ∨ Ledger.hasAccount a l = true then
          some (accFoldFrom rnd Position.realized_pnl a ((pnlFind a m).getD (0, 0)).1 l,
            accFoldFrom rnd Position.unrealized_pnl a ((pnlFind a m).getD (0, 0)).2 l)
        else none := by
  induction l generalizing m with
  | nil =>
    cases hf : pnlFind a m with
    | none => simp [Ledger.hasAccount, accFoldFrom, hf]
    | some v => simp [Ledger.hasAccount, accFoldFrom, hf]
  | cons e t ih =>
    rw [List.foldl_cons, ih, pnlFind_addPnl, Ledger.hasAccount_cons, accFoldFrom_cons,
      accFoldFrom_cons]
    by_cases h : e.1.1 = a
    · have h' : a = e.1.1 := h.symm
      rw [if_pos h', if_pos h, if_pos h, if_pos h]
      subst h
      simp
    · have h' : ¬ a = e.1.1 := fun x => h x.symm
      rw [if_neg h', if_neg h, if_neg h, if_neg h]

theorem pnlFind_none_of_not_mem (a : Nat) (m : List (Nat × ℚ × ℚ))
    (h : a ∉ m.map Prod.fst) : pnlFind a m = none := by
  induction m with
  | nil => rfl
  | cons e t ih =>
    obtain ⟨k, v⟩ := e
    rw [List.map_cons, List.mem_cons, not_or] at h
    have hk : ¬ k = a := fun x => h.1 x.symm
    simp only [pnlFind, if_neg hk]
    exact ih h.2

theorem publishOne_at (rnd : ℚ → ℚ) (tm : Nat) (p : Nat → Pnl) (a : Nat) (v : ℚ × ℚ) :
    publishOne rnd tm p (a, v) a
      = if |rnd ((p a).realized - v.1)| < 1 ∧ |rnd ((p a).unrealized - v.2)| < 1 then p a
        else { realized := v.1, unrealized := v.2, of := (p a).of ++ [(tm, v.1, v.2)] } := by
  unfold publishOne
  by_cases h : |rnd ((p a).realized - v.1)| < 1 ∧ |rnd ((p a).unrealized - v.2)| < 1
  · rw [if_pos h, if_pos h]
  · rw [if_neg h, if_neg h, Function.update_same]

theorem publishOne_other (rnd : ℚ → ℚ) (tm : Nat) (p : Nat → Pnl) (a : Nat) (e : Nat × ℚ × ℚ)
    (h : e.1 ≠ a) : publishOne rnd tm p e a = p a := by
  unfold publishOne
  split
  · rfl
  · exact Function.update_noteq (fun x => h x.symm) _ _

theorem publish_fold (rnd : ℚ → ℚ) (tm : Nat) (a : Nat) (m : List (Nat × ℚ × ℚ)) (p : Nat → Pnl)
    (h : (m.map Prod.fst).Nodup) :
    (m.foldl (publishOne rnd tm) p) a
      = match pnlFind a m with
        | none => p a
        | some v => publishOne rnd tm p (a, v) a := by
  induction m generalizing p with
  | nil => rfl
  | cons e t ih =>
    obtain ⟨k, v⟩ := e
    rw [List.map_cons, List.nodup_cons] at h
    rw [List.foldl_cons, ih _ h.2]
    by_cases hk : k = a
    · subst hk
      rw [pnlFind_none_of_not_mem k t h.1]
      simp [pnlFind]
    · simp only [pnlFind, if_neg hk]
      cases pnlFind a t with
      | none => exact publishOne_other rnd tm p a (k, v) hk
      | some w =>
        simp only
        rw [publishOne_at, publishOne_at, publishOne_other rnd tm p a (k, v) hk]

/-- At a last published pair (0.01, 0) and a new pair (-0.99, 0) the exact
difference is below 1 and the difference that the compiled program computes
is 1: the line is written. -/
theorem publishOne_at_threshold :
    |dbl 1 100 - dbl (-99) 100| < 1 ∧
      (publishOne round64 5 (fun _ => ⟨dbl 1 100, 0, []⟩) (1, dbl (-99) 100, 0) 1).of
        = [(5, dbl (-99) 100, 0)] := by
  decide!

end PublishLemmas

/-! ## Threshold dedupe of the PnL publisher -/

section PublishClaims
variable {V : Type}

/-- C16: threshold dedupe.  In one pass of `UpdatePnl`, whatever the rounding
of the arithmetic, for every sub-account `a` that has an entry in the
sub-account ledger, with `r` and `u` the sums of `realized_pnl` and
`unrealized_pnl` that the loop accumulates over its entries after
`UpdateBalance` and `(r0, u0)` the pair last published: when `|r0 - r| >= 1`
or `|u0 - u| >= 1`, the differences being the ones the program computes, the
pair becomes `(r, u)` and the line `(tm, r, u)` is appended; otherwise (both
below 1) the element of `pnls_` is left as it was.  A sub-account without an
entry is left as it was. -/
theorem C16_threshold_dedupe (rnd : ℚ → ℚ) (bo : BalanceOps V) (sm : SecurityManager)
    (am : AccountManager) (tm : Nat) (s : PositionManager V) (pnls_ : Nat → Pnl) (a : Nat) :
    (PositionManager.UpdatePnl rnd bo sm am tm s pnls_).2 a
      = if Ledger.hasAccount a
              (PositionManager.UpdatePnl rnd bo sm am tm s pnls_).1.sub_positions_ = true ∧
          (1 ≤ |rnd ((pnls_ a).realized - Ledger.accFold rnd Position.realized_pnl a
                (PositionManager.UpdatePnl rnd bo sm am tm s pnls_).1.sub_positions_)| ∨
            1 ≤ |rnd ((pnls_ a).unrealized - Ledger.accFold rnd Position.unrealized_pnl a
                (PositionManager.UpdatePnl rnd bo sm am tm s pnls_).1.sub_positions_)|) then
          { realized := Ledger.accFold rnd Position.realized_pnl a
              (PositionManager.UpdatePnl rnd bo sm am tm s pnls_).1.sub_positions_
            unrealized := Ledger.accFold rnd Position.unrealized_pnl a
              (PositionManager.UpdatePnl rnd bo sm am tm s pnls_).1.sub_positions_
            of := (pnls_ a).of ++
              [(tm,
                Ledger.accFold rnd Position.realized_pnl a
                  (PositionManager.UpdatePnl rnd bo sm am tm s pnls_).1.sub_positions_,
                Ledger.accFold rnd Position.unrealized_pnl a
                  (PositionManager.UpdatePnl rnd bo sm am tm s pnls_).1.sub_positions_)] }
        else pnls_ a := by
  have e2 : (PositionManager.UpdatePnl rnd bo sm am tm s pnls_).2
      = (aggregatePnl rnd
          (PositionManager.UpdatePnl rnd bo sm am tm s pnls_).1.sub_positions_).foldl
          (publishOne rnd tm) pnls_ := rfl
  rw [e2]
  generalize (PositionManager.UpdatePnl rnd bo sm am tm s pnls_).1.sub_positions_ = l
  unfold aggregatePnl Ledger.accFold
  rw [publish_fold rnd tm a _ pnls_ (aggregate_nodup rnd (Ledger.inOrder l) [] List.nodup_nil),
    pnlFind_aggregate, Ledger.hasAccount_inOrder]
  by_cases hacc : Ledger.hasAccount a l = true
  · simp only [hacc, pnlFind, Option.isSome_none, Bool.false_eq_true, false_or, if_true,
      Option.getD_none, true_and]
    rw [publishOne_at]
    by_cases hc : |rnd ((pnls_ a).realized
          - accFoldFrom rnd Position.realized_pnl a 0 (Ledger.inOrder l))| < 1 ∧
        |rnd ((pnls_ a).unrealized
          - accFoldFrom rnd Position.unrealized_pnl a 0 (Ledger.inOrder l))| < 1
    · have hn : ¬ (1 ≤ |rnd ((pnls_ a).realized
            - accFoldFrom rnd Position.realized_pnl a 0 (Ledger.inOrder l))| ∨
          1 ≤ |rnd ((pnls_ a).unrealized
            - accFoldFrom rnd Position.unrealized_pnl a 0 (Ledger.inOrder l))|) := by
        rintro (h | h)
        · exact absurd hc.1 (not_lt.mpr h)
        · exact absurd hc.2 (not_lt.mpr h)
      rw [if_pos hc, if_neg hn]
    · have hp : 1 ≤ |rnd ((pnls_ a).realized
            - accFoldFrom rnd Position.realized_pnl a 0 (Ledger.inOrder l))| ∨
          1 ≤ |rnd ((pnls_ a).unrealized
            - accFoldFrom rnd Position.unrealized_pnl a 0 (Ledger.inOrder l))| := by
        by_contra hcon
        rw [not_or, not_le, not_le] at hcon
        exact hc hcon
      rw [if_neg hc, if_pos hp]
  · simp only [hacc, pnlFind, Option.isSome_none, Bool.false_eq_true, false_or, if_false,
      false_and]

end PublishClaims

/-! ## Double arithmetic against the exact statements -/

section RoundingClaims

/-- Counterexample to C3 as stated, in double arithmetic: a buy order of 0.9
is entered on the all-zero entry and filled 0.2, 0.2 and 0.5; the fills are
positive and sum to exactly the double 0.9, and after the last fill the
compiled program holds a negative `total_outstanding_buy_qty`. -/
theorem C3_counterexample :
    (∀ f ∈ roundingFills, 0 < f.qty) ∧
      filledQty roundingFills = dbl 9 10 ∧
      (fp.runCalls round64 unitOps (lifecycle true (dbl 9 10) 10 1 roundingFills false)
        (Position.init unitOps)).total_outstanding_buy_qty < 0 := by
  decide!

/-- Counterexample to C17 as stated, in double arithmetic: on an entry whose
outstanding buy quantity is the double 0.1, HandleNew(buy, 0.2) followed by
HandleFinish(buy, 0.2) leaves an outstanding buy quantity other than 0.1. -/
theorem C17_counterexample :
    (fp.Position.HandleFinish round64 unitOps true (dbl 2 10) 10 1
        (fp.Position.HandleNew round64 unitOps true (dbl 2 10) 10 1
          roundingEntry)).total_outstanding_buy_qty
      ≠ roundingEntry.total_outstanding_buy_qty := by
  decide!

/-- Counterexample to C20 as stated, in double arithmetic: after
`roundingEvents` on three empty ledgers, the `qty` of the sub-account entries
of security 7 and the `qty` of its broker-account entries have different
sums. -/
theorem C20_counterexample :
    Ledger.secSum Position.qty 7
        (fp.PositionManager.runAny round64 unitOps
          (roundingEvents.map (fun e => (e.1, false, e.2)))
          (PositionManager.empty unitOps [])).sub_positions_
      ≠ Ledger.secSum Position.qty 7
          (fp.PositionManager.runAny round64 unitOps
            (roundingEvents.map (fun e => (e.1, false, e.2)))
            (PositionManager.empty unitOps [])).broker_positions_ := by
  decide!

end RoundingClaims

end opentrade
